import Mathlib

/-!
# x11-graph-serial: serial CSV plotters

A shallow embedding of the buffer, parser and range code of
`pthread_serial.c` and `serial_plotter_resize.c`, with the properties the
specification states about them.

Conventions of the embedding

* C `int`/`long` values are `Int`.  Every value `enqueue` and `dequeue`
  compute stays between `-1` and `size`, and every index of the read loops
  below `2 * size`, so no `int` operation wraps for a capacity up to `2^30`.
  Loop counters that start at 0 and only increase are `Nat`.  Where a `long`
  is computed from timestamps, which `atol` can make as large as the type
  allows (`xCoord` of `serial_plotter_resize.c`), every operation reduces its
  result to 64 bits with `wrapLong`.
* C `double`/`float` values are rationals: arithmetic and comparisons are
  exact, rounding is not modelled.  The statements made for every value a
  `double` or `float` can hold, infinities and NaN included, are about the
  definitions of the namespaces `PthreadSerial.Floats` and
  `SerialPlotterResize.Floats`, whose values are of type `Ieee.Fp`.
* An uninitialised C object (a `malloc` block, a local `DataPoint`, the local
  `char line[256]`) is an extra argument holding its arbitrary prior content.
* Text is `List Char`; a C string stops at the first NUL character.
* The conversions `atol` and `atof` of the C library are arguments of the
  functions that call them, so every general statement holds for any
  conversion; `Libc.decimal_atol` and `Libc.decimal_atof` are executable
  versions for decimal notation, used on concrete inputs.
-/

/-! ## C library -/

namespace Libc

/-- The characters of the C string stored at the start of a `char` array:
everything before the first NUL. -/
def cstr (a : List Char) : List Char :=
  a.takeWhile (fun c => c ≠ '\x00')

/-- The tokens returned by `strtok(s, delim)` followed by repeated
`strtok(NULL, delim)` for a one-character delimiter set: the maximal
non-empty runs of non-delimiter characters, in order.  The k-th call returns
the k-th element; `NULL` is returned once the list is exhausted. -/
def strtokAll (delim : Char) (s : List Char) : List (List Char) :=
  (s.splitOn delim).filter (fun t => t ≠ [])

/-- `isspace` in the C locale. -/
def isspace (c : Char) : Bool :=
  c = ' ' || c = '\t' || c = '\n' || c = '\x0b' || c = '\x0c' || c = '\r'

/-- Value of the leading run of decimal digits of `s`, continuing from `acc`. -/
def digitsValue (acc : Nat) : List Char → Nat
  | [] => acc
  | c :: cs => if c.isDigit then digitsValue (acc * 10 + (c.toNat - 48)) cs else acc

/-- Splits an optional sign off: `true` for a leading minus. -/
def takeSign : List Char → Bool × List Char
  | '-' :: r => (true, r)
  | '+' :: r => (false, r)
  | r => (false, r)

/-- `atol` on decimal notation: white space, an optional sign, then the
longest run of digits; 0 when there is no digit.  A value outside the range of
`long` is clamped, as `strtol` does. -/
def decimal_atol (s : List Char) : Int :=
  let (neg, r) := takeSign (s.dropWhile isspace)
  let n : Int := Int.ofNat (digitsValue 0 r)
  let v : Int := if neg then -n else n
  max (-(2 ^ 63)) (min v (2 ^ 63 - 1))

/-- Exponent part of a decimal floating constant: `e` or `E`, an optional
sign and at least one digit; 0 when absent. -/
def decimalExponent : List Char → Int
  | [] => 0
  | c :: r =>
    if c = 'e' || c = 'E' then
      let (neg, d) := takeSign r
      let n : Int := Int.ofNat (digitsValue 0 d)
      if neg then -n else n
    else 0

/-- `atof` on decimal notation, in exact arithmetic: white space, an optional
sign, digits with an optional fraction, an optional exponent; 0 when there is
no digit.  The hexadecimal, infinity and NaN forms of `strtod` are not
covered. -/
def decimal_atof (s : List Char) : ℚ :=
  let (neg, r) := takeSign (s.dropWhile isspace)
  let ip := r.takeWhile Char.isDigit
  let r1 := r.dropWhile Char.isDigit
  let fr := match r1 with
    | '.' :: f => f.takeWhile Char.isDigit
    | _ => []
  let r2 := match r1 with
    | '.' :: f => f.dropWhile Char.isDigit
    | _ => r1
  let m : ℚ := ((digitsValue 0 (ip ++ fr) : Nat) : ℚ) / (10 : ℚ) ^ fr.length
  let v : ℚ := if ip = [] ∧ fr = [] then 0 else m * (10 : ℚ) ^ decimalExponent r2
  if neg then -v else v

/-- A decimal integer numeral: an optional sign and at least one digit. -/
def isInteger (t : List Char) : Bool :=
  let r := (takeSign t).2
  !r.isEmpty && r.all Char.isDigit

/-- A decimal number numeral: an optional sign, digits and an optional
fraction, with at least one digit. -/
def isDecimal (t : List Char) : Bool :=
  let r := (takeSign t).2
  let ip := r.takeWhile Char.isDigit
  match r.dropWhile Char.isDigit with
  | [] => !ip.isEmpty
  | c :: f => c = '.' && f.all Char.isDigit && !(ip.isEmpty && f.isEmpty)

/-- A token that stands for itself inside a line: not empty and free of
commas, line terminators and NUL.  Every numeral is one. -/
def IsField (t : List Char) : Prop :=
  t ≠ [] ∧ ∀ c ∈ t, c ≠ ',' ∧ c ≠ '\n' ∧ c ≠ '\r' ∧ c ≠ '\x00'

/-- The line `t0,t1,...,tn`: the tokens separated by single commas. -/
def csv (tokens : List (List Char)) : List Char :=
  [','].intercalate tokens

end Libc

/-! ## pthread_serial.c -/

namespace PthreadSerial

/-- `#define MAX_DATA 8`. -/
def MAX_DATA : Nat := 8

/-- `typedef struct { double timestamp; double values[MAX_DATA]; } DataPoint;` -/
structure DataPoint where
  timestamp : ℚ
  values : List ℚ
deriving DecidableEq

instance : Inhabited DataPoint := ⟨⟨0, []⟩⟩

/-- `typedef struct { DataPoint *data; int size, start, end, count; } DataBuffer;`
(`end_` is the field `end`). -/
structure DataBuffer where
  data : List DataPoint
  size : Int
  start : Int
  end_ : Int
  count : Int

/-- The array read `data[i]`. -/
def readAt (data : List DataPoint) (i : Int) : DataPoint :=
  data.getD i.toNat default

/-- The array write `data[i] = p`. -/
def writeAt (data : List DataPoint) (i : Int) (p : DataPoint) : List DataPoint :=
  data.set i.toNat p

/-- `void init_buffer(int size)`; `mem` is the block returned by `malloc`. -/
def init_buffer (size : Int) (mem : List DataPoint) : DataBuffer :=
  { data := mem, size := size, start := 0, end_ := -1, count := 0 }

/-- `int is_empty()`. -/
def is_empty (b : DataBuffer) : Bool := b.count == 0

/-- `int is_full()`. -/
def is_full (b : DataBuffer) : Bool := b.count == b.size

/-- `void enqueue(DataPoint point)`, as one atomic step: the semaphore calls
around the body are left out. -/
def enqueue (b : DataBuffer) (point : DataPoint) : DataBuffer :=
  let b1 : DataBuffer :=
    if is_full b then
      { b with start := Int.tmod (b.start + 1) b.size, count := b.count - 1 }
    else b
  let e := Int.tmod (b1.end_ + 1) b1.size
  { b1 with end_ := e, data := writeAt b1.data e point, count := b1.count + 1 }

/-- `DataPoint dequeue()`, as one atomic step: the returned point and the new
buffer. -/
def dequeue (b : DataBuffer) : DataPoint × DataBuffer :=
  let point := readAt b.data b.start
  if !is_empty b then
    (point, { b with start := Int.tmod (b.start + 1) b.size, count := b.count - 1 })
  else (point, b)

/-- The samples in logical order, `data[(start + i) % size]` for
`i = 0 .. count - 1`, as every loop of `draw_graph` reads them. -/
def contents (b : DataBuffer) : List DataPoint :=
  (List.range b.count.toNat).map
    (fun (i : Nat) => readAt b.data (Int.tmod (b.start + Int.ofNat i) b.size))

/-- Representation invariant of the ring. -/
structure Inv (b : DataBuffer) : Prop where
  size_pos : 0 < b.size
  len : (b.data.length : Int) = b.size
  start_lo : 0 ≤ b.start
  start_hi : b.start < b.size
  count_lo : 0 ≤ b.count
  count_hi : b.count ≤ b.size
  end_lo : -1 ≤ b.end_
  end_hi : b.end_ < b.size
  end_eq : Int.tmod (b.end_ + 1) b.size = Int.tmod (b.start + b.count) b.size

/-- The array read `point.values[j]`. -/
def valueAt (point : DataPoint) (j : Nat) : ℚ :=
  point.values.getD j 0

/-- The `while (token != NULL && i <= num_data)` loop of `parse_line`:
`tokens` are the tokens still to come from `strtok`, the head being `token`. -/
def parseLoop (atof : List Char → ℚ) (num_data : Nat) :
    List (List Char) → Nat → DataPoint → DataPoint
  | [], _, point => point
  | token :: rest, i, point =>
    if i ≤ num_data then
      parseLoop atof num_data rest (i + 1)
        (if i = 0 then { point with timestamp := atof token }
         else { point with values := point.values.set (i - 1) (atof token) })
    else point

/-- `void parse_line(char *line)`; `point` is the uninitialised local the
tokens are stored into. -/
def parse_line (atof : List Char → ℚ) (num_data : Nat) (point : DataPoint)
    (line : List Char) (b : DataBuffer) : DataBuffer :=
  enqueue b (parseLoop atof num_data (Libc.strtokAll ',' (Libc.cstr line)) 0 point)

/-- The locals `min_x, max_x, min_y, max_y` of `draw_graph`. -/
structure Range where
  min_x : ℚ
  max_x : ℚ
  min_y : ℚ
  max_y : ℚ
deriving DecidableEq

/-- Body of the inner loop `for (j = 0; j < num_data; j++)` of the range scan. -/
def scanValue (point : DataPoint) (r : Range) (j : Nat) : Range :=
  let r1 := if valueAt point j < r.min_y then { r with min_y := valueAt point j } else r
  if valueAt point j > r1.max_y then { r1 with max_y := valueAt point j } else r1

/-- Body of the outer loop of the range scan, for one data point. -/
def scanPoint (num_data : Nat) (r : Range) (point : DataPoint) : Range :=
  let r1 := if point.timestamp < r.min_x then { r with min_x := point.timestamp } else r
  let r2 := if point.timestamp > r1.max_x then { r1 with max_x := point.timestamp } else r1
  (List.range num_data).foldl (scanValue point) r2

/-- The range scan of `draw_graph`: the values of `min_x, max_x, min_y, max_y`
when the scaling factors are computed. -/
def draw_graph_range (num_data : Nat) (b : DataBuffer) : Range :=
  let first := readAt b.data b.start
  let r0 : Range :=
    { min_x := first.timestamp, max_x := first.timestamp,
      min_y := valueAt first 0, max_y := valueAt first 0 }
  (List.range b.count.toNat).foldl
    (fun r (i : Nat) =>
      scanPoint num_data r (readAt b.data (Int.tmod (b.start + Int.ofNat i) b.size)))
    r0

/-- The part of a stored point the program defines: the timestamp and the
first `num_data` values. -/
def DataPoint.fields (num_data : Nat) (p : DataPoint) : ℚ × List ℚ :=
  (p.timestamp, p.values.take num_data)

/-- The sample a well-formed line denotes: the first token converted as the
timestamp, the next `num_data` tokens as the values. -/
def sampleOf (atof : List Char → ℚ) (num_data : Nat) (tokens : List (List Char)) :
    ℚ × List ℚ :=
  (atof (tokens.headD []), ((tokens.drop 1).take num_data).map atof)

/-- The buffer after `parse_line` has been called on each line in turn; every
call comes with the content of its uninitialised local. -/
def parse_lines (atof : List Char → ℚ) (num_data : Nat) (b : DataBuffer)
    (calls : List (DataPoint × List Char)) : DataBuffer :=
  calls.foldl (fun b x => parse_line atof num_data x.1 x.2 b) b

/-- One buffer operation of the producer or a consumer. -/
inductive Op where
  | enq (p : DataPoint)
  | deq

/-- Effect of one operation on the buffer. -/
def Op.apply (b : DataBuffer) : Op → DataBuffer
  | .enq p => enqueue b p
  | .deq => (dequeue b).2

/-- The buffer after a sequence of `enqueue` and `dequeue` calls. -/
def runOps (b : DataBuffer) (ops : List Op) : DataBuffer :=
  ops.foldl Op.apply b

/-- `lo` and `hi` are the smallest and the largest element of `l`. -/
def IsMinMax (l : List ℚ) (lo hi : ℚ) : Prop :=
  lo ∈ l ∧ hi ∈ l ∧ ∀ x ∈ l, lo ≤ x ∧ x ≤ hi

/-- The range `r` is exactly the extent of the samples: `min_x`/`max_x` are
the smallest/largest timestamp and `min_y`/`max_y` the smallest/largest
value, with no margin. -/
def IsRangeOf (samples : List (ℚ × List ℚ)) (r : Range) : Prop :=
  IsMinMax (samples.map Prod.fst) r.min_x r.max_x ∧
  IsMinMax (samples.flatMap Prod.snd) r.min_y r.max_y

end PthreadSerial

/-! ## serial_plotter_resize.c -/

namespace SerialPlotterResize

/-- `#define MAX_DATA_FIELDS 8`. -/
def MAX_DATA_FIELDS : Nat := 8

/-- `typedef struct { long timestamp; float values[MAX_DATA_FIELDS]; } DataPoint;` -/
structure DataPoint where
  timestamp : Int
  values : List ℚ
deriving DecidableEq

/-- Result of one `read(serial_fd, &c, 1)`: one byte, 0 (nothing read) or
-1 (failure). -/
inductive Read where
  | byte (c : Char)
  | zero
  | fail
deriving DecidableEq

/-- A source delivering the given characters, one per `read`. -/
def bytes (cs : List Char) : List Read := cs.map Read.byte

/-- How the `while (1)` loop of `read_data_point` ends. -/
inductive LoopExit where
  | ret (code : Int) (rest : List Read)
  | brk (line : List Char) (index : Nat) (rest : List Read)

/-- The `while (1)` loop of `read_data_point`.  `src` holds the results of
the coming `read` calls; once it is used up `read` returns 0.  `line` is the
array `char line[256]` and `index` the local `index`. -/
def readLoop : List Read → List Char → Nat → LoopExit
  | [], _, _ => .ret 0 []
  | .zero :: rest, _, _ => .ret 0 rest
  | .fail :: rest, _, _ => .ret (-1) rest
  | .byte c :: rest, line, index =>
    if c = '\n' ∨ index = 255 then .brk line index rest
    else readLoop rest (line.set index c) (index + 1)

/-- The part of the source a loop exit leaves unread. -/
def LoopExit.rest : LoopExit → List Read
  | .ret _ rest => rest
  | .brk _ _ rest => rest

/-- The `while (token != NULL && i < MAX_DATA_FIELDS)` loop of
`read_data_point`: returns the tokens left (the head being `token`), `i` and
the data point. -/
def valuesLoop (atof : List Char → ℚ) :
    List (List Char) → Nat → DataPoint → List (List Char) × Nat × DataPoint
  | [], i, dp => ([], i, dp)
  | token :: rest, i, dp =>
    if i < MAX_DATA_FIELDS then
      valuesLoop atof rest (i + 1) { dp with values := dp.values.set i (atof token) }
    else (token :: rest, i, dp)

/-- The part of `read_data_point` from the first `strtok` call on: `tokens`
are the tokens `strtok` returns for the line.  Gives the return value and the
content of `*data_point`. -/
def parseTokens (atol : List Char → Int) (atof : List Char → ℚ) (num_fields : Int)
    (dp : DataPoint) : List (List Char) → Int × DataPoint
  | [] => (0, dp)
  | token :: rest =>
    let r := valuesLoop atof rest 0 { dp with timestamp := atol token }
    if r.1 ≠ [] ∨ Int.ofNat r.2.1 ≠ num_fields then (0, r.2.2) else (1, r.2.2)

/-- The part of `read_data_point` after the read loop: the empty-line check,
CR removal, termination of the string, then tokenisation and the field-count
check. -/
def parseBuffer (atol : List Char → Int) (atof : List Char → ℚ) (num_fields : Int)
    (dp : DataPoint) (line : List Char) (index : Nat) : Int × DataPoint :=
  if index = 0 then (0, dp)
  else
    let index1 := if line.getD (index - 1) '\x00' = '\r' then index - 1 else index
    let line1 := line.set index1 '\x00'
    parseTokens atol atof num_fields dp (Libc.strtokAll ',' (Libc.cstr line1))

/-- `int read_data_point(DataPoint *data_point)`: the return value, the
content of `*data_point` afterwards and the unread rest of the source.
`line0` is the uninitialised array `line` and `dp` the prior content of
`*data_point`; `num_fields` is `graph.num_fields`. -/
def read_data_point (atol : List Char → Int) (atof : List Char → ℚ) (num_fields : Int)
    (line0 : List Char) (dp : DataPoint) (src : List Read) : Int × DataPoint × List Read :=
  match readLoop src line0 0 with
  | .ret code rest => (code, dp, rest)
  | .brk line index rest =>
    let r := parseBuffer atol atof num_fields dp line index
    (r.1, r.2, rest)

/-- The samples the loop of `main` accepts from a source, in order: it calls
`read_data_point` again and again, keeps the data point when 1 is returned
and exits on -1.  Every call on a non-empty source uses up at least one
`read`, so `fuel = src.length` calls reach the end of the source.  `line0`
and `dp` stand for the uninitialised locals `line` and `data_point` of every
call. -/
def accepted (atol : List Char → Int) (atof : List Char → ℚ) (num_fields : Int)
    (line0 : List Char) (dp : DataPoint) : Nat → List Read → List DataPoint
  | 0, _ => []
  | fuel + 1, src =>
    if src = [] then []
    else
      let r := read_data_point atol atof num_fields line0 dp src
      if r.1 = 1 then r.2.1 :: accepted atol atof num_fields line0 dp fuel r.2.2
      else if r.1 = -1 then []
      else accepted atol atof num_fields line0 dp fuel r.2.2

/-- The part of a data point the program defines: the timestamp and the first
`num_fields` values. -/
def DataPoint.fields (num_fields : Nat) (p : DataPoint) : Int × List ℚ :=
  (p.timestamp, p.values.take num_fields)

/-- Removal of one trailing carriage return. -/
def stripCR (l : List Char) : List Char :=
  if l.getLast? = some '\r' then l.dropLast else l

/-- A source handing over the deliveries one after the other, with a `read`
that returns 0 between two deliveries. -/
def deliver : List (List Char) → List Read
  | [] => []
  | [d] => bytes d
  | d :: ds => bytes d ++ Read.zero :: deliver ds

end SerialPlotterResize

/-! ## serial_plotter_resize.c: graph parameters, drawing and main loop -/

namespace SerialPlotterResize

/-- `#define MAX_DATA_POINTS 1000`. -/
def MAX_DATA_POINTS : Nat := 1000

/-- `#define WINDOW_WIDTH 800`. -/
def WINDOW_WIDTH : Int := 800

/-- `#define WINDOW_HEIGHT 600`. -/
def WINDOW_HEIGHT : Int := 600

/-- `#define MARGIN 50`. -/
def MARGIN : Int := 50

/-- The colour indices `COLOR_RED, COLOR_GREEN, COLOR_BLUE, COLOR_YELLOW,
COLOR_MAGENTA, COLOR_CYAN, COLOR_BLACK, COLOR_WHITE` that `update_graph`
stores into `graph.colors[0..7]`. -/
def defaultColors : List Int := [1, 2, 3, 4, 5, 6, 0, 7]

/-- `sizeof(DataPoint)` on LP64 Linux: a `long` and eight `float`s. -/
def sizeof_DataPoint : Nat := 40

/-- `typedef struct { int width, height, num_fields; long min_timestamp,
max_timestamp; float min_value, max_value; int colors[MAX_DATA_FIELDS]; } Graph;` -/
structure Graph where
  width : Int
  height : Int
  num_fields : Int
  min_timestamp : Int
  max_timestamp : Int
  min_value : ℚ
  max_value : ℚ
  colors : List Int
deriving DecidableEq

/-- The globals the plotting code works on: `buffer`, `buffer_size`, `graph`
and `keypress`. -/
structure State where
  buffer : List DataPoint
  buffer_size : Int
  graph : Graph
  keypress : Bool
deriving DecidableEq

/-- The array read `buffer[i]`. -/
def bufferAt (buffer : List DataPoint) (i : Int) : DataPoint :=
  buffer.getD i.toNat ⟨0, []⟩

/-- The array read `point.values[j]`. -/
def valueAt (point : DataPoint) (j : Nat) : ℚ :=
  point.values.getD j 0

/-- Body of the inner loop of `update_graph` for the value `v = buffer[i].values[j]`. -/
def scanValue (g : Graph) (v : ℚ) : Graph :=
  let g1 := if v < g.min_value then { g with min_value := v } else g
  if v > g1.max_value then { g1 with max_value := v } else g1

/-- The two nested loops of `update_graph` over `i < buffer_size` and
`j < graph.num_fields`. -/
def scanBuffer (buffer : List DataPoint) (buffer_size : Int) (g : Graph) : Graph :=
  (List.range buffer_size.toNat).foldl
    (fun g (i : Nat) =>
      (List.range g.num_fields.toNat).foldl
        (fun g (j : Nat) => scanValue g (valueAt (bufferAt buffer (Int.ofNat i)) j)) g)
    g

/-- `void update_graph()`. -/
def update_graph (s : State) : State :=
  let g0 : Graph :=
    { s.graph with
      width := WINDOW_WIDTH, height := WINDOW_HEIGHT,
      min_timestamp := 0, max_timestamp := 1000, min_value := 0, max_value := 1,
      colors := defaultColors }
  if 0 < s.buffer_size then
    let g1 : Graph :=
      { g0 with
        min_timestamp := (bufferAt s.buffer 0).timestamp,
        max_timestamp := (bufferAt s.buffer (s.buffer_size - 1)).timestamp,
        min_value := valueAt (bufferAt s.buffer 0) 0,
        max_value := valueAt (bufferAt s.buffer 0) 0 }
    let g2 := scanBuffer s.buffer s.buffer_size g1
    let margin : ℚ := (g2.max_value - g2.min_value) * (1 / 10)
    let g3 : Graph :=
      { g2 with min_value := g2.min_value - margin, max_value := g2.max_value + margin }
    let g4 : Graph :=
      if g3.min_value = g3.max_value then { g3 with min_value := 0, max_value := 1 } else g3
    let g5 : Graph :=
      if g4.min_timestamp = g4.max_timestamp then
        { g4 with min_timestamp := 0, max_timestamp := 1000 }
      else g4
    { s with graph := g5 }
  else { s with graph := g0 }

/-- Conversion of a floating value to `int`: the fraction is discarded. -/
def truncQ (q : ℚ) : Int :=
  if 0 ≤ q then Int.floor q else Int.ceil q

/-- An Xlib drawing request issued by `draw_graph`, with its coordinates. -/
inductive Draw where
  | fillRectangle (x y width height : Int)
  | line (x1 y1 x2 y2 : Int)
  | string (x y : Int)
  | fillArc (x y : Int)
deriving DecidableEq

/-- Reduction of an integer to the range of `long` (64 bits, two's complement):
what an operation on `long` leaves when its result does not fit. -/
def wrapLong (x : Int) : Int :=
  (x + 2 ^ 63) % 2 ^ 64 - 2 ^ 63

/-- Reduction of an integer to the range of `int` (32 bits, two's complement):
the conversion of a `long` to `int`. -/
def wrapInt (x : Int) : Int :=
  (x + 2 ^ 31) % 2 ^ 32 - 2 ^ 31

/-- The statement `int x = MARGIN + (p.timestamp - graph.min_timestamp) *
(graph.width - 2 * MARGIN) / (graph.max_timestamp - graph.min_timestamp)` of
`draw_graph`: the two differences of timestamps, the product, the quotient and
the sum are computed in `long`, `graph.width - 2 * MARGIN` in `int`, and the
result is converted to `int`. -/
def xCoord (g : Graph) (p : DataPoint) : Int :=
  wrapInt (wrapLong (MARGIN + Int.tdiv
    (wrapLong (wrapLong (p.timestamp - g.min_timestamp) * wrapInt (g.width - 2 * MARGIN)))
    (wrapLong (g.max_timestamp - g.min_timestamp))))

/-- The expression `graph.height - MARGIN - (p.values[i] - graph.min_value) *
(graph.height - 2 * MARGIN) / (graph.max_value - graph.min_value)` of
`draw_graph`, converted to `int`. -/
def yCoord (g : Graph) (p : DataPoint) (i : Nat) : Int :=
  truncQ (((g.height - MARGIN : Int) : ℚ) -
    (valueAt p i - g.min_value) * ((g.height - 2 * MARGIN : Int) : ℚ) /
      (g.max_value - g.min_value))

/-- The requests `draw_graph` issues for the data point `buffer[j]` of field `i`. -/
def drawPoint (s : State) (i j : Nat) : List Draw :=
  [Draw.fillArc (xCoord s.graph (bufferAt s.buffer (Int.ofNat j)) - 2)
      (yCoord s.graph (bufferAt s.buffer (Int.ofNat j)) i - 2)] ++
  (if 0 < j then
    [Draw.line (xCoord s.graph (bufferAt s.buffer (Int.ofNat j - 1)))
        (yCoord s.graph (bufferAt s.buffer (Int.ofNat j - 1)) i)
        (xCoord s.graph (bufferAt s.buffer (Int.ofNat j)))
        (yCoord s.graph (bufferAt s.buffer (Int.ofNat j)) i)]
   else [])

/-- `void draw_graph()`: the globals afterwards and the drawing requests. -/
def draw_graph (s : State) : State × List Draw :=
  (s,
   [Draw.fillRectangle 0 0 s.graph.width s.graph.height,
    Draw.line MARGIN MARGIN MARGIN (s.graph.height - MARGIN),
    Draw.line MARGIN (s.graph.height - MARGIN) (s.graph.width - MARGIN)
      (s.graph.height - MARGIN),
    Draw.string MARGIN (s.graph.height - MARGIN + 20),
    Draw.string (s.graph.width - MARGIN - 40) (s.graph.height - MARGIN + 20),
    Draw.string (MARGIN - 40) (s.graph.height - MARGIN + 5),
    Draw.string (MARGIN - 40) (MARGIN + 5)] ++
   (List.range s.graph.num_fields.toNat).flatMap
     (fun (i : Nat) => (List.range s.buffer_size.toNat).flatMap (fun (j : Nat) => drawPoint s i j)))

/-- The X events `handle_events` tells apart. -/
inductive XEvent where
  | expose
  | keyPress
  | configureNotify (width height : Int)
  | other

/-- `void handle_events()` for the event `XNextEvent` delivers. -/
def handle_events (event : XEvent) (s : State) : State × List Draw :=
  match event with
  | .expose => draw_graph s
  | .keyPress => ({ s with keypress := true }, [])
  | .configureNotify width height =>
    draw_graph { s with graph := { s.graph with width := width, height := height } }
  | .other => (s, [])

/-- The statements `buffer[buffer_size++] = data_point;` and the roll
`memmove(buffer, buffer + sizeof(data_point), (buffer_size - 1) *
sizeof(data_point)); buffer_size--;` of `main`.  `buffer + sizeof(data_point)`
is pointer arithmetic on `DataPoint *`: it is the address of
`buffer[sizeof(data_point)]`.  `after` is the memory that follows the array,
read as data points, which the copy runs into. -/
def main_push (s : State) (data_point : DataPoint) (after : List DataPoint) : State :=
  let buffer1 := s.buffer.set s.buffer_size.toNat data_point
  let size1 := s.buffer_size + 1
  if size1 ≥ (MAX_DATA_POINTS : Int) then
    { s with
      buffer :=
        ((buffer1 ++ after).drop sizeof_DataPoint).take (size1 - 1).toNat ++
          buffer1.drop (size1 - 1).toNat,
      buffer_size := size1 - 1 }
  else { s with buffer := buffer1, buffer_size := size1 }

/-- The branch `result == 1` of the loop of `main`: the sample is appended,
then `update_graph()` and `draw_graph()` are called. -/
def main_sample (s : State) (data_point : DataPoint) (after : List DataPoint) :
    State × List Draw :=
  draw_graph (update_graph (main_push s data_point after))

/-- How the start of `main` ends: `exit(status)`, or the program goes on to
its loop with the given field count. -/
inductive Startup where
  | exit (status : Int)
  | run (num_fields : Int)
deriving DecidableEq

/-- The start of `main` up to the loop: the argument count check, the
field-count check, then `init_x11` and `init_serial`, which exit with status 1
when the display or the device cannot be opened.  `argv` holds all arguments,
the program name included. -/
def main_startup (atoi : List Char → Int) (argv : List (List Char))
    (display_ok serial_ok : Bool) : Startup :=
  if argv.length ≠ 3 then Startup.exit 1
  else
    let num_fields := atoi (argv.getD 2 [])
    if num_fields < 1 ∨ num_fields > (MAX_DATA_FIELDS : Int) then Startup.exit 1
    else if !display_ok then Startup.exit 1
    else if !serial_ok then Startup.exit 1
    else Startup.run num_fields

/-- The timestamps of the buffered samples `buffer[0 .. buffer_size)`. -/
def bufferedTimestamps (s : State) : List Int :=
  (s.buffer.take s.buffer_size.toNat).map DataPoint.timestamp

/-- The values `buffer[i].values[j]`, `i < buffer_size`, `j < num_fields`. -/
def bufferedValues (s : State) : List ℚ :=
  (s.buffer.take s.buffer_size.toNat).flatMap
    (fun p => (List.range s.graph.num_fields.toNat).map (valueAt p))

end SerialPlotterResize

/-! ## pthread_serial.c: start of main -/

namespace PthreadSerial

/-- How the start of `main` ends: `exit(status)`, or the program goes on to
create the buffer of the given size and to read `num_data` values per line. -/
inductive Startup where
  | exit (status : Int)
  | run (num_data : Int) (size : Int)
deriving DecidableEq

/-- The start of `main` up to `init_buffer`: the argument count check, the
opening of the serial port (`serial_ok` tells whether `open` succeeded), the
check of `num_data` and the optional buffer size.  `argv` holds all arguments,
the program name included. -/
def main_startup (atoi : List Char → Int) (argv : List (List Char)) (serial_ok : Bool) :
    Startup :=
  if argv.length < 3 then Startup.exit 1
  else if !serial_ok then Startup.exit 1
  else
    let num_data := atoi (argv.getD 2 [])
    if num_data < 1 ∨ num_data > (MAX_DATA : Int) then Startup.exit 1
    else if argv.length > 3 then
      (if atoi (argv.getD 3 []) < 1 then Startup.exit 1
       else Startup.run num_data (atoi (argv.getD 3 [])))
    else Startup.run num_data 100

end PthreadSerial

/-! ## serial_plotter_resize_event.c -/

namespace SerialPlotterResizeEvent

/-- `#define MAX_DATA_FIELDS 8`. -/
def MAX_DATA_FIELDS : Nat := 8

/-- `#define MAX_DATA_POINTS 2048`. -/
def MAX_DATA_POINTS : Nat := 2048

/-- `typedef struct { uint32_t timestamp; float values[MAX_DATA_FIELDS]; }
DataPoint;`: the record of serial_plotter_resize.c, with a timestamp between 0
and `2^32 - 1`. -/
abbrev DataPoint : Type := SerialPlotterResize.DataPoint

/-- Result of one `read(serial_fd, &c, 1)`: one byte, 0 (nothing read) or -1
(failure).  In the last two cases nothing is stored and `c` holds whatever the
uninitialised local held, which the code goes on to test. -/
inductive Read where
  | byte (c : Char)
  | zero (c : Char)
  | fail (c : Char)
deriving DecidableEq

/-- The `while (1)` loop of `read_data_point`: a zero-byte and a failed
`read` are both followed by the test of `c` and the next `read`.  `none`: the
loop has not ended when the given results are used up.  Otherwise the line
array, `index` and the unread results. -/
def readLoop : List Read → List Char → Nat → Option (List Char × Nat × List Read)
  | [], _, _ => none
  | .byte c :: rest, line, index =>
    if c = '\n' ∨ index = 255 then some (line, index, rest)
    else readLoop rest (line.set index c) (index + 1)
  | .zero c :: rest, line, index =>
    if c = '\n' ∨ index = 255 then some (line, index, rest)
    else readLoop rest line index
  | .fail c :: rest, line, index =>
    if c = '\n' ∨ index = 255 then some (line, index, rest)
    else readLoop rest line index

/-- `int read_data_point(DataPoint *data_point)`: the return value, the
content of `*data_point` afterwards and the unread rest of the source, or
`none` when the call does not return within the given `read` results.  The
code after the loop is that of serial_plotter_resize.c; the timestamp is
stored into a `uint32_t`, that is modulo `2^32`. -/
def read_data_point (atol : List Char → Int) (atof : List Char → ℚ) (num_fields : Int)
    (line0 : List Char) (dp : DataPoint) (src : List Read) :
    Option (Int × DataPoint × List Read) :=
  match readLoop src line0 0 with
  | none => none
  | some (line, index, rest) =>
    let r := SerialPlotterResize.parseBuffer (fun t => atol t % 2 ^ 32) atof num_fields dp
      line index
    some (r.1, r.2, rest)

/-- What `serial_cb` does with the result of `read_data_point`: `exit(1)` on
-1, nothing on 0, and otherwise it sets `new_serial_data`. -/
inductive Callback where
  | exit (status : Int)
  | noData
  | newData
deriving DecidableEq

/-- `void serial_cb(EV_P_ ev_io *w, int revents)`, for the value
`read_data_point` returned. -/
def serial_cb (result : Int) : Callback :=
  if result = -1 then Callback.exit 1
  else if result = 0 then Callback.noData
  else Callback.newData

/-- The globals `buffer` and `buffer_size`. -/
structure Buffer where
  buffer : List DataPoint
  buffer_size : Int
deriving DecidableEq

/-- The roll loop `for (int i = 0; i < buffer_size; i++) buffer[i] =
buffer[i + 1];` of `main`. -/
def shiftLoop (buffer : List DataPoint) (buffer_size : Int) : List DataPoint :=
  (List.range buffer_size.toNat).foldl
    (fun buf (i : Nat) => buf.set i (buf.getD (i + 1) ⟨0, []⟩)) buffer

/-- The branch `new_serial_data == True` of the loop of `main`, up to
`update_graph()`: `data_point` is appended and, when `buffer_size` has reached
`MAX_DATA_POINTS - 2`, the buffer is rolled. -/
def main_push (b : Buffer) (data_point : DataPoint) : Buffer :=
  let buffer1 := b.buffer.set b.buffer_size.toNat data_point
  let size1 := b.buffer_size + 1
  if size1 ≥ (MAX_DATA_POINTS : Int) - 2 then
    { buffer := shiftLoop buffer1 size1, buffer_size := size1 - 1 }
  else { buffer := buffer1, buffer_size := size1 }

/-- How the start of `main` ends: `exit(status)`, or the program goes on to
its loops with the given field count. -/
inductive Startup where
  | exit (status : Int)
  | run (num_fields : Int)
deriving DecidableEq

/-- The start of `main` up to the event loop: the argument count check, the
field-count check, then `init_x11` and `init_serial`, which exit with status 1
when the display or the device cannot be opened.  `argv` holds all arguments,
the program name included. -/
def main_startup (atoi : List Char → Int) (argv : List (List Char))
    (display_ok serial_ok : Bool) : Startup :=
  if argv.length ≠ 4 then Startup.exit 1
  else
    let num_fields := atoi (argv.getD 3 [])
    if num_fields < 1 ∨ num_fields > (MAX_DATA_FIELDS : Int) then Startup.exit 1
    else if !display_ok then Startup.exit 1
    else if !serial_ok then Startup.exit 1
    else Startup.run num_fields

end SerialPlotterResizeEvent

/-! ## pthread_serial.c: drawing and the reader thread -/

namespace PthreadSerial

/-- `#define MAX_BUF 1024`. -/
def MAX_BUF : Int := 1024

/-- `#define WINDOW_WIDTH 800`. -/
def WINDOW_WIDTH : Int := 800

/-- `#define WINDOW_HEIGHT 600`. -/
def WINDOW_HEIGHT : Int := 600

/-- `#define MARGIN 50`. -/
def MARGIN : Int := 50

/-- `scale_x = (WINDOW_WIDTH - 2 * MARGIN) / (max_x - min_x)`. -/
def scale_x (r : Range) : ℚ :=
  ((WINDOW_WIDTH - 2 * MARGIN : Int) : ℚ) / (r.max_x - r.min_x)

/-- `scale_y = (WINDOW_HEIGHT - 2 * MARGIN) / (max_y - min_y)`. -/
def scale_y (r : Range) : ℚ :=
  ((WINDOW_HEIGHT - 2 * MARGIN : Int) : ℚ) / (r.max_y - r.min_y)

/-- The expression `(point.timestamp - min_x) * scale_x`, which `draw_graph`
converts to `int`. -/
def xScaled (r : Range) (point : DataPoint) : ℚ :=
  (point.timestamp - r.min_x) * scale_x r

/-- The expression `(point.values[j] - min_y) * scale_y`, which `draw_graph`
converts to `int`. -/
def yScaled (r : Range) (point : DataPoint) (j : Nat) : ℚ :=
  (valueAt point j - r.min_y) * scale_y r

/-- Conversion of a floating value to `int`: the fraction is discarded. -/
def toInt (q : ℚ) : Int :=
  if 0 ≤ q then Int.floor q else Int.ceil q

/-- `MARGIN + (int)((point.timestamp - min_x) * scale_x)`. -/
def xPixel (r : Range) (point : DataPoint) : Int :=
  MARGIN + toInt (xScaled r point)

/-- `WINDOW_HEIGHT - MARGIN - (int)((point.values[j] - min_y) * scale_y)`. -/
def yPixel (r : Range) (point : DataPoint) (j : Nat) : Int :=
  WINDOW_HEIGHT - MARGIN - toInt (yScaled r point j)

/-- A request `draw_graph` sends to the X server. -/
inductive Draw where
  | clearWindow
  | line (x1 y1 x2 y2 : Int)
deriving DecidableEq

/-- `void draw_graph(Display *, Window, GC)`, run without interference from
the reader thread: the requests it issues for the buffer `b`. -/
def draw_graph (num_data : Nat) (b : DataBuffer) : List Draw :=
  let r := draw_graph_range num_data b
  [Draw.clearWindow,
   Draw.line MARGIN MARGIN MARGIN (WINDOW_HEIGHT - MARGIN),
   Draw.line MARGIN (WINDOW_HEIGHT - MARGIN) (WINDOW_WIDTH - MARGIN) (WINDOW_HEIGHT - MARGIN)] ++
  (List.range num_data).flatMap (fun (j : Nat) =>
    (List.range (b.count - 1).toNat).map (fun (i : Nat) =>
      Draw.line
        (xPixel r (readAt b.data (Int.tmod (b.start + Int.ofNat i) b.size)))
        (yPixel r (readAt b.data (Int.tmod (b.start + Int.ofNat i) b.size)) j)
        (xPixel r (readAt b.data (Int.tmod (b.start + Int.ofNat i + 1) b.size)))
        (yPixel r (readAt b.data (Int.tmod (b.start + Int.ofNat i + 1) b.size)) j)))

/-- The statements `n = read(serial_fd, buf, MAX_BUF); if (n > 0) { buf[n] =
0; ... }` of `read_serial`: `n` is the value `read` returns and `input` the
bytes it stored into `buf[0 .. n)`.  Gives the array afterwards, or nothing
when the write `buf[n]` falls outside of the array. -/
def read_serial_store (buf : List Char) (n : Int) (input : List Char) : Option (List Char) :=
  let buf1 := input.take n.toNat ++ buf.drop (input.take n.toNat).length
  if n > 0 then
    if n < (buf1.length : Int) then some (buf1.set n.toNat '\x00') else none
  else some buf1

end PthreadSerial

/-! ## pthread_serial.c: the two threads, statement by statement -/

namespace PthreadSerial

/-- The two threads of the program: the one `main` creates, which runs
`read_serial` and calls `enqueue`, and the main thread, which runs
`display_graph` and calls `draw_graph`. -/
inductive Thread where
  | serial
  | display
deriving DecidableEq

/-- The globals `buffer` and `mutex` together with the position and the locals
of each thread.  `epc` is the position of the serial thread inside
`enqueue(arg)`; `spc` is the position of the main thread inside the range scan
of `draw_graph`, `i`, `idx` and `point` are its locals and `seen` lists the
values `point` took, one per iteration. -/
structure Threads where
  buffer : DataBuffer
  mutex : Int
  epc : Nat
  arg : DataPoint
  spc : Nat
  i : Int
  idx : Int
  point : DataPoint
  seen : List DataPoint

/-- One statement of `enqueue(arg)`.  The structure assignment
`buffer.data[buffer.end] = point` is not atomic: it is taken member by member.
Nothing is returned when the thread cannot move: it waits in `sem_wait`, or
`enqueue` has returned.
* 0: `sem_wait(&mutex)`
* 1: `if (is_full())`
* 2: `buffer.start = (buffer.start + 1) % buffer.size`
* 3: `buffer.count--`
* 4: `buffer.end = (buffer.end + 1) % buffer.size`
* 5, 6: `buffer.data[buffer.end] = point`, the timestamp, then the values
* 7: `buffer.count++`
* 8: `sem_post(&mutex)` -/
def enqueue_step (s : Threads) : Option Threads :=
  match s.epc with
  | 0 => if 0 < s.mutex then some { s with mutex := s.mutex - 1, epc := 1 } else none
  | 1 => some { s with epc := if is_full s.buffer then 2 else 4 }
  | 2 =>
    some { s with
      buffer := { s.buffer with start := Int.tmod (s.buffer.start + 1) s.buffer.size },
      epc := 3 }
  | 3 => some { s with buffer := { s.buffer with count := s.buffer.count - 1 }, epc := 4 }
  | 4 =>
    some { s with
      buffer := { s.buffer with end_ := Int.tmod (s.buffer.end_ + 1) s.buffer.size },
      epc := 5 }
  | 5 =>
    some { s with
      buffer := { s.buffer with
        data := writeAt s.buffer.data s.buffer.end_
          { readAt s.buffer.data s.buffer.end_ with timestamp := s.arg.timestamp } },
      epc := 6 }
  | 6 =>
    some { s with
      buffer := { s.buffer with
        data := writeAt s.buffer.data s.buffer.end_
          { readAt s.buffer.data s.buffer.end_ with values := s.arg.values } },
      epc := 7 }
  | 7 => some { s with buffer := { s.buffer with count := s.buffer.count + 1 }, epc := 8 }
  | 8 => some { s with mutex := s.mutex + 1, epc := 9 }
  | _ => none

/-- One step of the loop `for (i = 0; i < buffer.count; i++) { point =
buffer.data[(buffer.start + i) % buffer.size]; ... }` of `draw_graph`, which
contains no call of `sem_wait` or `sem_post`.  The structure assignment is
taken member by member.
* 0: the test `i < buffer.count`
* 1, 2: `point = buffer.data[(buffer.start + i) % buffer.size]`, the
  timestamp, then the values; the rest of the body works on locals, then `i++`
* 3: the loop has ended -/
def scan_step (s : Threads) : Option Threads :=
  match s.spc with
  | 0 => some { s with spc := if s.i < s.buffer.count then 1 else 3 }
  | 1 =>
    some { s with
      idx := Int.tmod (s.buffer.start + s.i) s.buffer.size,
      point := { s.point with
        timestamp :=
          (readAt s.buffer.data (Int.tmod (s.buffer.start + s.i) s.buffer.size)).timestamp },
      spc := 2 }
  | 2 =>
    some { s with
      point := { s.point with values := (readAt s.buffer.data s.idx).values },
      seen := s.seen ++ [{ s.point with values := (readAt s.buffer.data s.idx).values }],
      i := s.i + 1,
      spc := 0 }
  | _ => none

/-- One step of the given thread. -/
def step (t : Thread) (s : Threads) : Option Threads :=
  match t with
  | .serial => enqueue_step s
  | .display => scan_step s

/-- The state after the threads have been scheduled in the given order; a
thread that cannot move when its turn comes leaves the state as it is. -/
def run (schedule : List Thread) (s : Threads) : Threads :=
  schedule.foldl (fun s t => (step t s).getD s) s

/-- The start of a call `enqueue(arg)` in the serial thread and of the range
scan in the main thread, with the semaphore free. -/
def Threads.start (b : DataBuffer) (arg point : DataPoint) : Threads :=
  { buffer := b, mutex := 1, epc := 0, arg := arg, spc := 0, i := 0, idx := 0,
    point := point, seen := [] }

end PthreadSerial

/-! ## wayland_plotter2.c -/

namespace WaylandPlotter2

/-- `#define GRAPH_WIDTH 800`. -/
def GRAPH_WIDTH : Int := 800

/-- `#define GRAPH_HEIGHT 600`. -/
def GRAPH_HEIGHT : Int := 600

/-- `#define GRAPH_MARGIN 50`. -/
def GRAPH_MARGIN : Int := 50

/-- `typedef struct { double x; double y; } csv_data_t;` -/
structure csv_data_t where
  x : ℚ
  y : ℚ
deriving DecidableEq

/-- The locals `min_x, max_x, min_y, max_y` of `draw_graph`. -/
structure Range where
  min_x : ℚ
  max_x : ℚ
  min_y : ℚ
  max_y : ℚ
deriving DecidableEq

/-- The array read `csv_data[i]`. -/
def dataAt (csv_data : List csv_data_t) (i : Nat) : csv_data_t :=
  csv_data.getD i ⟨0, 0⟩

/-- Body of the loop `for (int i = 1; i < csv_data_size; i++)` that finds the
minimum and maximum values. -/
def scanPoint (r : Range) (d : csv_data_t) : Range :=
  let r1 := if d.x < r.min_x then { r with min_x := d.x } else r
  let r2 := if d.x > r1.max_x then { r1 with max_x := d.x } else r1
  let r3 := if d.y < r2.min_y then { r2 with min_y := d.y } else r2
  if d.y > r3.max_y then { r3 with max_y := d.y } else r3

/-- The values of `min_x, max_x, min_y, max_y` after the scan of `draw_graph`. -/
def draw_graph_range (csv_data : List csv_data_t) (csv_data_size : Int) : Range :=
  ((List.range csv_data_size.toNat).drop 1).foldl
    (fun r (i : Nat) => scanPoint r (dataAt csv_data i))
    { min_x := (dataAt csv_data 0).x, max_x := (dataAt csv_data 0).x,
      min_y := (dataAt csv_data 0).y, max_y := (dataAt csv_data 0).y }

/-- `scale_x = (GRAPH_WIDTH - 2 * GRAPH_MARGIN) / (max_x - min_x)`. -/
def scale_x (r : Range) : ℚ :=
  ((GRAPH_WIDTH - 2 * GRAPH_MARGIN : Int) : ℚ) / (r.max_x - r.min_x)

/-- `offset_x = GRAPH_MARGIN - min_x * scale_x`. -/
def offset_x (r : Range) : ℚ :=
  (GRAPH_MARGIN : ℚ) - r.min_x * scale_x r

/-- `scale_y = (GRAPH_HEIGHT - 2 * GRAPH_MARGIN) / (max_y - min_y)`. -/
def scale_y (r : Range) : ℚ :=
  ((GRAPH_HEIGHT - 2 * GRAPH_MARGIN : Int) : ℚ) / (r.max_y - r.min_y)

/-- `offset_y = GRAPH_MARGIN - min_y * scale_y`. -/
def offset_y (r : Range) : ℚ :=
  (GRAPH_MARGIN : ℚ) - r.min_y * scale_y r

/-- The first coordinate `csv_data[i].x * scale_x + offset_x` handed to cairo. -/
def xCoord (r : Range) (d : csv_data_t) : ℚ :=
  d.x * scale_x r + offset_x r

/-- The second coordinate `csv_data[i].y * scale_y + offset_y` handed to
cairo: the pixel row, counted from the top of the surface. -/
def yCoord (r : Range) (d : csv_data_t) : ℚ :=
  d.y * scale_y r + offset_y r

/-- A path request `draw_graph` sends to cairo. -/
inductive Path where
  | moveTo (x y : ℚ)
  | lineTo (x y : ℚ)
deriving DecidableEq

/-- `void draw_graph(cairo_surface_t *surface)`: the path built from
`csv_data[0 .. csv_data_size)`.  Nothing is returned when `csv_data` is still
the null pointer (the empty list): the read `csv_data[0].x` stops the program. -/
def draw_graph (csv_data : List csv_data_t) (csv_data_size : Int) : Option (List Path) :=
  if csv_data = [] then none
  else
    let r := draw_graph_range csv_data csv_data_size
    some (Path.moveTo (xCoord r (dataAt csv_data 0)) (yCoord r (dataAt csv_data 0)) ::
      ((List.range csv_data_size.toNat).drop 1).map
        (fun (i : Nat) =>
          Path.lineTo (xCoord r (dataAt csv_data i)) (yCoord r (dataAt csv_data i))))

end WaylandPlotter2

/-! ## serial_plotter_resize.c: accesses to the line buffer -/

namespace SerialPlotterResize

/-- An access of `read_data_point` to its array `char line[256]`, with the
index used. -/
inductive LineAccess where
  | write (index : Int)
  | read (index : Int)
deriving DecidableEq

/-- The index of an access. -/
def LineAccess.index : LineAccess → Int
  | .write index => index
  | .read index => index

/-- The writes `line[index++] = c` made by the `while (1)` loop of
`read_data_point`, in order: the loop `readLoop`, keeping the indices instead
of the array. -/
def readLoopAccesses : List Read → Nat → List LineAccess
  | [], _ => []
  | .zero :: _, _ => []
  | .fail :: _, _ => []
  | .byte c :: rest, index =>
    if c = '\n' ∨ index = 255 then []
    else LineAccess.write (Int.ofNat index) :: readLoopAccesses rest (index + 1)

/-- The accesses of one call of `read_data_point` to `line` up to the
termination of the string: the appends of the loop, then, unless the function
has returned, the read `line[index - 1]` and the write `line[index] = 0`. -/
def lineAccesses (line0 : List Char) (src : List Read) : List LineAccess :=
  readLoopAccesses src 0 ++
    match readLoop src line0 0 with
    | .ret _ _ => []
    | .brk line index _ =>
      if index = 0 then []
      else
        [LineAccess.read (Int.ofNat index - 1),
         LineAccess.write
          (if line.getD (index - 1) '\x00' = '\r' then Int.ofNat index - 1 else Int.ofNat index)]

end SerialPlotterResize

/-! ## serial_plotter.c -/

namespace SerialPlotter

/-- `#define MAX_DATA_FIELDS 8`. -/
def MAX_DATA_FIELDS : Nat := 8

/-- `#define WINDOW_WIDTH 800`. -/
def WINDOW_WIDTH : Int := 800

/-- `#define WINDOW_HEIGHT 600`. -/
def WINDOW_HEIGHT : Int := 600

/-- `#define MARGIN 50`. -/
def MARGIN : Int := 50

/-- `#define MAX_POINTS 1000`. -/
def MAX_POINTS : Nat := 1000

/-- `typedef struct { int x; int y; } Point;` -/
structure Point where
  x : Int
  y : Int
deriving DecidableEq

/-- `typedef struct { char *name; int color; Point points[MAX_POINTS]; int
count; } DataField;` -/
structure DataField where
  name : List Char
  color : Int
  points : List Point
  count : Int
deriving DecidableEq

/-- The globals `data_fields`, `num_data_fields`, `min_timestamp`,
`max_timestamp`, `min_value` and `max_value`. -/
structure State where
  data_fields : List DataField
  num_data_fields : Int
  min_timestamp : Int
  max_timestamp : Int
  min_value : Int
  max_value : Int
deriving DecidableEq

/-- The tables `names` and `colors` of `init_data_fields`. -/
def fieldTable : List (List Char × Int) :=
  [("Temperature".toList, 0xFF0000), ("Humidity".toList, 0x00FF00),
   ("Pressure".toList, 0x0000FF), ("Light".toList, 0xFFFF00), ("Sound".toList, 0xFF00FF),
   ("Motion".toList, 0x00FFFF), ("Voltage".toList, 0xFFFFFF), ("Current".toList, 0xC0C0C0)]

/-- `void init_data_fields()`, run at program start: the point arrays of the
global `data_fields` still hold the zeros of static storage. -/
def init_data_fields : State :=
  { data_fields :=
      fieldTable.map (fun nc =>
        { name := nc.1, color := nc.2, points := List.replicate MAX_POINTS ⟨0, 0⟩, count := 0 }),
    num_data_fields := 0,
    min_timestamp := -1, max_timestamp := -1, min_value := -1, max_value := -1 }

/-- The array read `data_fields[i]`. -/
def fieldAt (s : State) (i : Nat) : DataField :=
  s.data_fields.getD i ⟨[], 0, [], 0⟩

/-- The statements `if (data_field->count == MAX_POINTS) { memmove(data_field->points,
data_field->points + 1, sizeof(Point) * (MAX_POINTS - 1)); data_field->count--; }`. -/
def rollField (data_field : DataField) : DataField :=
  if data_field.count = (MAX_POINTS : Int) then
    { data_field with
      points :=
        (data_field.points.drop 1).take (MAX_POINTS - 1) ++
          data_field.points.drop (MAX_POINTS - 1),
      count := data_field.count - 1 }
  else data_field

/-- The statement `data_field->points[data_field->count++] = point`. -/
def appendPoint (data_field : DataField) (point : Point) : DataField :=
  { data_field with
    points := data_field.points.set data_field.count.toNat point,
    count := data_field.count + 1 }

/-- The statement `if (m == -1 || v < m) { m = v; }` for a minimum `m`. -/
def stepMin (m v : Int) : Int :=
  if m = -1 ∨ v < m then v else m

/-- The statement `if (m == -1 || v > m) { m = v; }` for a maximum `m`. -/
def stepMax (m v : Int) : Int :=
  if m = -1 ∨ v > m then v else m

/-- Body of the loop `for (int i = 0; i < num_data_fields; i++)` of
`update_data_fields`: the roll when the field is full, the append of the
point `(timestamp, values[i + 1])` and the four updates of the extremes. -/
def update_field (timestamp : Int) (values : List Int) (s : State) (i : Nat) : State :=
  let point : Point := ⟨timestamp, values.getD (i + 1) 0⟩
  { s with
    data_fields := s.data_fields.set i (appendPoint (rollField (fieldAt s i)) point),
    min_timestamp := stepMin s.min_timestamp timestamp,
    max_timestamp := stepMax s.max_timestamp timestamp,
    min_value := stepMin s.min_value point.y,
    max_value := stepMax s.max_value point.y }

/-- `void update_data_fields(int *values)`.  Its second statement,
`num_data_fields = parse_line(line + n + 1, values + n + 1)`, names a `line`
and an `n` the function does not declare: the value the call returns is the
parameter `parsed` and the content of `values` after the call is the parameter
`values1`.  `values` is the content of the array at entry. -/
def update_data_fields (values : List Int) (parsed : Int) (values1 : List Int)
    (s : State) : State :=
  let timestamp := values.getD 0 0
  (List.range parsed.toNat).foldl (update_field timestamp values1)
    { s with num_data_fields := parsed }

/-- The division `a / b` on `int`; nothing is returned for a zero divisor. -/
def idiv (a b : Int) : Option Int :=
  if b = 0 then none else some (Int.tdiv a b)

/-- The mapping of a point to graph coordinates in `draw_data_fields`:
`MARGIN + (p.x - min_timestamp) * (WINDOW_WIDTH - 2 * MARGIN) / (max_timestamp -
min_timestamp)` and `WINDOW_HEIGHT - MARGIN - (p.y - min_value) * (WINDOW_HEIGHT
- 2 * MARGIN) / (max_value - min_value)`. -/
def mapPoint (s : State) (p : Point) : Option (Int × Int) :=
  match idiv ((p.x - s.min_timestamp) * (WINDOW_WIDTH - 2 * MARGIN))
      (s.max_timestamp - s.min_timestamp),
    idiv ((p.y - s.min_value) * (WINDOW_HEIGHT - 2 * MARGIN)) (s.max_value - s.min_value) with
  | some dx, some dy => some (MARGIN + dx, WINDOW_HEIGHT - MARGIN - dy)
  | _, _ => none

/-- A request `draw_data_fields` sends to the X server. -/
inductive Draw where
  | string (x y : Int)
  | line (x1 y1 x2 y2 : Int)
deriving DecidableEq

/-- The requests of the loop over `j` for the field `data_field`, from `j` on,
`fuel` being the number of iterations left. -/
def drawLines (s : State) (data_field : DataField) : Nat → Nat → Option (List Draw)
  | 0, _ => some []
  | fuel + 1, j =>
    match mapPoint s (data_field.points.getD j ⟨0, 0⟩),
      mapPoint s (data_field.points.getD (j + 1) ⟨0, 0⟩) with
    | some p1, some p2 =>
      (drawLines s data_field fuel (j + 1)).map (fun l => Draw.line p1.1 p1.2 p2.1 p2.2 :: l)
    | _, _ => none

/-- The requests of the loop over `i` of `draw_data_fields`, from `i` on. -/
def drawFields (s : State) : Nat → Nat → Option (List Draw)
  | 0, _ => some []
  | fuel + 1, i =>
    match drawLines s (fieldAt s i) ((fieldAt s i).count - 1).toNat 0 with
    | some ls =>
      (drawFields s fuel (i + 1)).map (fun l =>
        Draw.string (WINDOW_WIDTH - MARGIN - 80 + Int.ofNat i * 10)
          (MARGIN + 10 + Int.ofNat i * 10) :: ls ++ l)
    | none => none

/-- `void draw_data_fields()`: the drawing requests, or nothing when a
division by zero stops the program. -/
def draw_data_fields (s : State) : Option (List Draw) :=
  drawFields s s.num_data_fields.toNat 0

/-- The points stored in the data fields: `points[0 .. count)` of every field. -/
def storedPoints (s : State) : List Point :=
  s.data_fields.flatMap (fun f => f.points.take f.count.toNat)

/-- One call of `update_data_fields`: the content of `values` at entry, the
value returned by its call of `parse_line` and the content of `values`
after that call. -/
structure Call where
  values : List Int
  parsed : Int
  values1 : List Int

/-- The state after `init_data_fields` and the given calls of
`update_data_fields`. -/
def runCalls (calls : List Call) : State :=
  calls.foldl (fun s c => update_data_fields c.values c.parsed c.values1 s) init_data_fields

/-- The point a call appends to the field `i`. -/
def Call.point (c : Call) (i : Nat) : Point :=
  ⟨c.values.getD 0 0, c.values1.getD (i + 1) 0⟩

/-- The points the given calls append to the data fields, in order. -/
def appendedPoints (calls : List Call) : List Point :=
  calls.flatMap (fun c => (List.range c.parsed.toNat).map c.point)

/-- The points the given calls append to the field `i`, in order. -/
def fieldPoints (calls : List Call) (i : Nat) : List Point :=
  calls.flatMap (fun c => if i < c.parsed.toNat then [c.point i] else [])

/-- The field `data_field` holds the last `MAX_POINTS` of the points `l`
appended to it, in order, in `points[0 .. count)`. -/
def Holds (data_field : DataField) (l : List Point) : Prop :=
  data_field.points.length = MAX_POINTS ∧
  data_field.count = Int.ofNat (min l.length MAX_POINTS) ∧
  data_field.points.take data_field.count.toNat = l.drop (l.length - MAX_POINTS)

/-- `lo` and `hi` are the smallest and the largest element of `l`. -/
def IsMinMax (l : List Int) (lo hi : Int) : Prop :=
  lo ∈ l ∧ hi ∈ l ∧ ∀ x ∈ l, lo ≤ x ∧ x ≤ hi

/-- The pair `lo`, `hi` of extremes kept for the values `l` appended so far:
the initial -1 when there is none, else the smallest and the largest. -/
def Running (l : List Int) (lo hi : Int) : Prop :=
  (l = [] ∧ lo = -1 ∧ hi = -1) ∨ IsMinMax l lo hi

end SerialPlotter

/-! ## C floating types with their non-finite values -/

namespace Ieee

/-- A value of a C floating type (`float`, `double`): a NaN, an infinity or a
finite value.  Finite values are kept exact: rounding and overflow of finite
results are left out. -/
inductive Fp where
  | nan
  | ninf
  | fin (q : ℚ)
  | pinf
deriving DecidableEq

/-- The comparison `a < b`: false as soon as one side is a NaN. -/
def Fp.lt : Fp → Fp → Bool
  | .fin a, .fin b => decide (a < b)
  | .ninf, .fin _ => true
  | .ninf, .pinf => true
  | .fin _, .pinf => true
  | _, _ => false

/-- The comparison `a == b`: a NaN is equal to nothing, itself included. -/
def Fp.eq : Fp → Fp → Bool
  | .fin a, .fin b => decide (a = b)
  | .ninf, .ninf => true
  | .pinf, .pinf => true
  | _, _ => false

/-- The comparison `a <= b`. -/
def Fp.le (a b : Fp) : Bool :=
  a.lt b || a.eq b

/-- The negation `-a`. -/
def Fp.neg : Fp → Fp
  | .nan => .nan
  | .ninf => .pinf
  | .fin a => .fin (-a)
  | .pinf => .ninf

/-- The sum `a + b`: the sum of opposite infinities is a NaN. -/
def Fp.add : Fp → Fp → Fp
  | .nan, _ => .nan
  | _, .nan => .nan
  | .pinf, .ninf => .nan
  | .ninf, .pinf => .nan
  | .pinf, _ => .pinf
  | _, .pinf => .pinf
  | .ninf, _ => .ninf
  | _, .ninf => .ninf
  | .fin a, .fin b => .fin (a + b)

/-- The difference `a - b`. -/
def Fp.sub (a b : Fp) : Fp :=
  a.add b.neg

/-- The product `a * b`: an infinity times zero is a NaN. -/
def Fp.mul : Fp → Fp → Fp
  | .nan, _ => .nan
  | _, .nan => .nan
  | .fin a, .fin b => .fin (a * b)
  | .fin a, .pinf => if a = 0 then .nan else if 0 < a then .pinf else .ninf
  | .fin a, .ninf => if a = 0 then .nan else if 0 < a then .ninf else .pinf
  | .pinf, .fin b => if b = 0 then .nan else if 0 < b then .pinf else .ninf
  | .ninf, .fin b => if b = 0 then .nan else if 0 < b then .ninf else .pinf
  | .pinf, .pinf => .pinf
  | .ninf, .ninf => .pinf
  | .pinf, .ninf => .ninf
  | .ninf, .pinf => .ninf

/-- `lo` and `hi` are the smallest and the largest element of `l` for `<=`. -/
def IsMinMaxFp (l : List Fp) (lo hi : Fp) : Prop :=
  lo ∈ l ∧ hi ∈ l ∧ ∀ x ∈ l, lo.le x = true ∧ x.le hi = true

end Ieee

/-! ## pthread_serial.c: the range scan on doubles -/

namespace PthreadSerial.Floats

open Ieee

/-- `typedef struct { double timestamp; double values[MAX_DATA]; } DataPoint;`
with every value a `double` can take. -/
structure DataPoint where
  timestamp : Fp
  values : List Fp
deriving DecidableEq

/-- `typedef struct { DataPoint *data; int size, start, end, count; } DataBuffer;`
(`end_` is the field `end`). -/
structure DataBuffer where
  data : List DataPoint
  size : Int
  start : Int
  end_ : Int
  count : Int

/-- The array read `data[i]`. -/
def readAt (data : List DataPoint) (i : Int) : DataPoint :=
  data.getD i.toNat ⟨Fp.fin 0, []⟩

/-- The array read `point.values[j]`. -/
def valueAt (point : DataPoint) (j : Nat) : Fp :=
  point.values.getD j (Fp.fin 0)

/-- The samples in logical order, `data[(start + i) % size]` for
`i = 0 .. count - 1`, as the loops of `draw_graph` read them. -/
def contents (b : DataBuffer) : List DataPoint :=
  (List.range b.count.toNat).map
    (fun (i : Nat) => readAt b.data (Int.tmod (b.start + Int.ofNat i) b.size))

/-- The locals `min_x, max_x, min_y, max_y` of `draw_graph`. -/
structure Range where
  min_x : Fp
  max_x : Fp
  min_y : Fp
  max_y : Fp
deriving DecidableEq

/-- Body of the inner loop `for (j = 0; j < num_data; j++)` of the range scan:
`if (point.values[j] < min_y) min_y = point.values[j]; if (point.values[j] >
max_y) max_y = point.values[j];`. -/
def scanValue (point : DataPoint) (r : Range) (j : Nat) : Range :=
  let r1 := if (valueAt point j).lt r.min_y then { r with min_y := valueAt point j } else r
  if r1.max_y.lt (valueAt point j) then { r1 with max_y := valueAt point j } else r1

/-- Body of the outer loop of the range scan, for one data point. -/
def scanPoint (num_data : Nat) (r : Range) (point : DataPoint) : Range :=
  let r1 := if point.timestamp.lt r.min_x then { r with min_x := point.timestamp } else r
  let r2 := if r1.max_x.lt point.timestamp then { r1 with max_x := point.timestamp } else r1
  (List.range num_data).foldl (scanValue point) r2

/-- The range scan of `draw_graph`: the values of `min_x, max_x, min_y, max_y`
when the scaling factors are computed. -/
def draw_graph_range (num_data : Nat) (b : DataBuffer) : Range :=
  let first := readAt b.data b.start
  let r0 : Range :=
    { min_x := first.timestamp, max_x := first.timestamp,
      min_y := valueAt first 0, max_y := valueAt first 0 }
  (List.range b.count.toNat).foldl
    (fun r (i : Nat) =>
      scanPoint num_data r (readAt b.data (Int.tmod (b.start + Int.ofNat i) b.size)))
    r0

end PthreadSerial.Floats

/-! ## serial_plotter_resize.c: update_graph on floats -/

namespace SerialPlotterResize.Floats

open Ieee

/-- `typedef struct { long timestamp; float values[MAX_DATA_FIELDS]; } DataPoint;`
with every value a `float` can take. -/
structure DataPoint where
  timestamp : Int
  values : List Fp
deriving DecidableEq

/-- `typedef struct { int width, height, num_fields; long min_timestamp,
max_timestamp; float min_value, max_value; int colors[MAX_DATA_FIELDS]; } Graph;` -/
structure Graph where
  width : Int
  height : Int
  num_fields : Int
  min_timestamp : Int
  max_timestamp : Int
  min_value : Fp
  max_value : Fp
  colors : List Int
deriving DecidableEq

/-- The globals `buffer`, `buffer_size`, `graph` and `keypress`. -/
structure State where
  buffer : List DataPoint
  buffer_size : Int
  graph : Graph
  keypress : Bool
deriving DecidableEq

/-- The array read `buffer[i]`. -/
def bufferAt (buffer : List DataPoint) (i : Int) : DataPoint :=
  buffer.getD i.toNat ⟨0, []⟩

/-- The array read `point.values[j]`. -/
def valueAt (point : DataPoint) (j : Nat) : Fp :=
  point.values.getD j (Fp.fin 0)

/-- Body of the inner loop of `update_graph` for the value `v =
buffer[i].values[j]`: `if (v < graph.min_value) graph.min_value = v; if (v >
graph.max_value) graph.max_value = v;`. -/
def scanValue (g : Graph) (v : Fp) : Graph :=
  let g1 := if v.lt g.min_value then { g with min_value := v } else g
  if g1.max_value.lt v then { g1 with max_value := v } else g1

/-- The two nested loops of `update_graph` over `i < buffer_size` and
`j < graph.num_fields`. -/
def scanBuffer (buffer : List DataPoint) (buffer_size : Int) (g : Graph) : Graph :=
  (List.range buffer_size.toNat).foldl
    (fun g (i : Nat) =>
      (List.range g.num_fields.toNat).foldl
        (fun g (j : Nat) => scanValue g (valueAt (bufferAt buffer (Int.ofNat i)) j)) g)
    g

/-- `void update_graph()`. -/
def update_graph (s : State) : State :=
  let g0 : Graph :=
    { s.graph with
      width := WINDOW_WIDTH, height := WINDOW_HEIGHT,
      min_timestamp := 0, max_timestamp := 1000, min_value := Fp.fin 0, max_value := Fp.fin 1,
      colors := defaultColors }
  if 0 < s.buffer_size then
    let g1 : Graph :=
      { g0 with
        min_timestamp := (bufferAt s.buffer 0).timestamp,
        max_timestamp := (bufferAt s.buffer (s.buffer_size - 1)).timestamp,
        min_value := valueAt (bufferAt s.buffer 0) 0,
        max_value := valueAt (bufferAt s.buffer 0) 0 }
    let g2 := scanBuffer s.buffer s.buffer_size g1
    let margin : Fp := (g2.max_value.sub g2.min_value).mul (Fp.fin (1 / 10))
    let g3 : Graph :=
      { g2 with min_value := g2.min_value.sub margin, max_value := g2.max_value.add margin }
    let g4 : Graph :=
      if g3.min_value.eq g3.max_value then
        { g3 with min_value := Fp.fin 0, max_value := Fp.fin 1 }
      else g3
    let g5 : Graph :=
      if g4.min_timestamp = g4.max_timestamp then
        { g4 with min_timestamp := 0, max_timestamp := 1000 }
      else g4
    { s with graph := g5 }
  else { s with graph := g0 }

end SerialPlotterResize.Floats

/-! # Properties -/

/-! ## C library: tokens and lines -/

namespace Libc

theorem cstr_eq_self (l : List Char) (h : ∀ c ∈ l, c ≠ '\x00') : cstr l = l := by
  unfold cstr
  rw [List.takeWhile_eq_self_iff]
  intro c hc
  simpa using h c hc

theorem isDigit_ne (c : Char) (h : c.isDigit = true) :
    c ≠ ',' ∧ c ≠ '\n' ∧ c ≠ '\r' ∧ c ≠ '\x00' := by
  refine ⟨?_, ?_, ?_, ?_⟩ <;> rintro rfl <;> exact absurd h (by decide)

theorem takeSign_cases (t : List Char) :
    (takeSign t).2 = t ∨ t = '-' :: (takeSign t).2 ∨ t = '+' :: (takeSign t).2 := by
  unfold takeSign
  split <;> simp

theorem isField_of_body (t : List Char) (h0 : (takeSign t).2 ≠ [])
    (h : ∀ c ∈ (takeSign t).2, c.isDigit = true ∨ c = '.') : IsField t := by
  have hb : ∀ c ∈ (takeSign t).2, c ≠ ',' ∧ c ≠ '\n' ∧ c ≠ '\r' ∧ c ≠ '\x00' := by
    intro c hc
    rcases h c hc with hd | rfl
    · exact isDigit_ne c hd
    · decide
  rcases takeSign_cases t with e | e | e
  · rw [e] at hb h0; exact ⟨h0, hb⟩
  · rw [e]
    refine ⟨by simp, ?_⟩
    intro c hc
    rcases List.mem_cons.1 hc with rfl | hc
    · decide
    · exact hb c hc
  · rw [e]
    refine ⟨by simp, ?_⟩
    intro c hc
    rcases List.mem_cons.1 hc with rfl | hc
    · decide
    · exact hb c hc

theorem isField_of_isInteger (t : List Char) (h : isInteger t = true) : IsField t := by
  unfold isInteger at h
  simp only [Bool.and_eq_true, Bool.not_eq_true', List.isEmpty_eq_false, List.all_eq_true] at h
  refine isField_of_body t ?_ (fun c hc => Or.inl (h.2 c hc))
  intro e
  rw [e] at h
  simp at h

theorem isField_of_isDecimal (t : List Char) (h : isDecimal t = true) : IsField t := by
  simp only [isDecimal] at h
  have hsplit := List.takeWhile_append_dropWhile Char.isDigit (takeSign t).2
  have hip : ∀ c ∈ List.takeWhile Char.isDigit (takeSign t).2, c.isDigit = true :=
    fun c hc => List.mem_takeWhile_imp hc
  split at h
  · rename_i hd
    simp only [Bool.not_eq_true', List.isEmpty_eq_false] at h
    rw [hd, List.append_nil] at hsplit
    refine isField_of_body t ?_ ?_
    · rw [← hsplit]; intro e; rw [e] at h; simp at h
    · intro c hc; rw [← hsplit] at hc; exact Or.inl (hip c hc)
  · rename_i c f hd
    simp only [Bool.and_eq_true, decide_eq_true_eq, List.all_eq_true] at h
    obtain ⟨⟨rfl, hf⟩, _⟩ := h
    rw [hd] at hsplit
    refine isField_of_body t ?_ ?_
    · rw [← hsplit]; simp
    · intro c hc
      rw [← hsplit] at hc
      rcases List.mem_append.1 hc with hc | hc
      · exact Or.inl (hip c hc)
      · rcases List.mem_cons.1 hc with rfl | hc
        · exact Or.inr rfl
        · exact Or.inl (hf c hc)

theorem csv_nil : csv [] = [] := rfl

theorem csv_singleton (t : List Char) : csv [t] = t := by
  simp [csv, List.intercalate]

theorem csv_cons_cons (t t' : List Char) (ts : List (List Char)) :
    csv (t :: t' :: ts) = t ++ ',' :: csv (t' :: ts) := by
  simp [csv, List.intercalate]

theorem mem_csv (toks : List (List Char)) (c : Char) (h : c ∈ csv toks) :
    c = ',' ∨ ∃ t ∈ toks, c ∈ t := by
  induction toks with
  | nil => simp [csv_nil] at h
  | cons t ts ih =>
    cases ts with
    | nil =>
      rw [csv_singleton] at h
      exact Or.inr ⟨t, List.mem_cons_self _ _, h⟩
    | cons t' ts =>
      rw [csv_cons_cons] at h
      rcases List.mem_append.1 h with h | h
      · exact Or.inr ⟨t, List.mem_cons_self _ _, h⟩
      · rcases List.mem_cons.1 h with h | h
        · exact Or.inl h
        · rcases ih h with h | ⟨u, hu, hcu⟩
          · exact Or.inl h
          · exact Or.inr ⟨u, List.mem_cons_of_mem _ hu, hcu⟩

theorem strtokAll_csv (toks : List (List Char)) (h0 : toks ≠ [])
    (h : ∀ t ∈ toks, IsField t) : strtokAll ',' (csv toks) = toks := by
  unfold strtokAll csv
  rw [List.splitOn_intercalate _ ',' (fun l hl hc => ((h l hl).2 ',' hc).1 rfl) h0]
  rw [List.filter_eq_self]
  intro t ht
  simpa using (h t ht).1

theorem cstr_csv (toks : List (List Char)) (h : ∀ t ∈ toks, IsField t) :
    cstr (csv toks) = csv toks := by
  apply cstr_eq_self
  intro c hc
  rcases mem_csv toks c hc with rfl | ⟨t, ht, hct⟩
  · decide
  · exact ((h t ht).2 c hct).2.2.2

end Libc

/-! ## pthread_serial.c: ring buffer, line parsing and range scan -/

namespace PthreadSerial

theorem tmod_small (x n : Int) (h0 : 0 ≤ x) (hn : 0 < n) (h2 : x < 2 * n) :
    Int.tmod x n = if x < n then x else x - n := by
  rw [Int.tmod_eq_emod h0 (le_of_lt hn)]
  split
  · exact Int.emod_eq_of_lt h0 ‹_›
  · have : x % n = (x - n) % n := by
      rw [Int.sub_emod, Int.emod_self, sub_zero, Int.emod_emod]
    rw [this]
    exact Int.emod_eq_of_lt (by omega) (by omega)

theorem tmod_spec (x n : Int) (h0 : 0 ≤ x) (hn : 0 < n) (h2 : x < 2 * n) :
    ∃ r, Int.tmod x n = r ∧ ((x < n ∧ r = x) ∨ (n ≤ x ∧ r = x - n)) := by
  refine ⟨_, rfl, ?_⟩
  rw [tmod_small x n h0 hn h2]
  split <;> omega

theorem readAt_writeAt_same (data : List DataPoint) (i : Int) (p : DataPoint)
    (h : i.toNat < data.length) : readAt (writeAt data i p) i = p := by
  simp [readAt, writeAt, List.getD_eq_getElem?_getD, h]

theorem readAt_writeAt_ne (data : List DataPoint) (i j : Int) (p : DataPoint)
    (h : i.toNat ≠ j.toNat) : readAt (writeAt data i p) j = readAt data j := by
  simp [readAt, writeAt, List.getD_eq_getElem?_getD, List.getElem?_set_ne h]

theorem inv_init (C : Int) (mem : List DataPoint) (hC : 1 ≤ C)
    (hmem : (mem.length : Int) = C) : Inv (init_buffer C mem) := by
  constructor <;> simp [init_buffer] <;> omega

theorem enqueue_full (b : DataBuffer) (p : DataPoint) (hf : b.count = b.size) :
    enqueue b p =
      { data := writeAt b.data (Int.tmod (b.end_ + 1) b.size) p, size := b.size,
        start := Int.tmod (b.start + 1) b.size, end_ := Int.tmod (b.end_ + 1) b.size,
        count := b.count - 1 + 1 } := by
  simp [enqueue, is_full, hf]

theorem enqueue_not_full (b : DataBuffer) (p : DataPoint) (hf : b.count ≠ b.size) :
    enqueue b p =
      { data := writeAt b.data (Int.tmod (b.end_ + 1) b.size) p, size := b.size,
        start := b.start, end_ := Int.tmod (b.end_ + 1) b.size,
        count := b.count + 1 } := by
  simp [enqueue, is_full, hf]

theorem inv_enqueue (b : DataBuffer) (p : DataPoint) (h : Inv b) : Inv (enqueue b p) := by
  obtain ⟨h1, h2, h3, h4, h5, h6, h7, h8, h9⟩ := h
  obtain ⟨e, he, hec⟩ := tmod_spec (b.end_ + 1) b.size (by omega) h1 (by omega)
  obtain ⟨t, ht, htc⟩ := tmod_spec (b.start + b.count) b.size (by omega) h1 (by omega)
  obtain ⟨s, hs, hsc⟩ := tmod_spec (b.start + 1) b.size (by omega) h1 (by omega)
  rw [he, ht] at h9
  by_cases hf : b.count = b.size
  · rw [enqueue_full b p hf, he, hs]
    obtain ⟨e', he', hec'⟩ := tmod_spec (e + 1) b.size (by omega) h1 (by omega)
    obtain ⟨t', ht', htc'⟩ :=
      tmod_spec (s + (b.count - 1 + 1)) b.size (by omega) h1 (by omega)
    constructor <;> simp only [writeAt, List.length_set, he', ht'] <;> omega
  · rw [enqueue_not_full b p hf, he]
    obtain ⟨e', he', hec'⟩ := tmod_spec (e + 1) b.size (by omega) h1 (by omega)
    obtain ⟨t', ht', htc'⟩ :=
      tmod_spec (b.start + (b.count + 1)) b.size (by omega) h1 (by omega)
    constructor <;> simp only [writeAt, List.length_set, he', ht'] <;> omega

theorem dequeue_snd (b : DataBuffer) :
    (dequeue b).2 = if b.count = 0 then b
      else { b with start := Int.tmod (b.start + 1) b.size, count := b.count - 1 } := by
  unfold dequeue is_empty
  by_cases h : b.count = 0 <;> simp [h]

theorem inv_dequeue (b : DataBuffer) (h : Inv b) : Inv (dequeue b).2 := by
  rw [dequeue_snd]
  split
  · exact h
  · obtain ⟨h1, h2, h3, h4, h5, h6, h7, h8, h9⟩ := h
    obtain ⟨e, he, hec⟩ := tmod_spec (b.end_ + 1) b.size (by omega) h1 (by omega)
    obtain ⟨t, ht, htc⟩ := tmod_spec (b.start + b.count) b.size (by omega) h1 (by omega)
    obtain ⟨s, hs, hsc⟩ := tmod_spec (b.start + 1) b.size (by omega) h1 (by omega)
    rw [he, ht] at h9
    obtain ⟨t', ht', htc'⟩ := tmod_spec (s + (b.count - 1)) b.size (by omega) h1 (by omega)
    constructor <;> simp only [hs, he, ht'] <;> omega

theorem contents_length (b : DataBuffer) : (contents b).length = b.count.toNat := by
  simp [contents]

theorem contents_getElem (b : DataBuffer) (i : Nat) (h : i < (contents b).length) :
    (contents b)[i] = readAt b.data (Int.tmod (b.start + (i : Int)) b.size) := by
  simp [contents]

theorem contents_enqueue (b : DataBuffer) (p : DataPoint) (h : Inv b) :
    contents (enqueue b p) =
      (if b.count = b.size then (contents b).drop 1 else contents b) ++ [p] := by
  obtain ⟨h1, h2, h3, h4, h5, h6, h7, h8, h9⟩ := h
  obtain ⟨e, he, hec⟩ := tmod_spec (b.end_ + 1) b.size (by omega) h1 (by omega)
  obtain ⟨t, ht, htc⟩ := tmod_spec (b.start + b.count) b.size (by omega) h1 (by omega)
  obtain ⟨s, hs, hsc⟩ := tmod_spec (b.start + 1) b.size (by omega) h1 (by omega)
  rw [he, ht] at h9
  by_cases hf : b.count = b.size
  · rw [if_pos hf, enqueue_full b p hf, he, hs]
    apply List.ext_getElem
    · simp only [contents_length, List.length_append, List.length_drop, List.length_singleton]
      omega
    · intro i hi1 hi2
      rw [contents_getElem]
      simp only [contents_length] at hi1
      obtain ⟨r, hr, hrc⟩ := tmod_spec (s + (i : Int)) b.size (by omega) h1 (by omega)
      simp only [hr]
      by_cases hlast : i + 1 = b.count.toNat
      · rw [List.getElem_append_right (by simp [contents_length]; omega)]
        have : r = e := by omega
        subst this
        simp only [List.getElem_singleton]
        exact readAt_writeAt_same _ _ _ (by omega)
      · rw [List.getElem_append_left (by simp [contents_length]; omega)]
        rw [List.getElem_drop, contents_getElem]
        obtain ⟨r', hr', hrc'⟩ :=
          tmod_spec (b.start + ((1 + i : Nat) : Int)) b.size (by omega) h1 (by omega)
        rw [hr', readAt_writeAt_ne _ _ _ _ (by omega)]
        congr 1
        omega
  · rw [if_neg hf, enqueue_not_full b p hf, he]
    apply List.ext_getElem
    · simp only [contents_length, List.length_append, List.length_singleton]
      omega
    · intro i hi1 hi2
      rw [contents_getElem]
      simp only [contents_length] at hi1
      obtain ⟨r, hr, hrc⟩ := tmod_spec (b.start + (i : Int)) b.size (by omega) h1 (by omega)
      simp only [hr]
      by_cases hlast : i = b.count.toNat
      · rw [List.getElem_append_right (by simp [contents_length]; omega)]
        have : r = e := by omega
        subst this
        simp only [List.getElem_singleton]
        exact readAt_writeAt_same _ _ _ (by omega)
      · rw [List.getElem_append_left (by simp [contents_length]; omega)]
        rw [contents_getElem, hr, readAt_writeAt_ne _ _ _ _ (by omega)]

theorem enqueue_size (b : DataBuffer) (p : DataPoint) : (enqueue b p).size = b.size := by
  unfold enqueue
  split <;> rfl

theorem enqueue_count (b : DataBuffer) (p : DataPoint) :
    (enqueue b p).count = if b.count = b.size then b.count else b.count + 1 := by
  by_cases hf : b.count = b.size
  · rw [enqueue_full b p hf, if_pos hf]; simp
  · rw [enqueue_not_full b p hf, if_neg hf]

theorem foldl_enqueue_spec (C : Nat) (mem : List DataPoint) (hC : 1 ≤ C)
    (hmem : mem.length = C) (ps : List DataPoint) :
    Inv (ps.foldl enqueue (init_buffer C mem)) ∧
    (ps.foldl enqueue (init_buffer C mem)).size = C ∧
    (ps.foldl enqueue (init_buffer C mem)).count = min ps.length C ∧
    contents (ps.foldl enqueue (init_buffer C mem)) = ps.drop (ps.length - C) := by
  induction ps using List.reverseRecOn with
  | nil =>
    refine ⟨inv_init C mem (by omega) (by omega), rfl, by simp [init_buffer], ?_⟩
    simp [contents, init_buffer]
  | append_singleton ps p ih =>
    obtain ⟨hinv, hsize, hcount, hcont⟩ := ih
    rw [List.foldl_append, List.foldl_cons, List.foldl_nil]
    refine ⟨inv_enqueue _ _ hinv, by rw [enqueue_size, hsize], ?_, ?_⟩
    · rw [enqueue_count, hsize, hcount]
      simp only [List.length_append, List.length_singleton]
      split <;> omega
    · rw [contents_enqueue _ _ hinv, hcont, hsize, hcount]
      simp only [List.length_append, List.length_singleton]
      split
      · rename_i hfull
        have hle : C ≤ ps.length := by omega
        rw [List.drop_drop, List.drop_append_of_le_length (by omega)]
        congr 2
        omega
      · rename_i hnf
        have hlt : ps.length < C := by omega
        have h0 : ps.length - C = 0 := by omega
        have h1 : ps.length + 1 - C = 0 := by omega
        rw [h0, h1]
        simp

/-- C1: for every capacity `C >= 1` and every sequence of `n` enqueue calls
starting from `init_buffer(C)`, `count` is `min(n, C)` and the samples read in
logical order `data[(start + i) % size]` are exactly the last `min(n, C)`
enqueued samples, in enqueue order. -/
theorem enqueue_keeps_last (C : Nat) (mem : List DataPoint) (ps : List DataPoint)
    (hC : 1 ≤ C) (hmem : mem.length = C) :
    (ps.foldl enqueue (init_buffer C mem)).count = min ps.length C ∧
    contents (ps.foldl enqueue (init_buffer C mem)) = ps.drop (ps.length - C) ∧
    (contents (ps.foldl enqueue (init_buffer C mem))).length = min ps.length C := by
  obtain ⟨_, _, hcount, hcont⟩ := foldl_enqueue_spec C mem hC hmem ps
  refine ⟨hcount, hcont, ?_⟩
  rw [hcont, List.length_drop]
  omega

/-- Instance of `enqueue_keeps_last`: three samples pushed into a ring of
capacity 2 leave the last two, oldest first. -/
theorem enqueue_keeps_last_witness :
    1 ≤ 2 ∧ [(default : DataPoint), default].length = 2 ∧
    ([⟨0, [1]⟩, ⟨1, [2]⟩, ⟨2, [3]⟩].foldl enqueue
        (init_buffer (2 : Nat) [default, default])).count = 2 ∧
    contents ([⟨0, [1]⟩, ⟨1, [2]⟩, ⟨2, [3]⟩].foldl enqueue
        (init_buffer (2 : Nat) [default, default])) = [⟨1, [2]⟩, ⟨2, [3]⟩] :=
  ⟨by decide, by decide,
   (enqueue_keeps_last 2 [default, default] [⟨0, [1]⟩, ⟨1, [2]⟩, ⟨2, [3]⟩]
      (by decide) (by decide)).1,
   (enqueue_keeps_last 2 [default, default] [⟨0, [1]⟩, ⟨1, [2]⟩, ⟨2, [3]⟩]
      (by decide) (by decide)).2.1⟩

theorem inv_runOps (b : DataBuffer) (ops : List Op) (h : Inv b) :
    Inv (runOps b ops) ∧ (runOps b ops).size = b.size := by
  induction ops generalizing b with
  | nil => exact ⟨h, rfl⟩
  | cons op ops ih =>
    cases op with
    | enq p =>
      obtain ⟨h1, h2⟩ := ih (enqueue b p) (inv_enqueue b p h)
      exact ⟨h1, by rw [show runOps b (Op.enq p :: ops) = runOps (enqueue b p) ops from rfl,
        h2, enqueue_size]⟩
    | deq =>
      obtain ⟨h1, h2⟩ := ih (dequeue b).2 (inv_dequeue b h)
      refine ⟨h1, ?_⟩
      rw [show runOps b (Op.deq :: ops) = runOps (dequeue b).2 ops from rfl, h2, dequeue_snd]
      split <;> rfl

/-- C2: every buffer state reachable from `init_buffer(C)`, `C >= 1`, by any
sequence of enqueue and dequeue calls satisfies `0 <= count <= size`,
`0 <= start < size` and `(end + 1) % size == (start + count) % size`; the
length never exceeds the capacity `C`, and `is_full()` holds exactly when
`count == size`. -/
theorem ring_invariant (C : Nat) (mem : List DataPoint) (ops : List Op)
    (hC : 1 ≤ C) (hmem : mem.length = C) :
    (runOps (init_buffer C mem) ops).size = C ∧
    0 ≤ (runOps (init_buffer C mem) ops).count ∧
    (runOps (init_buffer C mem) ops).count ≤ (runOps (init_buffer C mem) ops).size ∧
    0 ≤ (runOps (init_buffer C mem) ops).start ∧
    (runOps (init_buffer C mem) ops).start < (runOps (init_buffer C mem) ops).size ∧
    Int.tmod ((runOps (init_buffer C mem) ops).end_ + 1) (runOps (init_buffer C mem) ops).size =
      Int.tmod ((runOps (init_buffer C mem) ops).start + (runOps (init_buffer C mem) ops).count)
        (runOps (init_buffer C mem) ops).size ∧
    (contents (runOps (init_buffer C mem) ops)).length ≤ C ∧
    (is_full (runOps (init_buffer C mem) ops) = true ↔
      (runOps (init_buffer C mem) ops).count = (runOps (init_buffer C mem) ops).size) := by
  obtain ⟨h, hs⟩ := inv_runOps (init_buffer C mem) ops (inv_init C mem (by omega) (by omega))
  have hs' : (runOps (init_buffer C mem) ops).size = C := hs
  refine ⟨hs', h.count_lo, h.count_hi, h.start_lo, h.start_hi, h.end_eq, ?_, ?_⟩
  · rw [contents_length]
    have := h.count_hi
    omega
  · simp [is_full]

/-- Instance of `ring_invariant`: a ring of capacity 2 after three enqueues,
a dequeue and another enqueue. -/
theorem ring_invariant_witness :
    1 ≤ 2 ∧ [(default : DataPoint), default].length = 2 ∧
    (runOps (init_buffer (2 : Nat) [default, default])
      [.enq ⟨0, [1]⟩, .enq ⟨1, [2]⟩, .enq ⟨2, [3]⟩, .deq,
       .enq ⟨3, [4]⟩]).count ≤ 2 ∧
    (is_full (runOps (init_buffer (2 : Nat) [default, default])
      [.enq ⟨0, [1]⟩, .enq ⟨1, [2]⟩, .enq ⟨2, [3]⟩, .deq, .enq ⟨3, [4]⟩]) = true ↔
     (runOps (init_buffer (2 : Nat) [default, default])
      [.enq ⟨0, [1]⟩, .enq ⟨1, [2]⟩, .enq ⟨2, [3]⟩, .deq,
       .enq ⟨3, [4]⟩]).count = 2) :=
  ⟨by decide, by decide,
   (ring_invariant 2 [default, default]
      [.enq ⟨0, [1]⟩, .enq ⟨1, [2]⟩, .enq ⟨2, [3]⟩, .deq, .enq ⟨3, [4]⟩]
      (by decide) (by decide)).2.2.1,
   (ring_invariant 2 [default, default]
      [.enq ⟨0, [1]⟩, .enq ⟨1, [2]⟩, .enq ⟨2, [3]⟩, .deq, .enq ⟨3, [4]⟩]
      (by decide) (by decide)).2.2.2.2.2.2.2⟩

theorem isMinMax_singleton (x : ℚ) : IsMinMax [x] x x := by
  simp [IsMinMax]

theorem isMinMax_snoc (l : List ℚ) (lo hi v : ℚ) (h : IsMinMax l lo hi) :
    IsMinMax (l ++ [v]) (min lo v) (max hi v) := by
  obtain ⟨h1, h2, h3⟩ := h
  refine ⟨?_, ?_, ?_⟩
  · rcases min_choice lo v with e | e <;> rw [e] <;> simp [h1]
  · rcases max_choice hi v with e | e <;> rw [e] <;> simp [h2]
  · intro x hx
    rcases List.mem_append.1 hx with hx | hx
    · exact ⟨le_trans (min_le_left _ _) (h3 x hx).1, le_trans (h3 x hx).2 (le_max_left _ _)⟩
    · rw [List.mem_singleton] at hx
      subst hx
      exact ⟨min_le_right _ _, le_max_right _ _⟩

theorem isMinMax_congr (l l' : List ℚ) (lo hi : ℚ) (hm : ∀ x, x ∈ l ↔ x ∈ l')
    (h : IsMinMax l lo hi) : IsMinMax l' lo hi := by
  obtain ⟨h1, h2, h3⟩ := h
  exact ⟨(hm _).1 h1, (hm _).1 h2, fun x hx => h3 x ((hm x).2 hx)⟩

theorem scanValue_eq (point : DataPoint) (r : Range) (j : Nat) :
    scanValue point r j =
      { min_x := r.min_x, max_x := r.max_x,
        min_y := min r.min_y (valueAt point j), max_y := max r.max_y (valueAt point j) } := by
  unfold scanValue
  rcases lt_or_le (valueAt point j) r.min_y with h1 | h1 <;>
    rcases lt_or_le r.max_y (valueAt point j) with h2 | h2 <;>
    simp [h1, h2, not_lt.2, min_eq_left, min_eq_right, max_eq_left, max_eq_right, le_of_lt]

theorem foldl_scanValue (point : DataPoint) (js : List Nat) (r : Range) (ys : List ℚ)
    (h : IsMinMax ys r.min_y r.max_y) :
    (js.foldl (scanValue point) r).min_x = r.min_x ∧
    (js.foldl (scanValue point) r).max_x = r.max_x ∧
    IsMinMax (ys ++ js.map (valueAt point)) (js.foldl (scanValue point) r).min_y
      (js.foldl (scanValue point) r).max_y := by
  induction js generalizing r ys with
  | nil => simpa using h
  | cons j js ih =>
    rw [List.foldl_cons]
    have h' := isMinMax_snoc ys r.min_y r.max_y (valueAt point j) h
    obtain ⟨e1, e2, e3⟩ := ih (scanValue point r j) (ys ++ [valueAt point j])
      (by rw [scanValue_eq]; exact h')
    refine ⟨by rw [e1, scanValue_eq], by rw [e2, scanValue_eq], ?_⟩
    simpa using e3

theorem scanPoint_spec (num_data : Nat) (r : Range) (point : DataPoint) (xs ys : List ℚ)
    (hx : IsMinMax xs r.min_x r.max_x) (hy : IsMinMax ys r.min_y r.max_y) :
    IsMinMax (xs ++ [point.timestamp]) (scanPoint num_data r point).min_x
      (scanPoint num_data r point).max_x ∧
    IsMinMax (ys ++ (List.range num_data).map (valueAt point))
      (scanPoint num_data r point).min_y (scanPoint num_data r point).max_y := by
  have hx' := isMinMax_snoc xs r.min_x r.max_x point.timestamp hx
  have key : ∀ r2 : Range, r2.min_x = min r.min_x point.timestamp →
      r2.max_x = max r.max_x point.timestamp → r2.min_y = r.min_y → r2.max_y = r.max_y →
      IsMinMax (xs ++ [point.timestamp]) ((List.range num_data).foldl (scanValue point) r2).min_x
        ((List.range num_data).foldl (scanValue point) r2).max_x ∧
      IsMinMax (ys ++ (List.range num_data).map (valueAt point))
        ((List.range num_data).foldl (scanValue point) r2).min_y
        ((List.range num_data).foldl (scanValue point) r2).max_y := by
    intro r2 a1 a2 a3 a4
    obtain ⟨e1, e2, e3⟩ := foldl_scanValue point (List.range num_data) r2 ys
      (by rw [a3, a4]; exact hy)
    exact ⟨by rw [e1, e2, a1, a2]; exact hx', e3⟩
  unfold scanPoint
  apply key
  · rcases lt_or_le point.timestamp r.min_x with h1 | h1 <;>
      rcases lt_or_le r.max_x point.timestamp with h2 | h2 <;>
      simp [h1, h2, not_lt.2, min_eq_left, min_eq_right, le_of_lt]
  · rcases lt_or_le point.timestamp r.min_x with h1 | h1 <;>
      rcases lt_or_le r.max_x point.timestamp with h2 | h2 <;>
      simp [h1, h2, not_lt.2, max_eq_left, max_eq_right, le_of_lt]
  · split_ifs <;> rfl
  · split_ifs <;> rfl

theorem foldl_scanPoint (num_data : Nat) (ps : List DataPoint) (r : Range) (xs ys : List ℚ)
    (hx : IsMinMax xs r.min_x r.max_x) (hy : IsMinMax ys r.min_y r.max_y) :
    IsMinMax (xs ++ ps.map DataPoint.timestamp) (ps.foldl (scanPoint num_data) r).min_x
      (ps.foldl (scanPoint num_data) r).max_x ∧
    IsMinMax (ys ++ ps.flatMap (fun p => (List.range num_data).map (valueAt p)))
      (ps.foldl (scanPoint num_data) r).min_y (ps.foldl (scanPoint num_data) r).max_y := by
  induction ps generalizing r xs ys with
  | nil => simpa using ⟨hx, hy⟩
  | cons p ps ih =>
    rw [List.foldl_cons]
    obtain ⟨h1, h2⟩ := scanPoint_spec num_data r p xs ys hx hy
    obtain ⟨e1, e2⟩ := ih (scanPoint num_data r p) _ _ h1 h2
    constructor
    · simpa using e1
    · simpa using e2

theorem range_map_valueAt (n : Nat) (p : DataPoint) (h : n ≤ p.values.length) :
    (List.range n).map (valueAt p) = p.values.take n := by
  apply List.ext_getElem
  · simp [h]
  · intro i h1 h2
    simp only [List.length_map, List.length_range] at h1
    have hi : i < p.values.length := by omega
    simp [valueAt, List.getD_eq_getElem?_getD, List.getElem?_eq_getElem hi]

theorem draw_graph_range_eq (num_data : Nat) (b : DataBuffer) :
    draw_graph_range num_data b =
      (contents b).foldl (scanPoint num_data)
        { min_x := (readAt b.data b.start).timestamp,
          max_x := (readAt b.data b.start).timestamp,
          min_y := valueAt (readAt b.data b.start) 0,
          max_y := valueAt (readAt b.data b.start) 0 } := by
  unfold draw_graph_range contents
  rw [List.foldl_map]

theorem contents_head (b : DataBuffer) (h : Inv b) (hc : 1 ≤ b.count) :
    ∃ rest, contents b = readAt b.data b.start :: rest := by
  have hlen : 0 < (contents b).length := by rw [contents_length]; omega
  have h0 := contents_getElem b 0 hlen
  have hs : Int.tmod (b.start + ((0 : Nat) : Int)) b.size = b.start := by
    obtain ⟨r, hr, hrc⟩ := tmod_spec (b.start + ((0 : Nat) : Int)) b.size
      (by have := h.start_lo; omega) h.size_pos
      (by have := h.start_hi; have := h.start_lo; omega)
    rw [hr]
    have := h.start_hi
    omega
  rw [hs] at h0
  cases hcont : contents b with
  | nil => rw [hcont] at hlen; simp at hlen
  | cons p rest =>
    refine ⟨rest, ?_⟩
    simp only [hcont, List.getElem_cons_zero] at h0
    rw [h0]

theorem scan_isRangeOf (num_data : Nat) (p : DataPoint) (rest : List DataPoint)
    (hn : 1 ≤ num_data) (hv : ∀ q ∈ p :: rest, num_data ≤ q.values.length) :
    IsRangeOf ((p :: rest).map (DataPoint.fields num_data))
      ((p :: rest).foldl (scanPoint num_data)
        { min_x := p.timestamp, max_x := p.timestamp,
          min_y := valueAt p 0, max_y := valueAt p 0 }) := by
  obtain ⟨h1, h2⟩ := foldl_scanPoint num_data (p :: rest)
    { min_x := p.timestamp, max_x := p.timestamp, min_y := valueAt p 0, max_y := valueAt p 0 }
    [p.timestamp] [valueAt p 0] (isMinMax_singleton _) (isMinMax_singleton _)
  have hflat : (p :: rest).flatMap (fun q => (List.range num_data).map (valueAt q)) =
      ((p :: rest).map (DataPoint.fields num_data)).flatMap Prod.snd := by
    generalize p :: rest = l at hv
    induction l with
    | nil => rfl
    | cons q l ih =>
      simp only [List.flatMap_cons, List.map_cons]
      rw [ih (fun x hx => hv x (List.mem_cons_of_mem _ hx)),
        range_map_valueAt num_data q (hv q (List.mem_cons_self _ _))]
      rfl
  have hmap : (p :: rest).map DataPoint.timestamp =
      ((p :: rest).map (DataPoint.fields num_data)).map Prod.fst := by
    simp [DataPoint.fields, Function.comp_def]
  constructor
  · refine isMinMax_congr _ _ _ _ ?_ h1
    intro x
    rw [← hmap]
    simp
  · refine isMinMax_congr _ _ _ _ ?_ h2
    intro x
    rw [← hflat]
    have hmem : valueAt p 0 ∈ (List.range num_data).map (valueAt p) :=
      List.mem_map.2 ⟨0, List.mem_range.2 (by omega), rfl⟩
    simp only [List.flatMap_cons, List.mem_append, List.mem_singleton]
    constructor
    · rintro (rfl | h)
      · exact Or.inl hmem
      · exact h
    · intro h
      exact Or.inr h

theorem draw_graph_range_spec (num_data : Nat) (b : DataBuffer) (h : Inv b)
    (hc : 1 ≤ b.count) (hn : 1 ≤ num_data)
    (hv : ∀ q ∈ contents b, num_data ≤ q.values.length) :
    IsRangeOf ((contents b).map (DataPoint.fields num_data)) (draw_graph_range num_data b) := by
  obtain ⟨rest, hrest⟩ := contents_head b h hc
  rw [draw_graph_range_eq, hrest]
  rw [hrest] at hv
  exact scan_isRangeOf num_data _ rest hn hv

theorem parseLoop_from (atof : List Char → ℚ) (num_data : Nat) (toks : List (List Char))
    (i : Nat) (ts : ℚ) (pre post : List ℚ) (hi : 1 ≤ i) (hpre : pre.length = i - 1)
    (hlen : pre.length + post.length = MAX_DATA) (hn : num_data ≤ MAX_DATA) :
    parseLoop atof num_data toks i ⟨ts, pre ++ post⟩ =
      ⟨ts, pre ++ (toks.take (num_data + 1 - i)).map atof ++
        post.drop (min toks.length (num_data + 1 - i))⟩ := by
  induction toks generalizing i pre post with
  | nil => simp [parseLoop]
  | cons t toks ih =>
    unfold parseLoop
    by_cases hle : i ≤ num_data
    · rw [if_pos hle, if_neg (by omega)]
      cases post with
      | nil => simp [MAX_DATA] at hlen hn; omega
      | cons y ys =>
        have hset : (pre ++ y :: ys).set (i - 1) (atof t) = (pre ++ [atof t]) ++ ys := by
          rw [← hpre]
          simp
        simp only [hset]
        rw [ih (i + 1) (pre ++ [atof t]) ys (by omega) (by simp [hpre]; omega)
          (by simp at hlen ⊢; omega)]
        have e1 : num_data + 1 - i = (num_data + 1 - (i + 1)) + 1 := by omega
        rw [e1, List.take_succ_cons]
        simp only [List.map_cons, List.length_cons, Nat.add_min_add_right, List.drop_succ_cons,
          List.append_assoc, List.singleton_append]
    · rw [if_neg hle]
      have e1 : num_data + 1 - i = 0 := by omega
      simp [e1]

theorem parseLoop_zero (atof : List Char → ℚ) (num_data : Nat) (toks : List (List Char))
    (point : DataPoint) (hv : point.values.length = MAX_DATA) (hn : num_data ≤ MAX_DATA) :
    parseLoop atof num_data toks 0 point =
      ⟨(match toks.head? with
        | some t => atof t
        | none => point.timestamp),
       ((toks.drop 1).take num_data).map atof ++
         point.values.drop (min (toks.length - 1) num_data)⟩ := by
  cases toks with
  | nil => simp [parseLoop]
  | cons t toks =>
    unfold parseLoop
    rw [if_pos (Nat.zero_le _), if_pos rfl]
    have := parseLoop_from atof num_data toks 1 (atof t) [] point.values (le_refl _) rfl
      (by simpa using hv) hn
    simpa using this

theorem parseLoop_length (atof : List Char → ℚ) (num_data : Nat) (toks : List (List Char))
    (i : Nat) (point : DataPoint) :
    (parseLoop atof num_data toks i point).values.length = point.values.length := by
  induction toks generalizing i point with
  | nil => simp [parseLoop]
  | cons t toks ih =>
    unfold parseLoop
    split
    · rw [ih]
      split <;> simp
    · rfl

theorem parseLoop_fields (atof : List Char → ℚ) (num_data : Nat) (toks : List (List Char))
    (point : DataPoint) (hv : point.values.length = MAX_DATA) (hn : num_data ≤ MAX_DATA)
    (ht : toks.length = num_data + 1) :
    (parseLoop atof num_data toks 0 point).fields num_data = sampleOf atof num_data toks := by
  rw [parseLoop_zero atof num_data toks point hv hn]
  cases toks with
  | nil => simp at ht
  | cons t toks =>
    simp only [List.length_cons, Nat.add_right_cancel_iff] at ht
    simp [DataPoint.fields, sampleOf, ht]

theorem parse_line_csv (atof : List Char → ℚ) (num_data : Nat) (point : DataPoint)
    (toks : List (List Char)) (b : DataBuffer) (h0 : toks ≠ [])
    (h : ∀ t ∈ toks, Libc.IsField t) :
    parse_line atof num_data point (Libc.csv toks) b =
      enqueue b (parseLoop atof num_data toks 0 point) := by
  unfold parse_line
  rw [Libc.cstr_csv toks h, Libc.strtokAll_csv toks h0 h]

theorem parse_lines_csv (atof : List Char → ℚ) (num_data : Nat)
    (calls : List (DataPoint × List (List Char))) (b : DataBuffer)
    (h : ∀ x ∈ calls, x.2 ≠ [] ∧ ∀ t ∈ x.2, Libc.IsField t) :
    parse_lines atof num_data b (calls.map (fun x => (x.1, Libc.csv x.2))) =
      (calls.map (fun x => parseLoop atof num_data x.2 0 x.1)).foldl enqueue b := by
  induction calls generalizing b with
  | nil => rfl
  | cons x calls ih =>
    have hx := h x (List.mem_cons_self _ _)
    simp only [parse_lines, List.map_cons, List.foldl_cons]
    rw [parse_line_csv atof num_data x.1 x.2 b hx.1 hx.2]
    exact ih _ (fun y hy => h y (List.mem_cons_of_mem _ hy))

/-- C3: for every capacity `C >= 1`, every `num_data` in 1..8 and every
sequence of well-formed lines (each `num_data + 1` tokens separated by single
commas) passed one at a time to `parse_line` after `init_buffer(C)`, the
buffer holds exactly the samples parsed from the last `C` lines, in order, and
the range scan of `draw_graph` yields the smallest and largest timestamp and
value of those samples, with no margin. -/
theorem parse_lines_last_and_range (atof : List Char → ℚ) (C num_data : Nat)
    (mem : List DataPoint) (calls : List (DataPoint × List (List Char)))
    (hC : 1 ≤ C) (hmem : mem.length = C) (hn : 1 ≤ num_data) (hn8 : num_data ≤ MAX_DATA)
    (hcalls : ∀ x ∈ calls, x.1.values.length = MAX_DATA ∧ x.2.length = num_data + 1 ∧
      ∀ t ∈ x.2, Libc.IsField t) :
    (contents (parse_lines atof num_data (init_buffer C mem)
        (calls.map (fun x => (x.1, Libc.csv x.2))))).map (DataPoint.fields num_data) =
      (calls.drop (calls.length - C)).map (fun x => sampleOf atof num_data x.2) ∧
    (calls ≠ [] →
      IsRangeOf ((calls.drop (calls.length - C)).map (fun x => sampleOf atof num_data x.2))
        (draw_graph_range num_data (parse_lines atof num_data (init_buffer C mem)
          (calls.map (fun x => (x.1, Libc.csv x.2)))))) := by
  have hfield : ∀ x ∈ calls, x.2 ≠ [] ∧ ∀ t ∈ x.2, Libc.IsField t := by
    intro x hx
    refine ⟨?_, (hcalls x hx).2.2⟩
    intro e
    have := (hcalls x hx).2.1
    rw [e] at this
    simp at this
  rw [parse_lines_csv atof num_data calls _ hfield]
  obtain ⟨hinv, _, hcount, hcont⟩ := foldl_enqueue_spec C mem hC hmem
    (calls.map (fun x => parseLoop atof num_data x.2 0 x.1))
  have hmapped : (contents ((calls.map (fun x => parseLoop atof num_data x.2 0 x.1)).foldl
      enqueue (init_buffer C mem))).map (DataPoint.fields num_data) =
      (calls.drop (calls.length - C)).map (fun x => sampleOf atof num_data x.2) := by
    rw [hcont, List.length_map, ← List.map_drop, List.map_map]
    apply List.map_congr_left
    intro x hx
    have hx' := hcalls x (List.mem_of_mem_drop hx)
    exact parseLoop_fields atof num_data x.2 x.1 hx'.1 hn8 hx'.2.1
  refine ⟨hmapped, ?_⟩
  intro hne
  rw [← hmapped]
  apply draw_graph_range_spec num_data _ hinv _ hn
  · intro q hq
    rw [hcont] at hq
    obtain ⟨x, hx, rfl⟩ := List.mem_map.1 (List.mem_of_mem_drop hq)
    rw [parseLoop_length, (hcalls x hx).1]
    exact hn8
  · rw [hcount, List.length_map]
    have : 0 < calls.length := List.length_pos.2 hne
    omega

/-- Instance of `parse_lines_last_and_range` on the lines `0,1.0`, `1,2.0`,
`2,3.0` with `num_data = 1` and capacity 2: the buffer is `[(1, 2.0), (2, 3.0)]`
and the scan gives `min_x = 1, max_x = 2, min_y = 2.0, max_y = 3.0`. -/
theorem parse_lines_last_and_range_witness :
    (contents (parse_lines Libc.decimal_atof 1 (init_buffer (2 : Nat) [default, default])
        [(⟨0, List.replicate 8 0⟩, "0,1.0".toList),
         (⟨0, List.replicate 8 0⟩, "1,2.0".toList),
         (⟨0, List.replicate 8 0⟩, "2,3.0".toList)])).map (DataPoint.fields 1) =
      [(1, [2]), (2, [3])] ∧
    IsRangeOf [(1, [2]), (2, [3])]
      (draw_graph_range 1 (parse_lines Libc.decimal_atof 1
        (init_buffer (2 : Nat) [default, default])
        [(⟨0, List.replicate 8 0⟩, "0,1.0".toList),
         (⟨0, List.replicate 8 0⟩, "1,2.0".toList),
         (⟨0, List.replicate 8 0⟩, "2,3.0".toList)])) ∧
    draw_graph_range 1 (parse_lines Libc.decimal_atof 1
        (init_buffer (2 : Nat) [default, default])
        [(⟨0, List.replicate 8 0⟩, "0,1.0".toList),
         (⟨0, List.replicate 8 0⟩, "1,2.0".toList),
         (⟨0, List.replicate 8 0⟩, "2,3.0".toList)]) = ⟨1, 2, 2, 3⟩ := by
  have h := parse_lines_last_and_range Libc.decimal_atof 2 1 [default, default]
    [(⟨0, List.replicate 8 0⟩, ["0".toList, "1.0".toList]),
     (⟨0, List.replicate 8 0⟩, ["1".toList, "2.0".toList]),
     (⟨0, List.replicate 8 0⟩, ["2".toList, "3.0".toList])]
    (by decide) (by decide) (by decide) (by decide)
    (by
      intro x hx
      simp only [List.mem_cons, List.mem_singleton, List.not_mem_nil, or_false] at hx
      rcases hx with rfl | rfl | rfl <;>
        refine ⟨by decide, by decide, ?_⟩ <;>
        intro t ht <;>
        simp only [List.mem_cons, List.mem_singleton, List.not_mem_nil, or_false] at ht <;>
        rcases ht with rfl | rfl <;>
        exact Libc.isField_of_isDecimal _ (by decide))
  have e1 : (List.map (fun x => sampleOf Libc.decimal_atof 1 x.2)
      (List.drop (3 - 2)
        [((⟨0, List.replicate 8 0⟩ : DataPoint), ["0".toList, "1.0".toList]),
         (⟨0, List.replicate 8 0⟩, ["1".toList, "2.0".toList]),
         (⟨0, List.replicate 8 0⟩, ["2".toList, "3.0".toList])])) = [(1, [2]), (2, [3])] := by
    decide!
  refine ⟨?_, ?_, by decide!⟩
  · exact h.1.trans e1
  · have h2 := h.2 (by simp)
    exact e1 ▸ h2

theorem min_succ_self (c s : Int) (h : c ≤ s) :
    (if c = s then c else c + 1) = min (c + 1) s := by
  split <;> omega

/-- C7, as stated, fails: the line `10,1.5` has two tokens, not `num_data + 1
= 3`, yet `parse_line` enqueues a sample for it; the field no token was
stored into keeps the prior content of the local (here 7). -/
theorem parse_line_short_line_enqueued :
    ("10,1.5".toList.splitOn ',').length = 2 ∧
    (Libc.strtokAll ',' "10,1.5".toList).length = 2 ∧
    (parse_line Libc.decimal_atof 2 ⟨7, List.replicate 8 7⟩ "10,1.5".toList
      (init_buffer 2 [default, default])).count = 1 ∧
    contents (parse_line Libc.decimal_atof 2 ⟨7, List.replicate 8 7⟩ "10,1.5".toList
      (init_buffer 2 [default, default])) = [⟨10, [3 / 2, 7, 7, 7, 7, 7, 7, 7]⟩] := by
  decide!

/-- C7 amended: `parse_line` has no field-count check.  For every `num_data`
up to 8 and every line, whatever its token count, it enqueues exactly one
sample: the count becomes `min(count + 1, size)` and the logical contents are
the old ones (minus the oldest when the ring was full) followed by the new
sample.  The first token, if any, is stored as the timestamp, the next at
most `num_data` tokens as the leading values, further tokens are ignored, and
fields without a token keep the prior content of the local. -/
theorem parse_line_always_enqueues (atof : List Char → ℚ) (num_data : Nat)
    (point : DataPoint) (line : List Char) (b : DataBuffer)
    (hn8 : num_data ≤ MAX_DATA)
    (hv : point.values.length = MAX_DATA) (hb : Inv b) :
    (parse_line atof num_data point line b).count = min (b.count + 1) b.size ∧
    contents (parse_line atof num_data point line b) =
      (if b.count = b.size then (contents b).drop 1 else contents b) ++
        [⟨(match (Libc.strtokAll ',' (Libc.cstr line)).head? with
           | some t => atof t
           | none => point.timestamp),
          (((Libc.strtokAll ',' (Libc.cstr line)).drop 1).take num_data).map atof ++
            point.values.drop
              (min ((Libc.strtokAll ',' (Libc.cstr line)).length - 1) num_data)⟩] := by
  unfold parse_line
  rw [parseLoop_zero atof num_data _ point hv hn8]
  refine ⟨?_, contents_enqueue _ _ hb⟩
  rw [enqueue_count]
  exact min_succ_self _ _ hb.count_hi

/-- Instance of `parse_line_always_enqueues`: the two-token line `10,1.5`
with `num_data = 2` on an empty ring of capacity 2. -/
theorem parse_line_always_enqueues_witness :
    (parse_line Libc.decimal_atof 2 ⟨7, List.replicate 8 7⟩ "10,1.5".toList
      (init_buffer 2 [default, default])).count = min (0 + 1) 2 :=
  (parse_line_always_enqueues Libc.decimal_atof 2 ⟨7, List.replicate 8 7⟩ "10,1.5".toList
    (init_buffer 2 [default, default]) (by decide) (by decide)
    (inv_init 2 [default, default] (by decide) (by decide))).1

end PthreadSerial

/-! ## serial_plotter_resize.c: reading and parsing a line -/

namespace SerialPlotterResize

theorem bytes_cons (c : Char) (cs : List Char) : bytes (c :: cs) = Read.byte c :: bytes cs :=
  rfl

theorem bytes_append (l r : List Char) : bytes (l ++ r) = bytes l ++ bytes r := by
  simp [bytes]

theorem readLoop_byte (c : Char) (rest : List Read) (line : List Char) (index : Nat) :
    readLoop (Read.byte c :: rest) line index =
      if c = '\n' ∨ index = 255 then LoopExit.brk line index rest
      else readLoop rest (line.set index c) (index + 1) := rfl

theorem readLoop_bytes (cs : List Char) (tail : List Read) (pre post : List Char)
    (hnl : ∀ c ∈ cs, c ≠ '\n') (hfit : pre.length + cs.length ≤ 255)
    (hpost : cs.length ≤ post.length) :
    readLoop (bytes cs ++ tail) (pre ++ post) pre.length =
      readLoop tail (pre ++ cs ++ post.drop cs.length) (pre.length + cs.length) := by
  induction cs generalizing pre post with
  | nil => simp [bytes]
  | cons c cs ih =>
    rw [bytes_cons, List.cons_append, readLoop_byte]
    have h1 : c ≠ '\n' := hnl c (List.mem_cons_self _ _)
    simp only [List.length_cons] at hfit hpost
    rw [if_neg (by simp only [h1, false_or]; omega)]
    cases post with
    | nil => simp at hpost
    | cons y ys =>
      have hset : (pre ++ y :: ys).set pre.length c = (pre ++ [c]) ++ ys := by simp
      rw [hset]
      have := ih (pre ++ [c]) ys (fun d hd => hnl d (List.mem_cons_of_mem _ hd))
        (by simp; omega) (by simpa using hpost)
      simp only [List.length_append, List.length_singleton] at this
      rw [this]
      simp [Nat.add_assoc, Nat.add_comm 1]

theorem readLoop_newline (tail : List Read) (line : List Char) (index : Nat) :
    readLoop (Read.byte '\n' :: tail) line index = LoopExit.brk line index tail := by
  simp [readLoop]

theorem readLoop_full (c : Char) (tail : List Read) (line : List Char) :
    readLoop (Read.byte c :: tail) line 255 = LoopExit.brk line 255 tail := by
  simp [readLoop]

theorem cstr_append_cons_nul (l r : List Char) : Libc.cstr (l ++ '\x00' :: r) = Libc.cstr l := by
  unfold Libc.cstr
  induction l with
  | nil => simp
  | cons c l ih =>
    simp only [List.cons_append, List.takeWhile_cons]
    split
    · rw [ih]
    · rfl

theorem stripCR_append_cr (l : List Char) : stripCR (l ++ ['\r']) = l := by
  simp [stripCR]

theorem stripCR_of_no_cr (l : List Char) (h : ∀ c ∈ l, c ≠ '\r') : stripCR l = l := by
  unfold stripCR
  rw [if_neg]
  intro e
  exact h '\r' (List.mem_of_getLast?_eq_some e) rfl

theorem parseBuffer_eq (atol : List Char → Int) (atof : List Char → ℚ) (num_fields : Int)
    (dp : DataPoint) (pre post : List Char) (hpre : pre ≠ []) (hpost : post ≠ []) :
    parseBuffer atol atof num_fields dp (pre ++ post) pre.length =
      parseTokens atol atof num_fields dp (Libc.strtokAll ',' (Libc.cstr (stripCR pre))) := by
  have hlen : pre.length ≠ 0 := by simpa using hpre
  unfold parseBuffer
  rw [if_neg hlen]
  obtain ⟨y, ys, rfl⟩ := List.exists_cons_of_ne_nil hpost
  obtain ⟨l, c, rfl⟩ : ∃ l c, pre = l ++ [c] :=
    ⟨pre.dropLast, pre.getLast hpre, (List.dropLast_append_getLast hpre).symm⟩
  · have hget : (l ++ [c] ++ y :: ys).getD ((l ++ [c]).length - 1) '\x00' = c := by
      rw [List.getD_eq_getElem?_getD, List.append_assoc,
        List.getElem?_append_right (by simp)]
      simp
    simp only [hget]
    by_cases hc : c = '\r'
    · subst hc
      simp only [if_true, stripCR_append_cr]
      have : (l ++ ['\r'] ++ y :: ys).set ((l ++ ['\r']).length - 1) '\x00' =
          l ++ '\x00' :: y :: ys := by simp
      rw [this, cstr_append_cons_nul]
    · simp only [if_neg hc]
      have hs : stripCR (l ++ [c]) = l ++ [c] := by
        unfold stripCR
        rw [if_neg]
        simpa using hc
      have : (l ++ [c] ++ y :: ys).set (l ++ [c]).length '\x00' = (l ++ [c]) ++ '\x00' :: ys := by
        simp
      rw [hs, this, cstr_append_cons_nul]

theorem valuesLoop_count (atof : List Char → ℚ) (toks : List (List Char)) (i : Nat)
    (dp : DataPoint) (hi : i ≤ MAX_DATA_FIELDS) :
    (valuesLoop atof toks i dp).1 = toks.drop (MAX_DATA_FIELDS - i) ∧
    (valuesLoop atof toks i dp).2.1 = i + min toks.length (MAX_DATA_FIELDS - i) := by
  induction toks generalizing i dp with
  | nil => simp [valuesLoop]
  | cons t toks ih =>
    unfold valuesLoop
    by_cases hlt : i < MAX_DATA_FIELDS
    · rw [if_pos hlt]
      obtain ⟨e1, e2⟩ := ih (i + 1) { dp with values := dp.values.set i (atof t) } hlt
      have e : MAX_DATA_FIELDS - i = (MAX_DATA_FIELDS - (i + 1)) + 1 := by omega
      rw [e1, e2, e]
      simp only [List.drop_succ_cons, List.length_cons, Nat.add_min_add_right, true_and]
      omega
    · rw [if_neg hlt]
      have e : MAX_DATA_FIELDS - i = 0 := by omega
      simp [e]

theorem valuesLoop_from (atof : List Char → ℚ) (toks : List (List Char)) (i : Nat) (ts : Int)
    (pre post : List ℚ) (hpre : pre.length = i)
    (hlen : pre.length + post.length = MAX_DATA_FIELDS) :
    (valuesLoop atof toks i ⟨ts, pre ++ post⟩).2.2 =
      ⟨ts, pre ++ (toks.take (MAX_DATA_FIELDS - i)).map atof ++
        post.drop (min toks.length (MAX_DATA_FIELDS - i))⟩ := by
  induction toks generalizing i pre post with
  | nil => simp [valuesLoop]
  | cons t toks ih =>
    unfold valuesLoop
    by_cases hlt : i < MAX_DATA_FIELDS
    · rw [if_pos hlt]
      cases post with
      | nil => simp at hlen; omega
      | cons y ys =>
        have hset : (pre ++ y :: ys).set i (atof t) = (pre ++ [atof t]) ++ ys := by
          rw [← hpre]
          simp
        simp only [hset]
        rw [ih (i + 1) (pre ++ [atof t]) ys (by simp [hpre]) (by simp at hlen ⊢; omega)]
        have e : MAX_DATA_FIELDS - i = (MAX_DATA_FIELDS - (i + 1)) + 1 := by omega
        rw [e, List.take_succ_cons]
        simp only [List.map_cons, List.length_cons, Nat.add_min_add_right, List.drop_succ_cons,
          List.append_assoc, List.singleton_append]
    · rw [if_neg hlt]
      have e : MAX_DATA_FIELDS - i = 0 := by omega
      simp [e]

theorem parseTokens_ret (atol : List Char → Int) (atof : List Char → ℚ) (n : Nat)
    (dp : DataPoint) (toks : List (List Char)) (hn8 : n ≤ MAX_DATA_FIELDS) :
    (parseTokens atol atof n dp toks).1 = if toks.length = n + 1 then 1 else 0 := by
  cases toks with
  | nil => simp [parseTokens]
  | cons t rest =>
    obtain ⟨e1, e2⟩ := valuesLoop_count atof rest 0 { dp with timestamp := atol t }
      (Nat.zero_le _)
    simp only [parseTokens, e1, e2, Nat.sub_zero, Nat.zero_add, List.length_cons,
      Nat.add_right_cancel_iff]
    by_cases hlen : rest.length = n
    · have hd : rest.drop MAX_DATA_FIELDS = [] := List.drop_eq_nil_of_le (by omega)
      have hm : min rest.length MAX_DATA_FIELDS = n := by omega
      rw [if_pos hlen, hd, hm, if_neg (by simp)]
    · rw [if_neg hlen]
      by_cases hle : rest.length ≤ MAX_DATA_FIELDS
      · have hm : min rest.length MAX_DATA_FIELDS = rest.length := by omega
        rw [if_pos]
        right
        rw [hm]
        simpa using hlen
      · rw [if_pos]
        left
        intro hd
        rw [List.drop_eq_nil_iff] at hd
        exact hle hd

theorem parseTokens_ret_zero (atol : List Char → Int) (atof : List Char → ℚ) (n : Nat)
    (dp : DataPoint) (toks : List (List Char)) (h : toks.length ≠ n + 1) :
    (parseTokens atol atof n dp toks).1 = 0 := by
  cases toks with
  | nil => simp [parseTokens]
  | cons t rest =>
    obtain ⟨e1, e2⟩ := valuesLoop_count atof rest 0 { dp with timestamp := atol t }
      (Nat.zero_le _)
    simp only [parseTokens, e1, e2, Nat.sub_zero, Nat.zero_add]
    simp only [List.length_cons, ne_eq, Nat.add_right_cancel_iff] at h
    by_cases hle : rest.length ≤ MAX_DATA_FIELDS
    · have hm : min rest.length MAX_DATA_FIELDS = rest.length := by omega
      rw [if_pos]
      right
      rw [hm]
      simpa using h
    · rw [if_pos]
      left
      intro hd
      rw [List.drop_eq_nil_iff] at hd
      exact hle hd

theorem parseTokens_fields (atol : List Char → Int) (atof : List Char → ℚ) (n : Nat)
    (dp : DataPoint) (t : List Char) (rest : List (List Char)) (hn8 : n ≤ MAX_DATA_FIELDS)
    (hlen : rest.length = n) (hdp : dp.values.length = MAX_DATA_FIELDS) :
    parseTokens atol atof n dp (t :: rest) =
      (1, ⟨atol t, rest.map atof ++ dp.values.drop n⟩) := by
  have hret := parseTokens_ret atol atof n dp (t :: rest) hn8
  rw [if_pos (by simp [hlen])] at hret
  have hval := valuesLoop_from atof rest 0 (atol t) [] dp.values rfl (by simpa using hdp)
  have h2 : (parseTokens atol atof n dp (t :: rest)).2 =
      (valuesLoop atof rest 0 { dp with timestamp := atol t }).2.2 := by
    simp only [parseTokens]
    split <;> rfl
  have hv : (parseTokens atol atof n dp (t :: rest)).2 =
      ⟨atol t, rest.map atof ++ dp.values.drop n⟩ := by
    rw [h2]
    have : ({ dp with timestamp := atol t } : DataPoint) = ⟨atol t, [] ++ dp.values⟩ := rfl
    rw [this, hval]
    have ht : rest.take (MAX_DATA_FIELDS - 0) = rest := List.take_of_length_le (by omega)
    have hm : min rest.length (MAX_DATA_FIELDS - 0) = n := by omega
    rw [ht, hm]
    simp
  exact Prod.ext hret hv

theorem read_data_point_line (atol : List Char → Int) (atof : List Char → ℚ)
    (num_fields : Int) (line0 : List Char) (dp : DataPoint) (L : List Char)
    (rest : List Read) (hline0 : line0.length = 256) (hnl : ∀ c ∈ L, c ≠ '\n')
    (hlen : L.length ≤ 255) :
    read_data_point atol atof num_fields line0 dp (bytes (L ++ ['\n']) ++ rest) =
      ((parseTokens atol atof num_fields dp
          (Libc.strtokAll ',' (Libc.cstr (stripCR L)))).1,
       (parseTokens atol atof num_fields dp
          (Libc.strtokAll ',' (Libc.cstr (stripCR L)))).2, rest) := by
  unfold read_data_point
  have h := readLoop_bytes L (Read.byte '\n' :: rest) [] line0 hnl (by simpa using hlen)
    (by omega)
  simp only [List.nil_append, List.length_nil, Nat.zero_add] at h
  rw [bytes_append, List.append_assoc]
  have hb : bytes ['\n'] ++ rest = Read.byte '\n' :: rest := rfl
  rw [hb, h, readLoop_newline]
  simp only
  by_cases hL : L = []
  · subst hL
    simp [parseBuffer, stripCR, Libc.cstr, Libc.strtokAll, parseTokens]
  · rw [parseBuffer_eq atol atof num_fields dp L (line0.drop L.length) hL
      (by
        intro e
        have := congrArg List.length e
        simp at this
        omega)]

theorem stripCR_subset (L : List Char) (c : Char) (h : c ∈ stripCR L) : c ∈ L := by
  unfold stripCR at h
  split at h
  · exact List.mem_of_mem_dropLast h
  · exact h

theorem read_data_point_csv (atol : List Char → Int) (atof : List Char → ℚ) (n : Nat)
    (line0 : List Char) (dp : DataPoint) (t : List Char) (vals : List (List Char))
    (rest : List Read) (hn8 : n ≤ MAX_DATA_FIELDS) (hline0 : line0.length = 256)
    (hdp : dp.values.length = MAX_DATA_FIELDS) (hf : ∀ u ∈ t :: vals, Libc.IsField u)
    (hlen : vals.length = n) (hshort : (Libc.csv (t :: vals)).length ≤ 255) :
    read_data_point atol atof n line0 dp (bytes (Libc.csv (t :: vals) ++ ['\n']) ++ rest) =
      (1, ⟨atol t, vals.map atof ++ dp.values.drop n⟩, rest) := by
  have hchar : ∀ c ∈ Libc.csv (t :: vals), c ≠ '\n' ∧ c ≠ '\r' := by
    intro c hc
    rcases Libc.mem_csv _ c hc with rfl | ⟨u, hu, hcu⟩
    · decide
    · exact ⟨((hf u hu).2 c hcu).2.1, ((hf u hu).2 c hcu).2.2.1⟩
  rw [read_data_point_line atol atof n line0 dp _ rest hline0 (fun c hc => (hchar c hc).1)
    hshort]
  rw [stripCR_of_no_cr _ (fun c hc => (hchar c hc).2), Libc.cstr_csv _ hf,
    Libc.strtokAll_csv _ (by simp) hf, parseTokens_fields atol atof n dp t vals hn8 hlen hdp]

/-- C4: for every `num_fields` up to 8 and every line shorter than 255 bytes
that consists of a decimal integer timestamp followed by exactly `num_fields`
decimal number tokens, separated by single commas, `read_data_point` returns 1
and stores the converted timestamp in `timestamp` and the converted i-th
value token in `values[i]` for every `i < num_fields` (the other values are
left as they were). -/
theorem read_data_point_well_formed (atol : List Char → Int) (atof : List Char → ℚ)
    (num_fields : Nat) (line0 : List Char) (dp : DataPoint) (ts : List Char)
    (vals : List (List Char)) (rest : List Read)
    (hn8 : num_fields ≤ MAX_DATA_FIELDS)
    (hline0 : line0.length = 256) (hdp : dp.values.length = MAX_DATA_FIELDS)
    (hts : Libc.isInteger ts = true) (hvals : ∀ v ∈ vals, Libc.isDecimal v = true)
    (hlen : vals.length = num_fields) (hshort : (Libc.csv (ts :: vals)).length < 255) :
    read_data_point atol atof num_fields line0 dp
        (bytes (Libc.csv (ts :: vals) ++ ['\n']) ++ rest) =
      (1, ⟨atol ts, vals.map atof ++ dp.values.drop num_fields⟩, rest) ∧
    ∀ i, i < num_fields →
      (vals.map atof ++ dp.values.drop num_fields)[i]? = (vals[i]?).map atof := by
  constructor
  · apply read_data_point_csv atol atof num_fields line0 dp ts vals rest hn8 hline0 hdp _ hlen
      (le_of_lt hshort)
    intro u hu
    rcases List.mem_cons.1 hu with rfl | hu
    · exact Libc.isField_of_isInteger _ hts
    · exact Libc.isField_of_isDecimal _ (hvals u hu)
  · intro i hi
    rw [List.getElem?_append_left (by simpa [hlen] using hi), List.getElem?_map]

/-- Instance of `read_data_point_well_formed`: the line `10,1.5,2.5` with
`num_fields = 2` gives timestamp 10 and values 1.5 and 2.5. -/
theorem read_data_point_well_formed_witness :
    read_data_point Libc.decimal_atol Libc.decimal_atof 2 (List.replicate 256 'z')
        ⟨-7, List.replicate 8 (-1)⟩ (bytes "10,1.5,2.5\n".toList) =
      (1, ⟨10, [3 / 2, 5 / 2, -1, -1, -1, -1, -1, -1]⟩, []) := by
  have h := (read_data_point_well_formed Libc.decimal_atol Libc.decimal_atof 2
    (List.replicate 256 'z') ⟨-7, List.replicate 8 (-1)⟩ "10".toList
    ["1.5".toList, "2.5".toList] [] (by decide) (List.length_replicate 256 'z') (by decide)
    (by decide) (by decide) (by decide) (by decide)).1
  have e : ((1 : Int), (⟨Libc.decimal_atol "10".toList,
      ["1.5".toList, "2.5".toList].map Libc.decimal_atof ++
        (List.replicate 8 (-1 : ℚ)).drop 2⟩ : DataPoint), ([] : List Read)) =
      (1, ⟨10, [3 / 2, 5 / 2, -1, -1, -1, -1, -1, -1]⟩, []) := by decide!
  exact h.trans e

/-- C5, as stated, fails: splitting `10,,1.5,2.5` on commas gives four
tokens, not `num_fields + 1 = 3`, yet `read_data_point` returns 1, because
`strtok` skips the empty field.  The same happens with a NUL in the line
(`10,1.5,2.5`, NUL, `,9`: the C string ends at the NUL) and with a line longer
than the buffer (`10,1.5,2.5`, 245 zeros, `,7`: only the first 255 bytes are
parsed). -/
theorem read_data_point_empty_field_accepted :
    ("10,,1.5,2.5".toList.splitOn ',').length = 4 ∧
    read_data_point Libc.decimal_atol Libc.decimal_atof 2 (List.replicate 256 'z')
        ⟨-7, List.replicate 8 (-1)⟩ (bytes "10,,1.5,2.5\n".toList) =
      (1, ⟨10, [3 / 2, 5 / 2, -1, -1, -1, -1, -1, -1]⟩, []) ∧
    ("10,1.5,2.5\x00,9".toList.splitOn ',').length = 4 ∧
    (read_data_point Libc.decimal_atol Libc.decimal_atof 2 (List.replicate 256 'z')
        ⟨-7, List.replicate 8 (-1)⟩ (bytes "10,1.5,2.5\x00,9\n".toList)).1 = 1 ∧
    (("10,1.5,2.5".toList ++ List.replicate 245 '0' ++ ",7".toList).splitOn ',').length = 4 ∧
    (read_data_point Libc.decimal_atol Libc.decimal_atof 2 (List.replicate 256 'z')
        ⟨-7, List.replicate 8 (-1)⟩
        (bytes ("10,1.5,2.5".toList ++ List.replicate 245 '0' ++ ",7\n".toList))).1 = 1 := by
  decide!

/-- C5 amended: for every `num_fields` and every line of at most 255 bytes
without NUL whose number of non-empty tokens, obtained by splitting it on
commas after removal of one trailing carriage return, differs from
`num_fields + 1`, `read_data_point` returns 0. -/
theorem read_data_point_count_mismatch (atol : List Char → Int) (atof : List Char → ℚ)
    (num_fields : Nat) (line0 : List Char) (dp : DataPoint) (L : List Char)
    (rest : List Read) (hline0 : line0.length = 256)
    (hnl : ∀ c ∈ L, c ≠ '\n' ∧ c ≠ '\x00') (hlen : L.length ≤ 255)
    (hcount : (((stripCR L).splitOn ',').filter (fun t => t ≠ [])).length ≠ num_fields + 1) :
    (read_data_point atol atof num_fields line0 dp (bytes (L ++ ['\n']) ++ rest)).1 = 0 := by
  rw [read_data_point_line atol atof num_fields line0 dp L rest hline0
    (fun c hc => (hnl c hc).1) hlen]
  rw [Libc.cstr_eq_self _ (fun c hc => (hnl c (stripCR_subset L c hc)).2)]
  exact parseTokens_ret_zero atol atof num_fields dp _ hcount

/-- Instance of `read_data_point_count_mismatch`: `10,1.5` with
`num_fields = 2` is rejected. -/
theorem read_data_point_count_mismatch_witness :
    (read_data_point Libc.decimal_atol Libc.decimal_atof 2 (List.replicate 256 'z')
        ⟨-7, List.replicate 8 (-1)⟩ (bytes "10,1.5\n".toList)).1 = 0 :=
  read_data_point_count_mismatch Libc.decimal_atol Libc.decimal_atof 2
    (List.replicate 256 'z') ⟨-7, List.replicate 8 (-1)⟩ "10,1.5".toList []
    (List.length_replicate 256 'z') (by decide) (by decide) (by decide)

/-- C6, as stated, fails: in `x,1.5,2.5` the timestamp token `x` is not a
number, yet with `num_fields = 2` `read_data_point` returns 1, with the
timestamp converted to 0. -/
theorem read_data_point_bad_token_accepted :
    Libc.isInteger "x".toList = false ∧ Libc.isDecimal "x".toList = false ∧
    read_data_point Libc.decimal_atol Libc.decimal_atof 2 (List.replicate 256 'z')
        ⟨-7, List.replicate 8 (-1)⟩ (bytes "x,1.5,2.5\n".toList) =
      (1, ⟨0, [3 / 2, 5 / 2, -1, -1, -1, -1, -1, -1]⟩, []) := by
  decide!

/-- C6 amended: `read_data_point` does not check that a token is a valid
number.  For `num_fields <= 8`, every line of at most 255 bytes made of
`num_fields + 1` tokens separated by single commas is accepted when each token
is non-empty and free of commas, carriage returns, newlines and NUL bytes,
whether it is a number or not: 1 is returned, the first token is stored as
`atol` converts it and the others as `atof` converts them.  (A token with a
carriage return or a NUL byte can cut the line short and is left out: `1,`
followed by a carriage return is rejected with `num_fields = 1`.) -/
theorem read_data_point_any_tokens (atol : List Char → Int) (atof : List Char → ℚ)
    (num_fields : Nat) (line0 : List Char) (dp : DataPoint) (toks : List (List Char))
    (rest : List Read) (hn8 : num_fields ≤ MAX_DATA_FIELDS)
    (hline0 : line0.length = 256) (hdp : dp.values.length = MAX_DATA_FIELDS)
    (hf : ∀ u ∈ toks, Libc.IsField u) (hlen : toks.length = num_fields + 1)
    (hshort : (Libc.csv toks).length ≤ 255) :
    read_data_point atol atof num_fields line0 dp (bytes (Libc.csv toks ++ ['\n']) ++ rest) =
      (1, ⟨atol (toks.headD []), (toks.drop 1).map atof ++ dp.values.drop num_fields⟩,
        rest) := by
  cases toks with
  | nil => simp at hlen
  | cons t vals =>
    exact read_data_point_csv atol atof num_fields line0 dp t vals rest hn8 hline0 hdp hf
      (by simpa using hlen) hshort

/-- Instance of `read_data_point_any_tokens`: `x,1.5,2.5` with
`num_fields = 2` is accepted. -/
theorem read_data_point_any_tokens_witness :
    (read_data_point Libc.decimal_atol Libc.decimal_atof 2 (List.replicate 256 'z')
        ⟨-7, List.replicate 8 (-1)⟩ (bytes "x,1.5,2.5\n".toList)).1 = 1 :=
  congrArg Prod.fst
    (read_data_point_any_tokens Libc.decimal_atol Libc.decimal_atof 2
      (List.replicate 256 'z') ⟨-7, List.replicate 8 (-1)⟩
      ["x".toList, "1.5".toList, "2.5".toList] [] (by decide)
      (List.length_replicate 256 'z') (by decide)
      (by unfold Libc.IsField; decide) (by decide) (by decide))

theorem readLoop_rest_lt (src : List Read) (line : List Char) (index : Nat) (h : src ≠ []) :
    (readLoop src line index).rest.length < src.length := by
  induction src generalizing line index with
  | nil => exact absurd rfl h
  | cons x src ih =>
    cases x with
    | zero => simp [readLoop, LoopExit.rest]
    | fail => simp [readLoop, LoopExit.rest]
    | byte c =>
      rw [readLoop_byte]
      split
      · simp [LoopExit.rest]
      · by_cases hs : src = []
        · subst hs
          simp [readLoop, LoopExit.rest]
        · have := ih (line.set index c) (index + 1) hs
          simp only [List.length_cons]
          omega

theorem read_data_point_rest (atol : List Char → Int) (atof : List Char → ℚ)
    (num_fields : Int) (line0 : List Char) (dp : DataPoint) (src : List Read) :
    (read_data_point atol atof num_fields line0 dp src).2.2 = (readLoop src line0 0).rest := by
  unfold read_data_point
  split <;> simp [LoopExit.rest, *]

theorem accepted_nil (atol : List Char → Int) (atof : List Char → ℚ) (num_fields : Int)
    (line0 : List Char) (dp : DataPoint) (fuel : Nat) :
    accepted atol atof num_fields line0 dp fuel [] = [] := by
  cases fuel <;> simp [accepted]

theorem accepted_fuel (atol : List Char → Int) (atof : List Char → ℚ) (num_fields : Int)
    (line0 : List Char) (dp : DataPoint) (fuel1 fuel2 : Nat) (src : List Read)
    (h1 : src.length ≤ fuel1) (h2 : src.length ≤ fuel2) :
    accepted atol atof num_fields line0 dp fuel1 src =
      accepted atol atof num_fields line0 dp fuel2 src := by
  induction fuel1 generalizing fuel2 src with
  | zero =>
    have : src = [] := List.eq_nil_of_length_eq_zero (by omega)
    subst this
    rw [accepted_nil, accepted_nil]
  | succ f ih =>
    by_cases hs : src = []
    · subst hs
      rw [accepted_nil, accepted_nil]
    · have hpos : 0 < src.length := List.length_pos.2 hs
      obtain ⟨g, rfl⟩ : ∃ g, fuel2 = g + 1 := ⟨fuel2 - 1, by omega⟩
      have hlt := readLoop_rest_lt src line0 0 hs
      rw [← read_data_point_rest atol atof num_fields line0 dp] at hlt
      simp only [accepted, if_neg hs]
      rw [ih g _ (by omega) (by omega)]

theorem parseTokens_ret_cases (atol : List Char → Int) (atof : List Char → ℚ)
    (num_fields : Int) (dp : DataPoint) (toks : List (List Char)) :
    (parseTokens atol atof num_fields dp toks).1 = 0 ∨
      (parseTokens atol atof num_fields dp toks).1 = 1 := by
  cases toks with
  | nil => simp [parseTokens]
  | cons t rest =>
    simp only [parseTokens]
    split <;> simp

theorem parseBuffer_ret_cases (atol : List Char → Int) (atof : List Char → ℚ)
    (num_fields : Int) (dp : DataPoint) (line : List Char) (index : Nat) :
    (parseBuffer atol atof num_fields dp line index).1 = 0 ∨
      (parseBuffer atol atof num_fields dp line index).1 = 1 := by
  unfold parseBuffer
  split
  · simp
  · exact parseTokens_ret_cases _ _ _ _ _

theorem readLoop_in_delivery (d : List Char) (line : List Char) (index : Nat) :
    ∃ l i,
      (∀ tail, readLoop (bytes (d ++ ['\n']) ++ tail) line index = LoopExit.brk l i tail) ∨
      ∃ d', d'.length < d.length ∧
        ∀ tail, readLoop (bytes (d ++ ['\n']) ++ tail) line index =
          LoopExit.brk l i (bytes (d' ++ ['\n']) ++ tail) := by
  induction d generalizing line index with
  | nil =>
    exact ⟨line, index, Or.inl (fun tail => readLoop_newline tail line index)⟩
  | cons c cs ih =>
    by_cases hc : c = '\n' ∨ index = 255
    · refine ⟨line, index, Or.inr ⟨cs, by simp, fun tail => ?_⟩⟩
      rw [List.cons_append, bytes_cons, List.cons_append, readLoop_byte, if_pos hc]
    · obtain ⟨l, i, h | ⟨d', hd', h⟩⟩ := ih (line.set index c) (index + 1)
      · refine ⟨l, i, Or.inl (fun tail => ?_)⟩
        rw [List.cons_append, bytes_cons, List.cons_append, readLoop_byte, if_neg hc, h]
      · refine ⟨l, i, Or.inr ⟨d', by simp; omega, fun tail => ?_⟩⟩
        rw [List.cons_append, bytes_cons, List.cons_append, readLoop_byte, if_neg hc, h]

theorem accepted_brk (atol : List Char → Int) (atof : List Char → ℚ) (num_fields : Int)
    (line0 : List Char) (dp : DataPoint) (fuel : Nat) (src : List Read) (l : List Char)
    (i : Nat) (rem : List Read) (hs : src ≠ [])
    (h : readLoop src line0 0 = LoopExit.brk l i rem) :
    accepted atol atof num_fields line0 dp (fuel + 1) src =
      (if (parseBuffer atol atof num_fields dp l i).1 = 1
        then [(parseBuffer atol atof num_fields dp l i).2] else []) ++
      accepted atol atof num_fields line0 dp fuel rem := by
  have hr : read_data_point atol atof num_fields line0 dp src =
      ((parseBuffer atol atof num_fields dp l i).1,
       (parseBuffer atol atof num_fields dp l i).2, rem) := by
    unfold read_data_point
    rw [h]
  simp only [accepted, if_neg hs, hr]
  rcases parseBuffer_ret_cases atol atof num_fields dp l i with h0 | h1
  · simp [h0]
  · simp [h1]

theorem accepted_delivery (atol : List Char → Int) (atof : List Char → ℚ) (num_fields : Int)
    (line0 : List Char) (dp : DataPoint) (n : Nat) :
    ∀ d : List Char, d.length ≤ n → ∃ recs : List DataPoint,
      ∀ (tail : List Read) (fuel : Nat), d.length + 1 + tail.length ≤ fuel →
      accepted atol atof num_fields line0 dp fuel (bytes (d ++ ['\n']) ++ tail) =
        recs ++ accepted atol atof num_fields line0 dp tail.length tail := by
  induction n with
  | zero =>
    intro d hd
    obtain ⟨l, i, h | ⟨d', hd', h⟩⟩ := readLoop_in_delivery d line0 0
    · refine ⟨if (parseBuffer atol atof num_fields dp l i).1 = 1
          then [(parseBuffer atol atof num_fields dp l i).2] else [], ?_⟩
      intro tail fuel hfuel
      obtain ⟨g, rfl⟩ : ∃ g, fuel = g + 1 := ⟨fuel - 1, by omega⟩
      rw [accepted_brk atol atof num_fields line0 dp g _ l i tail (by simp [bytes]) (h tail)]
      rw [accepted_fuel atol atof num_fields line0 dp g tail.length tail (by omega)
        (le_refl _)]
    · omega
  | succ n ih =>
    intro d hd
    obtain ⟨l, i, h | ⟨d', hd', h⟩⟩ := readLoop_in_delivery d line0 0
    · refine ⟨if (parseBuffer atol atof num_fields dp l i).1 = 1
          then [(parseBuffer atol atof num_fields dp l i).2] else [], ?_⟩
      intro tail fuel hfuel
      obtain ⟨g, rfl⟩ : ∃ g, fuel = g + 1 := ⟨fuel - 1, by omega⟩
      rw [accepted_brk atol atof num_fields line0 dp g _ l i tail (by simp [bytes]) (h tail)]
      rw [accepted_fuel atol atof num_fields line0 dp g tail.length tail (by omega)
        (le_refl _)]
    · obtain ⟨recs, hrecs⟩ := ih d' (by omega)
      refine ⟨(if (parseBuffer atol atof num_fields dp l i).1 = 1
          then [(parseBuffer atol atof num_fields dp l i).2] else []) ++ recs, ?_⟩
      intro tail fuel hfuel
      obtain ⟨g, rfl⟩ : ∃ g, fuel = g + 1 := ⟨fuel - 1, by omega⟩
      rw [accepted_brk atol atof num_fields line0 dp g _ l i _ (by simp [bytes]) (h tail)]
      rw [hrecs tail g (by omega), List.append_assoc]

theorem accepted_zero (atol : List Char → Int) (atof : List Char → ℚ) (num_fields : Int)
    (line0 : List Char) (dp : DataPoint) (fuel : Nat) (tail : List Read) :
    accepted atol atof num_fields line0 dp (fuel + 1) (Read.zero :: tail) =
      accepted atol atof num_fields line0 dp fuel tail := by
  simp [accepted, read_data_point, readLoop]

theorem readLoop_bytes_zero (cs : List Char) (tail : List Read) (line : List Char)
    (index : Nat) (hnl : ∀ c ∈ cs, c ≠ '\n') (hfit : index + cs.length ≤ 255) :
    readLoop (bytes cs ++ Read.zero :: tail) line index = LoopExit.ret 0 tail := by
  induction cs generalizing line index with
  | nil => simp [bytes, readLoop]
  | cons c cs ih =>
    rw [bytes_cons, List.cons_append, readLoop_byte]
    have h1 : c ≠ '\n' := hnl c (List.mem_cons_self _ _)
    simp only [List.length_cons] at hfit
    rw [if_neg (by simp only [h1, false_or]; omega)]
    exact ih _ _ (fun d hd => hnl d (List.mem_cons_of_mem _ hd)) (by omega)

theorem accepted_deliver (atol : List Char → Int) (atof : List Char → ℚ) (num_fields : Int)
    (line0 : List Char) (dp : DataPoint) (ds : List (List Char))
    (hds : ∀ d ∈ ds, d.getLast? = some '\n') (f1 f2 : Nat)
    (h1 : (deliver ds).length ≤ f1) (h2 : (bytes ds.flatten).length ≤ f2) :
    accepted atol atof num_fields line0 dp f1 (deliver ds) =
      accepted atol atof num_fields line0 dp f2 (bytes ds.flatten) := by
  induction ds generalizing f1 f2 with
  | nil => simp [deliver, bytes, accepted_nil]
  | cons d ds ih =>
    cases ds with
    | nil =>
      have e : bytes [d].flatten = deliver [d] := by simp [deliver]
      rw [e] at h2 ⊢
      exact accepted_fuel atol atof num_fields line0 dp f1 f2 _ h1 h2
    | cons d2 ds =>
      obtain ⟨d0, rfl⟩ := List.getLast?_eq_some_iff.1 (hds d (List.mem_cons_self _ _))
      obtain ⟨recs, hrecs⟩ := accepted_delivery atol atof num_fields line0 dp d0.length d0
        (le_refl _)
      have e1 : deliver ((d0 ++ ['\n']) :: d2 :: ds) =
          bytes (d0 ++ ['\n']) ++ Read.zero :: deliver (d2 :: ds) := rfl
      have e2 : bytes ((d0 ++ ['\n']) :: d2 :: ds).flatten =
          bytes (d0 ++ ['\n']) ++ bytes (d2 :: ds).flatten := by
        rw [List.flatten_cons, bytes_append]
      rw [e1] at h1 ⊢
      rw [e2] at h2 ⊢
      have hb : (bytes (d0 ++ ['\n'])).length = d0.length + 1 := by simp [bytes]
      rw [List.length_append, hb] at h1 h2
      rw [hrecs _ f1 (by omega), hrecs _ f2 (by omega)]
      rw [List.length_cons, accepted_zero]
      rw [ih (fun x hx => hds x (List.mem_cons_of_mem _ hx)) _ _ (le_refl _) (le_refl _)]

/-- C8, as stated, fails: the stream `1,2\r\n3,4\n` delivered in one piece
yields the two records of `1,2` and `3,4`; delivered as `1,2\r` then
`\n3,4\n`, with a `read` returning 0 in between, it yields only the record of
`3,4`: the bytes read before the zero-byte read are lost. -/
theorem accepted_split_inside_line :
    (accepted Libc.decimal_atol Libc.decimal_atof 1 (List.replicate 256 'z')
        ⟨-7, List.replicate 8 (-1)⟩ (bytes "1,2\r\n3,4\n".toList).length
        (bytes "1,2\r\n3,4\n".toList)).map (DataPoint.fields 1) = [(1, [2]), (3, [4])] ∧
    (accepted Libc.decimal_atol Libc.decimal_atof 1 (List.replicate 256 'z')
        ⟨-7, List.replicate 8 (-1)⟩ (deliver ["1,2\r".toList, "\n3,4\n".toList]).length
        (deliver ["1,2\r".toList, "\n3,4\n".toList])).map (DataPoint.fields 1) =
      [(3, [4])] := by
  decide!

/-- C8 amended: line assembly is independent of the delivery only for
deliveries that end at a line end.  For every byte stream split into
deliveries that each end with a newline, a `read` returning 0 between
deliveries, the successive `read_data_point` calls accept the same sequence
of records as when the stream is delivered in one piece.  A zero-byte read
inside a line makes `read_data_point` return 0 and the bytes of that line
read so far are dropped. -/
theorem accepted_deliveries_at_line_ends (atol : List Char → Int) (atof : List Char → ℚ)
    (num_fields : Int) (line0 : List Char) (dp : DataPoint) (ds : List (List Char))
    (hds : ∀ d ∈ ds, d.getLast? = some '\n') :
    accepted atol atof num_fields line0 dp (deliver ds).length (deliver ds) =
      accepted atol atof num_fields line0 dp (bytes ds.flatten).length (bytes ds.flatten) ∧
    ∀ (L : List Char) (rest : List Read), (∀ c ∈ L, c ≠ '\n') → L.length ≤ 255 →
      read_data_point atol atof num_fields line0 dp (bytes L ++ Read.zero :: rest) =
        (0, dp, rest) := by
  refine ⟨accepted_deliver atol atof num_fields line0 dp ds hds _ _ (le_refl _) (le_refl _), ?_⟩
  intro L rest hnl hlen
  unfold read_data_point
  rw [readLoop_bytes_zero L rest line0 0 hnl (by omega)]

/-- Instance of `accepted_deliveries_at_line_ends`: `1,2\r\n3,4\n` delivered
as `1,2\r\n` then `3,4\n`. -/
theorem accepted_deliveries_at_line_ends_witness :
    accepted Libc.decimal_atol Libc.decimal_atof 1 (List.replicate 256 'z')
        ⟨-7, List.replicate 8 (-1)⟩ (deliver ["1,2\r\n".toList, "3,4\n".toList]).length
        (deliver ["1,2\r\n".toList, "3,4\n".toList]) =
      accepted Libc.decimal_atol Libc.decimal_atof 1 (List.replicate 256 'z')
        ⟨-7, List.replicate 8 (-1)⟩ (bytes ["1,2\r\n".toList, "3,4\n".toList].flatten).length
        (bytes ["1,2\r\n".toList, "3,4\n".toList].flatten) :=
  (accepted_deliveries_at_line_ends Libc.decimal_atol Libc.decimal_atof 1
    (List.replicate 256 'z') ⟨-7, List.replicate 8 (-1)⟩ ["1,2\r\n".toList, "3,4\n".toList]
    (by decide)).1

/-- C9: for every line `L` of fewer than 255 bytes that contains no carriage
return or newline, `read_data_point` fed `L` followed by `\r\n` gives the same
return value and the same stored data point (and leaves the same input
unread) as when fed `L` followed by `\n`. -/
theorem read_data_point_crlf (atol : List Char → Int) (atof : List Char → ℚ)
    (num_fields : Int) (line0 : List Char) (dp : DataPoint) (L : List Char)
    (rest : List Read) (hline0 : line0.length = 256)
    (hchars : ∀ c ∈ L, c ≠ '\n' ∧ c ≠ '\r') (hlen : L.length < 255) :
    read_data_point atol atof num_fields line0 dp (bytes (L ++ ['\r', '\n']) ++ rest) =
      read_data_point atol atof num_fields line0 dp (bytes (L ++ ['\n']) ++ rest) := by
  have e : L ++ ['\r', '\n'] = (L ++ ['\r']) ++ ['\n'] := by simp
  rw [e, read_data_point_line atol atof num_fields line0 dp (L ++ ['\r']) rest hline0
      (by
        intro c hc
        rcases List.mem_append.1 hc with hc | hc
        · exact (hchars c hc).1
        · rw [List.mem_singleton] at hc
          subst hc
          decide)
      (by simp; omega),
    read_data_point_line atol atof num_fields line0 dp L rest hline0
      (fun c hc => (hchars c hc).1) (by omega),
    stripCR_append_cr, stripCR_of_no_cr L (fun c hc => (hchars c hc).2)]

/-- Instance of `read_data_point_crlf` on the line `1,2`. -/
theorem read_data_point_crlf_witness :
    read_data_point Libc.decimal_atol Libc.decimal_atof 1 (List.replicate 256 'z')
        ⟨-7, List.replicate 8 (-1)⟩ (bytes ("1,2".toList ++ ['\r', '\n']) ++ []) =
      read_data_point Libc.decimal_atol Libc.decimal_atof 1 (List.replicate 256 'z')
        ⟨-7, List.replicate 8 (-1)⟩ (bytes ("1,2".toList ++ ['\n']) ++ []) :=
  read_data_point_crlf Libc.decimal_atol Libc.decimal_atof 1 (List.replicate 256 'z')
    ⟨-7, List.replicate 8 (-1)⟩ "1,2".toList [] (List.length_replicate 256 'z')
    (by decide) (by decide)

/-- C10, as stated, fails: a line of 256 bytes before its newline (`1,`
followed by 254 zeros) is not dropped; the call that reads it returns 1, with
the sample parsed from its first 255 bytes. -/
theorem read_data_point_long_line_accepted :
    255 < ("1,".toList ++ List.replicate 254 '0').length ∧
    read_data_point Libc.decimal_atol Libc.decimal_atof 1 (List.replicate 256 'z')
        ⟨-7, List.replicate 8 (-1)⟩
        (bytes ("1,".toList ++ List.replicate 254 '0' ++ ['\n'])) =
      (1, ⟨1, [0, -1, -1, -1, -1, -1, -1, -1]⟩, bytes ['\n']) := by
  decide!

/-- C10 amended: a line that exceeds the line buffer is cut, not dropped.
For every input with more than 255 bytes before its newline, the call that
reads its start takes 256 bytes, discards the last of them and parses the
first 255 exactly as if they were a complete line (so it can return 1); the
next call starts at byte 257. -/
theorem read_data_point_long_line (atol : List Char → Int) (atof : List Char → ℚ)
    (num_fields : Int) (line0 : List Char) (dp : DataPoint) (L : List Char)
    (rest : List Read) (hline0 : line0.length = 256) (hlong : 255 < L.length)
    (hnl : ∀ c ∈ L.take 255, c ≠ '\n') :
    read_data_point atol atof num_fields line0 dp (bytes L ++ rest) =
      read_data_point atol atof num_fields line0 dp
        (bytes (L.take 255 ++ ['\n']) ++ (bytes (L.drop 256) ++ rest)) := by
  have hsplit : L = L.take 255 ++ (L[255] :: L.drop 256) := by
    conv_lhs => rw [← List.take_append_drop 255 L]
    rw [List.drop_eq_getElem_cons hlong]
  have htake : (L.take 255).length = 255 := by
    rw [List.length_take]
    omega
  have h := fun tail => readLoop_bytes (L.take 255) tail [] line0 hnl
    (by simp only [List.length_nil, htake]; omega) (by omega)
  simp only [List.nil_append, List.length_nil, Nat.zero_add, htake] at h
  have hl : readLoop (bytes L ++ rest) line0 0 =
      LoopExit.brk (L.take 255 ++ line0.drop 255) 255 (bytes (L.drop 256) ++ rest) := by
    conv_lhs => rw [hsplit]
    rw [bytes_append, List.append_assoc, bytes_cons, List.cons_append, h, readLoop_full]
  have hr : readLoop (bytes (L.take 255 ++ ['\n']) ++ (bytes (L.drop 256) ++ rest)) line0 0 =
      LoopExit.brk (L.take 255 ++ line0.drop 255) 255 (bytes (L.drop 256) ++ rest) := by
    rw [bytes_append, List.append_assoc,
      show bytes ['\n'] ++ (bytes (L.drop 256) ++ rest) =
        Read.byte '\n' :: (bytes (L.drop 256) ++ rest) from rfl, h, readLoop_newline]
  unfold read_data_point
  rw [hl, hr]

/-- Instance of `read_data_point_long_line`: `1,` followed by 254 zeros. -/
theorem read_data_point_long_line_witness :
    read_data_point Libc.decimal_atol Libc.decimal_atof 1 (List.replicate 256 'z')
        ⟨-7, List.replicate 8 (-1)⟩
        (bytes ("1,".toList ++ List.replicate 254 '0') ++ [Read.byte '\n']) =
      read_data_point Libc.decimal_atol Libc.decimal_atof 1 (List.replicate 256 'z')
        ⟨-7, List.replicate 8 (-1)⟩
        (bytes (("1,".toList ++ List.replicate 254 '0').take 255 ++ ['\n']) ++
          (bytes (("1,".toList ++ List.replicate 254 '0').drop 256) ++ [Read.byte '\n'])) :=
  read_data_point_long_line Libc.decimal_atol Libc.decimal_atof 1 (List.replicate 256 'z')
    ⟨-7, List.replicate 8 (-1)⟩ ("1,".toList ++ List.replicate 254 '0') [Read.byte '\n']
    (List.length_replicate 256 'z')
    (by rw [List.length_append, List.length_replicate]; decide) (by decide!)

end SerialPlotterResize

/-! ## serial_plotter_resize.c: graph parameters, drawing and main loop -/

namespace SerialPlotterResize

theorem scanValue_graph_eq (g : Graph) (v : ℚ) :
    scanValue g v = { g with min_value := min g.min_value v, max_value := max g.max_value v } := by
  unfold scanValue
  rcases lt_or_le v g.min_value with h1 | h1 <;>
    rcases lt_or_le g.max_value v with h2 | h2 <;>
    simp [h1, h2, not_lt.2, min_eq_left, min_eq_right, max_eq_left, max_eq_right, le_of_lt]

theorem foldl_scanValue_graph (vs : List ℚ) (g : Graph) :
    ∃ lo hi, vs.foldl scanValue g = { g with min_value := lo, max_value := hi } ∧
      ∀ ys, PthreadSerial.IsMinMax ys g.min_value g.max_value →
        PthreadSerial.IsMinMax (ys ++ vs) lo hi := by
  induction vs generalizing g with
  | nil => exact ⟨g.min_value, g.max_value, rfl, fun ys h => by simpa using h⟩
  | cons v vs ih =>
    obtain ⟨lo, hi, e, h⟩ := ih (scanValue g v)
    refine ⟨lo, hi, ?_, ?_⟩
    · rw [List.foldl_cons, e, scanValue_graph_eq]
    · intro ys hys
      have := h (ys ++ [v]) (by
        rw [scanValue_graph_eq]
        exact PthreadSerial.isMinMax_snoc ys _ _ v hys)
      simpa using this

theorem scanPoints_eq (ps : List DataPoint) (g : Graph) :
    ps.foldl
        (fun g p => (List.range g.num_fields.toNat).foldl
          (fun g (j : Nat) => scanValue g (valueAt p j)) g) g =
      (ps.flatMap (fun p => (List.range g.num_fields.toNat).map (valueAt p))).foldl
        scanValue g := by
  induction ps generalizing g with
  | nil => rfl
  | cons p ps ih =>
    rw [List.foldl_cons, List.flatMap_cons, List.foldl_append, ← List.foldl_map]
    obtain ⟨lo, hi, e, -⟩ :=
      foldl_scanValue_graph ((List.range g.num_fields.toNat).map (valueAt p)) g
    rw [ih, e]

theorem range_map_bufferAt (buffer : List DataPoint) (n : Nat) (h : n ≤ buffer.length) :
    (List.range n).map (fun (i : Nat) => bufferAt buffer (Int.ofNat i)) = buffer.take n := by
  apply List.ext_getElem
  · simp [h]
  · intro i h1 h2
    simp only [List.length_map, List.length_range] at h1
    have hi : i < buffer.length := by omega
    simp [bufferAt, List.getD_eq_getElem?_getD, List.getElem?_eq_getElem hi]

theorem scanBuffer_eq (buffer : List DataPoint) (buffer_size : Int) (g : Graph)
    (h : buffer_size.toNat ≤ buffer.length) :
    scanBuffer buffer buffer_size g =
      ((buffer.take buffer_size.toNat).flatMap
        (fun p => (List.range g.num_fields.toNat).map (valueAt p))).foldl scanValue g := by
  unfold scanBuffer
  rw [← scanPoints_eq, ← range_map_bufferAt buffer _ h, List.foldl_map]

theorem scanBuffer_frame (buffer : List DataPoint) (buffer_size : Int) (g : Graph) :
    ∃ lo hi, scanBuffer buffer buffer_size g = { g with min_value := lo, max_value := hi } := by
  unfold scanBuffer
  rw [← List.foldl_map
    (fun (i : Nat) => bufferAt buffer (Int.ofNat i))
    (fun g p => (List.range g.num_fields.toNat).foldl
      (fun g (j : Nat) => scanValue g (valueAt p j)) g), scanPoints_eq]
  obtain ⟨lo, hi, e, -⟩ := foldl_scanValue_graph
    (((List.range buffer_size.toNat).map (fun (i : Nat) => bufferAt buffer (Int.ofNat i))).flatMap
      (fun p => (List.range g.num_fields.toNat).map (valueAt p))) g
  exact ⟨lo, hi, e⟩


theorem update_graph_empty (s : State) (h : ¬ 0 < s.buffer_size) :
    update_graph s =
      { s with graph :=
          { width := WINDOW_WIDTH, height := WINDOW_HEIGHT, num_fields := s.graph.num_fields,
            min_timestamp := 0, max_timestamp := 1000, min_value := 0, max_value := 1,
            colors := defaultColors } } := by
  unfold update_graph
  rw [if_neg h]

theorem update_graph_nonempty (s : State) (h : 0 < s.buffer_size) :
    ∃ lo hi,
      scanBuffer s.buffer s.buffer_size
          { width := WINDOW_WIDTH, height := WINDOW_HEIGHT, num_fields := s.graph.num_fields,
            min_timestamp := (bufferAt s.buffer 0).timestamp,
            max_timestamp := (bufferAt s.buffer (s.buffer_size - 1)).timestamp,
            min_value := valueAt (bufferAt s.buffer 0) 0,
            max_value := valueAt (bufferAt s.buffer 0) 0, colors := defaultColors } =
        { width := WINDOW_WIDTH, height := WINDOW_HEIGHT, num_fields := s.graph.num_fields,
          min_timestamp := (bufferAt s.buffer 0).timestamp,
          max_timestamp := (bufferAt s.buffer (s.buffer_size - 1)).timestamp,
          min_value := lo, max_value := hi, colors := defaultColors } ∧
      update_graph s =
        { s with graph :=
            { width := WINDOW_WIDTH, height := WINDOW_HEIGHT,
              num_fields := s.graph.num_fields,
              min_timestamp :=
                if (bufferAt s.buffer 0).timestamp =
                    (bufferAt s.buffer (s.buffer_size - 1)).timestamp then 0
                else (bufferAt s.buffer 0).timestamp,
              max_timestamp :=
                if (bufferAt s.buffer 0).timestamp =
                    (bufferAt s.buffer (s.buffer_size - 1)).timestamp then 1000
                else (bufferAt s.buffer (s.buffer_size - 1)).timestamp,
              min_value :=
                if lo - (hi - lo) * (1 / 10) = hi + (hi - lo) * (1 / 10) then 0
                else lo - (hi - lo) * (1 / 10),
              max_value :=
                if lo - (hi - lo) * (1 / 10) = hi + (hi - lo) * (1 / 10) then 1
                else hi + (hi - lo) * (1 / 10),
              colors := defaultColors } } := by
  obtain ⟨lo, hi, e⟩ := scanBuffer_frame s.buffer s.buffer_size
    { width := WINDOW_WIDTH, height := WINDOW_HEIGHT, num_fields := s.graph.num_fields,
      min_timestamp := (bufferAt s.buffer 0).timestamp,
      max_timestamp := (bufferAt s.buffer (s.buffer_size - 1)).timestamp,
      min_value := valueAt (bufferAt s.buffer 0) 0,
      max_value := valueAt (bufferAt s.buffer 0) 0, colors := defaultColors }
  refine ⟨lo, hi, e, ?_⟩
  unfold update_graph
  rw [if_pos h]
  simp only [e]
  by_cases h1 : lo - (hi - lo) * (1 / 10) = hi + (hi - lo) * (1 / 10) <;>
    by_cases h2 : (bufferAt s.buffer 0).timestamp =
      (bufferAt s.buffer (s.buffer_size - 1)).timestamp <;>
    simp only [h1, h2, if_true, if_false, ↓reduceIte]


theorem foldl_scanValue_const (vs : List ℚ) (g : Graph) (hg : g.min_value = g.max_value)
    (h : ∀ v ∈ vs, v = g.min_value) : vs.foldl scanValue g = g := by
  induction vs with
  | nil => rfl
  | cons v vs ih =>
    have hv : v = g.min_value := h v (List.mem_cons_self _ _)
    have e : scanValue g v = g := by
      rw [scanValue_graph_eq, hv, min_self, ← hg, max_self]
      obtain ⟨_, _, _, _, _, lo, hi, _⟩ := g
      simp only [Graph.mk.injEq, true_and, and_true]
      exact hg
    rw [List.foldl_cons, e]
    exact ih (fun w hw => h w (List.mem_cons_of_mem _ hw))

theorem isMinMax_unique (l : List ℚ) (a b c d : ℚ) (h1 : PthreadSerial.IsMinMax l a b)
    (h2 : PthreadSerial.IsMinMax l c d) : a = c ∧ b = d := by
  obtain ⟨ha, hb, hab⟩ := h1
  obtain ⟨hc, hd, hcd⟩ := h2
  exact ⟨le_antisymm (hab c hc).1 (hcd a ha).1, le_antisymm (hcd b hb).2 (hab d hd).2⟩

/-- C13: for every buffer state, after `update_graph` the two divisors of the
pixel mapping are non-zero: `max_timestamp - min_timestamp != 0` and
`max_value - min_value != 0`, in exact arithmetic. -/
theorem update_graph_divisors_nonzero (s : State) :
    (update_graph s).graph.max_timestamp - (update_graph s).graph.min_timestamp ≠ 0 ∧
    (update_graph s).graph.max_value - (update_graph s).graph.min_value ≠ 0 := by
  by_cases h : 0 < s.buffer_size
  · obtain ⟨lo, hi, -, hu⟩ := update_graph_nonempty s h
    rw [hu]
    constructor
    · dsimp only
      split_ifs with hne
      · decide
      · exact sub_ne_zero.2 (Ne.symm hne)
    · dsimp only
      split_ifs with hne
      · norm_num
      · exact sub_ne_zero.2 (Ne.symm hne)
  · rw [update_graph_empty s h]
    constructor
    · show (1000 : Int) - 0 ≠ 0
      decide
    · show (1 : ℚ) - 0 ≠ 0
      norm_num


theorem bufferedTimestamps_length (s : State) (hlen : s.buffer_size.toNat ≤ s.buffer.length) :
    (bufferedTimestamps s).length = s.buffer_size.toNat := by
  simp [bufferedTimestamps, hlen]

theorem bufferedTimestamps_getElem (s : State) (i : Nat)
    (h : i < (bufferedTimestamps s).length) (hi : i < s.buffer.length) :
    (bufferedTimestamps s)[i] = (bufferAt s.buffer (Int.ofNat i)).timestamp := by
  simp [bufferedTimestamps, bufferAt, List.getD_eq_getElem?_getD, List.getElem?_eq_getElem hi]

/-- C14, as stated, fails: with buffered timestamps 2, 1, 3 the degenerate
substitution does not apply and `update_graph` sets `min_timestamp = 2`, the
first one, although a buffered sample has timestamp 1. -/
theorem update_graph_first_is_not_min :
    bufferedTimestamps
      ⟨[⟨2, [1, 0, 0, 0, 0, 0, 0, 0]⟩, ⟨1, [2, 0, 0, 0, 0, 0, 0, 0]⟩,
        ⟨3, [3, 0, 0, 0, 0, 0, 0, 0]⟩], 3, ⟨800, 600, 1, 0, 1000, 0, 1, defaultColors⟩,
        false⟩ = [2, 1, 3] ∧
    (update_graph
      ⟨[⟨2, [1, 0, 0, 0, 0, 0, 0, 0]⟩, ⟨1, [2, 0, 0, 0, 0, 0, 0, 0]⟩,
        ⟨3, [3, 0, 0, 0, 0, 0, 0, 0]⟩], 3, ⟨800, 600, 1, 0, 1000, 0, 1, defaultColors⟩,
        false⟩).graph.min_timestamp = 2 ∧
    (update_graph
      ⟨[⟨2, [1, 0, 0, 0, 0, 0, 0, 0]⟩, ⟨1, [2, 0, 0, 0, 0, 0, 0, 0]⟩,
        ⟨3, [3, 0, 0, 0, 0, 0, 0, 0]⟩], 3, ⟨800, 600, 1, 0, 1000, 0, 1, defaultColors⟩,
        false⟩).graph.max_timestamp = 3 ∧
    ¬ ∀ t ∈ bufferedTimestamps
        ⟨[⟨2, [1, 0, 0, 0, 0, 0, 0, 0]⟩, ⟨1, [2, 0, 0, 0, 0, 0, 0, 0]⟩,
          ⟨3, [3, 0, 0, 0, 0, 0, 0, 0]⟩], 3, ⟨800, 600, 1, 0, 1000, 0, 1, defaultColors⟩,
          false⟩,
      (update_graph
        ⟨[⟨2, [1, 0, 0, 0, 0, 0, 0, 0]⟩, ⟨1, [2, 0, 0, 0, 0, 0, 0, 0]⟩,
          ⟨3, [3, 0, 0, 0, 0, 0, 0, 0]⟩], 3, ⟨800, 600, 1, 0, 1000, 0, 1, defaultColors⟩,
          false⟩).graph.min_timestamp ≤ t := by
  decide!

/-- C14 amended: `update_graph` takes the timestamp range from the first and
the last buffered sample.  For every non-empty buffer to which the degenerate
substitution does not apply, `min_timestamp` is the timestamp of `buffer[0]`
and `max_timestamp` that of `buffer[buffer_size - 1]`, both attained by a
buffered sample; when the buffered timestamps are non-decreasing, they are
the minimum and the maximum: `min_timestamp <= t <= max_timestamp` for the
timestamp `t` of every buffered sample. -/
theorem update_graph_timestamp_range (s : State) (hsize : 0 < s.buffer_size)
    (hlen : s.buffer_size.toNat ≤ s.buffer.length)
    (hnd : (bufferAt s.buffer 0).timestamp ≠ (bufferAt s.buffer (s.buffer_size - 1)).timestamp) :
    (update_graph s).graph.min_timestamp = (bufferAt s.buffer 0).timestamp ∧
    (update_graph s).graph.max_timestamp = (bufferAt s.buffer (s.buffer_size - 1)).timestamp ∧
    (update_graph s).graph.min_timestamp ∈ bufferedTimestamps s ∧
    (update_graph s).graph.max_timestamp ∈ bufferedTimestamps s ∧
    ((bufferedTimestamps s).Pairwise (fun a b => a ≤ b) →
      ∀ t ∈ bufferedTimestamps s,
        (update_graph s).graph.min_timestamp ≤ t ∧
          t ≤ (update_graph s).graph.max_timestamp) := by
  obtain ⟨lo, hi, -, hu⟩ := update_graph_nonempty s hsize
  have hmin : (update_graph s).graph.min_timestamp = (bufferAt s.buffer 0).timestamp := by
    rw [hu]
    simp only [if_neg hnd]
  have hmax : (update_graph s).graph.max_timestamp =
      (bufferAt s.buffer (s.buffer_size - 1)).timestamp := by
    rw [hu]
    simp only [if_neg hnd]
  have hl := bufferedTimestamps_length s hlen
  have h0 : 0 < (bufferedTimestamps s).length := by omega
  have hN : s.buffer_size.toNat - 1 < (bufferedTimestamps s).length := by omega
  have e0 : (bufferedTimestamps s)[0] = (bufferAt s.buffer 0).timestamp :=
    bufferedTimestamps_getElem s 0 h0 (by omega)
  have eN : (bufferedTimestamps s)[s.buffer_size.toNat - 1] =
      (bufferAt s.buffer (s.buffer_size - 1)).timestamp := by
    rw [bufferedTimestamps_getElem s _ hN (by omega)]
    congr 2
    simp only [Int.ofNat_eq_coe]
    omega
  refine ⟨hmin, hmax, ?_, ?_, ?_⟩
  · rw [hmin, ← e0]
    exact List.getElem_mem _
  · rw [hmax, ← eN]
    exact List.getElem_mem _
  · intro hsorted t ht
    obtain ⟨k, hk, rfl⟩ := List.getElem_of_mem ht
    rw [hmin, hmax, ← e0, ← eN]
    rw [List.pairwise_iff_getElem] at hsorted
    constructor
    · rcases Nat.eq_zero_or_pos k with rfl | hpos
      · exact le_refl _
      · exact hsorted 0 k h0 hk hpos
    · rcases Nat.lt_or_ge k (s.buffer_size.toNat - 1) with hlt | hge
      · exact hsorted k _ hk hN hlt
      · have : k = s.buffer_size.toNat - 1 := by omega
        subst this
        exact le_refl _

/-- Instance of `update_graph_timestamp_range`: buffered timestamps 1, 2, 3. -/
theorem update_graph_timestamp_range_witness :
    (update_graph
      ⟨[⟨1, [1, 0, 0, 0, 0, 0, 0, 0]⟩, ⟨2, [2, 0, 0, 0, 0, 0, 0, 0]⟩,
        ⟨3, [3, 0, 0, 0, 0, 0, 0, 0]⟩], 3, ⟨800, 600, 1, 0, 1000, 0, 1, defaultColors⟩,
        false⟩).graph.min_timestamp = 1 ∧
    (update_graph
      ⟨[⟨1, [1, 0, 0, 0, 0, 0, 0, 0]⟩, ⟨2, [2, 0, 0, 0, 0, 0, 0, 0]⟩,
        ⟨3, [3, 0, 0, 0, 0, 0, 0, 0]⟩], 3, ⟨800, 600, 1, 0, 1000, 0, 1, defaultColors⟩,
        false⟩).graph.max_timestamp = 3 :=
  have h := update_graph_timestamp_range
    ⟨[⟨1, [1, 0, 0, 0, 0, 0, 0, 0]⟩, ⟨2, [2, 0, 0, 0, 0, 0, 0, 0]⟩,
      ⟨3, [3, 0, 0, 0, 0, 0, 0, 0]⟩], 3,
      ⟨800, 600, 1, 0, 1000, 0, 1, defaultColors⟩, false⟩
    (by decide) (by decide) (by decide)
  ⟨h.1, h.2.1⟩


theorem scanBuffer_isMinMax (s : State) (hsize : 0 < s.buffer_size)
    (hlen : s.buffer_size.toNat ≤ s.buffer.length) (hnf : 1 ≤ s.graph.num_fields)
    (lo hi : ℚ)
    (e : scanBuffer s.buffer s.buffer_size
          { width := WINDOW_WIDTH, height := WINDOW_HEIGHT, num_fields := s.graph.num_fields,
            min_timestamp := (bufferAt s.buffer 0).timestamp,
            max_timestamp := (bufferAt s.buffer (s.buffer_size - 1)).timestamp,
            min_value := valueAt (bufferAt s.buffer 0) 0,
            max_value := valueAt (bufferAt s.buffer 0) 0, colors := defaultColors } =
        { width := WINDOW_WIDTH, height := WINDOW_HEIGHT, num_fields := s.graph.num_fields,
          min_timestamp := (bufferAt s.buffer 0).timestamp,
          max_timestamp := (bufferAt s.buffer (s.buffer_size - 1)).timestamp,
          min_value := lo, max_value := hi, colors := defaultColors }) :
    PthreadSerial.IsMinMax (bufferedValues s) lo hi := by
  rw [scanBuffer_eq _ _ _ hlen] at e
  obtain ⟨lo', hi', e', h⟩ := foldl_scanValue_graph
    ((s.buffer.take s.buffer_size.toNat).flatMap
      (fun p => (List.range s.graph.num_fields.toNat).map (valueAt p)))
    { width := WINDOW_WIDTH, height := WINDOW_HEIGHT, num_fields := s.graph.num_fields,
      min_timestamp := (bufferAt s.buffer 0).timestamp,
      max_timestamp := (bufferAt s.buffer (s.buffer_size - 1)).timestamp,
      min_value := valueAt (bufferAt s.buffer 0) 0,
      max_value := valueAt (bufferAt s.buffer 0) 0, colors := defaultColors }
  rw [e'] at e
  have hlo : lo' = lo := congrArg Graph.min_value e
  have hhi : hi' = hi := congrArg Graph.max_value e
  subst hlo hhi
  have hmm := h [valueAt (bufferAt s.buffer 0) 0] (PthreadSerial.isMinMax_singleton _)
  refine PthreadSerial.isMinMax_congr _ _ _ _ ?_ hmm
  have hmem : valueAt (bufferAt s.buffer 0) 0 ∈ bufferedValues s := by
    obtain ⟨k, hk⟩ : ∃ k, s.buffer_size.toNat = k + 1 :=
      ⟨s.buffer_size.toNat - 1, by omega⟩
    obtain ⟨p, rest, hb⟩ : ∃ p rest, s.buffer = p :: rest :=
      List.exists_cons_of_ne_nil (by
        intro hnil
        rw [hnil] at hlen
        simp at hlen
        omega)
    unfold bufferedValues
    rw [hk, hb, List.take_succ_cons, List.flatMap_cons, List.mem_append]
    left
    rw [List.mem_map]
    exact ⟨0, List.mem_range.2 (by omega), by simp [bufferAt]⟩
  intro x
  simp only [List.singleton_append, List.mem_cons]
  constructor
  · rintro (rfl | hx)
    · exact hmem
    · exact hx
  · intro hx
    exact Or.inr hx

/-- C15: for every non-empty buffer in which the first `num_fields` values of
the buffered samples are not all equal, `update_graph` sets `min_value = m -
0.1 * (M - m)` and `max_value = M + 0.1 * (M - m)`, where `m` and `M` are the
smallest and the largest of `values[j]`, `j < num_fields`, over all buffered
samples, in exact arithmetic. -/
theorem update_graph_value_margin (s : State) (m M : ℚ) (hsize : 0 < s.buffer_size)
    (hlen : s.buffer_size.toNat ≤ s.buffer.length) (hnf : 1 ≤ s.graph.num_fields)
    (hne : ∃ a ∈ bufferedValues s, ∃ b ∈ bufferedValues s, a ≠ b)
    (hmM : PthreadSerial.IsMinMax (bufferedValues s) m M) :
    (update_graph s).graph.min_value = m - (1 / 10) * (M - m) ∧
    (update_graph s).graph.max_value = M + (1 / 10) * (M - m) := by
  obtain ⟨lo, hi, e, hu⟩ := update_graph_nonempty s hsize
  have hmm := scanBuffer_isMinMax s hsize hlen hnf lo hi e
  obtain ⟨rfl, rfl⟩ := isMinMax_unique _ _ _ _ _ hmM hmm
  obtain ⟨a, ha, b, hb, hab⟩ := hne
  have hlt : m < M := by
    rcases lt_or_gt_of_ne hab with h | h
    · exact lt_of_le_of_lt (hmM.2.2 a ha).1 (lt_of_lt_of_le h (hmM.2.2 b hb).2)
    · exact lt_of_le_of_lt (hmM.2.2 b hb).1 (lt_of_lt_of_le h (hmM.2.2 a ha).2)
  have hcond : ¬ m - (M - m) * (1 / 10) = M + (M - m) * (1 / 10) := by
    intro h
    linarith
  rw [hu]
  simp only [if_neg hcond]
  constructor <;> ring

/-- Instance of `update_graph_value_margin`: three samples with the values
1, 2 and 3, `num_fields = 1`; the range becomes 0.8 to 3.2. -/
theorem update_graph_value_margin_witness :
    (update_graph
      ⟨[⟨1, [1, 0, 0, 0, 0, 0, 0, 0]⟩, ⟨2, [2, 0, 0, 0, 0, 0, 0, 0]⟩,
        ⟨3, [3, 0, 0, 0, 0, 0, 0, 0]⟩], 3, ⟨800, 600, 1, 0, 1000, 0, 1, defaultColors⟩,
        false⟩).graph.min_value = 1 - (1 / 10) * (3 - 1) ∧
    (update_graph
      ⟨[⟨1, [1, 0, 0, 0, 0, 0, 0, 0]⟩, ⟨2, [2, 0, 0, 0, 0, 0, 0, 0]⟩,
        ⟨3, [3, 0, 0, 0, 0, 0, 0, 0]⟩], 3, ⟨800, 600, 1, 0, 1000, 0, 1, defaultColors⟩,
        false⟩).graph.max_value = 3 + (1 / 10) * (3 - 1) :=
  update_graph_value_margin
    ⟨[⟨1, [1, 0, 0, 0, 0, 0, 0, 0]⟩, ⟨2, [2, 0, 0, 0, 0, 0, 0, 0]⟩,
      ⟨3, [3, 0, 0, 0, 0, 0, 0, 0]⟩], 3,
      ⟨800, 600, 1, 0, 1000, 0, 1, defaultColors⟩, false⟩
    1 3 (by decide) (by decide) (by decide)
    ⟨1, by decide!, 3, by decide!, by decide!⟩
    ⟨by decide!, by decide!, by decide!⟩


/-- C16 fails on the code: with 999 buffered samples (timestamps 0 to 998),
appending the sample with timestamp 999 makes `buffer_size` reach
`MAX_DATA_POINTS` and the roll runs.  The source of the `memmove` is `buffer +
sizeof(data_point)`, that is `buffer[40]`, so the 40 oldest samples are
dropped instead of one: the buffer then starts with timestamp 40, the new
sample sits at index 959, and indices 960 to 998 hold what lay behind the
array (here data points with timestamp -1). -/
theorem main_push_roll_shifts_by_sizeof :
    (main_push
      ⟨(List.range 1000).map (fun (i : Nat) => ⟨Int.ofNat i, []⟩), 999,
        ⟨800, 600, 1, 0, 1000, 0, 1, defaultColors⟩, false⟩
      ⟨999, []⟩ (List.replicate 39 ⟨-1, []⟩)).buffer_size = 999 ∧
    (bufferedTimestamps (main_push
      ⟨(List.range 1000).map (fun (i : Nat) => ⟨Int.ofNat i, []⟩), 999,
        ⟨800, 600, 1, 0, 1000, 0, 1, defaultColors⟩, false⟩
      ⟨999, []⟩ (List.replicate 39 ⟨-1, []⟩))).take 3 = [40, 41, 42] ∧
    (bufferedTimestamps (main_push
      ⟨(List.range 1000).map (fun (i : Nat) => ⟨Int.ofNat i, []⟩), 999,
        ⟨800, 600, 1, 0, 1000, 0, 1, defaultColors⟩, false⟩
      ⟨999, []⟩ (List.replicate 39 ⟨-1, []⟩))).drop 958 =
      998 :: 999 :: List.replicate 39 (-1) ∧
    bufferedTimestamps (main_push
      ⟨(List.range 1000).map (fun (i : Nat) => ⟨Int.ofNat i, []⟩), 999,
        ⟨800, 600, 1, 0, 1000, 0, 1, defaultColors⟩, false⟩
      ⟨999, []⟩ (List.replicate 39 ⟨-1, []⟩)) ≠
      (List.range 1000).drop 1 := by
  decide!

/-- C19: handling a ConfigureNotify event changes only `graph.width` and
`graph.height`: the buffer contents, `buffer_size`, `num_fields`, the four
range scalars, the colours and `keypress` are unchanged, and `draw_graph`
itself modifies no global. -/
theorem handle_events_configure_frame (s : State) (width height : Int) :
    (handle_events (XEvent.configureNotify width height) s).1 =
      { s with graph := { s.graph with width := width, height := height } } ∧
    (handle_events (XEvent.configureNotify width height) s).1.buffer = s.buffer ∧
    (handle_events (XEvent.configureNotify width height) s).1.buffer_size = s.buffer_size ∧
    (handle_events (XEvent.configureNotify width height) s).1.graph.num_fields =
      s.graph.num_fields ∧
    (handle_events (XEvent.configureNotify width height) s).1.graph.min_timestamp =
      s.graph.min_timestamp ∧
    (handle_events (XEvent.configureNotify width height) s).1.graph.max_timestamp =
      s.graph.max_timestamp ∧
    (handle_events (XEvent.configureNotify width height) s).1.graph.min_value =
      s.graph.min_value ∧
    (handle_events (XEvent.configureNotify width height) s).1.graph.max_value =
      s.graph.max_value ∧
    (handle_events (XEvent.configureNotify width height) s).1.graph.width = width ∧
    (handle_events (XEvent.configureNotify width height) s).1.graph.height = height ∧
    (draw_graph s).1 = s :=
  ⟨rfl, rfl, rfl, rfl, rfl, rfl, rfl, rfl, rfl, rfl, rfl⟩

theorem update_graph_width_height (s : State) :
    (update_graph s).graph.width = WINDOW_WIDTH ∧
    (update_graph s).graph.height = WINDOW_HEIGHT := by
  by_cases h : 0 < s.buffer_size
  · obtain ⟨lo, hi, -, hu⟩ := update_graph_nonempty s h
    rw [hu]
    exact ⟨rfl, rfl⟩
  · rw [update_graph_empty s h]
    exact ⟨rfl, rfl⟩

/-- C20 fails on the code: `update_graph` stores `WINDOW_WIDTH` and
`WINDOW_HEIGHT` into `graph.width` and `graph.height` on every call.  After a
ConfigureNotify event has set them to 1024 by 768, the arrival of the next
sample runs `update_graph` and the `draw_graph` that follows clears and maps
with 800 by 600 again. -/
theorem main_sample_forgets_window_size :
    (∀ s : State, (update_graph s).graph.width = WINDOW_WIDTH ∧
      (update_graph s).graph.height = WINDOW_HEIGHT) ∧
    (handle_events (XEvent.configureNotify 1024 768)
      ⟨List.replicate 1000 ⟨0, List.replicate 8 0⟩, 0,
        ⟨800, 600, 1, 0, 1000, 0, 1, defaultColors⟩, false⟩).1.graph.width = 1024 ∧
    (main_sample
      (handle_events (XEvent.configureNotify 1024 768)
        ⟨List.replicate 1000 ⟨0, List.replicate 8 0⟩, 0,
          ⟨800, 600, 1, 0, 1000, 0, 1, defaultColors⟩, false⟩).1
      ⟨10, [3 / 2, 0, 0, 0, 0, 0, 0, 0]⟩ []).1.graph.width = 800 ∧
    (main_sample
      (handle_events (XEvent.configureNotify 1024 768)
        ⟨List.replicate 1000 ⟨0, List.replicate 8 0⟩, 0,
          ⟨800, 600, 1, 0, 1000, 0, 1, defaultColors⟩, false⟩).1
      ⟨10, [3 / 2, 0, 0, 0, 0, 0, 0, 0]⟩ []).1.graph.height = 600 ∧
    (main_sample
      (handle_events (XEvent.configureNotify 1024 768)
        ⟨List.replicate 1000 ⟨0, List.replicate 8 0⟩, 0,
          ⟨800, 600, 1, 0, 1000, 0, 1, defaultColors⟩, false⟩).1
      ⟨10, [3 / 2, 0, 0, 0, 0, 0, 0, 0]⟩ []).2.head? =
      some (Draw.fillRectangle 0 0 800 600) :=
  ⟨update_graph_width_height, by decide!⟩

end SerialPlotterResize

/-! ## serial_plotter_resize_event.c: reading, buffer roll -/

namespace SerialPlotterResizeEvent

theorem shift_length (buf : List DataPoint) (n : Nat) :
    ((List.range n).foldl (fun buf (i : Nat) => buf.set i (buf.getD (i + 1) ⟨0, []⟩))
      buf).length = buf.length := by
  induction n with
  | zero => rfl
  | succ n ih =>
    rw [List.range_succ, List.foldl_append]
    simp only [List.foldl_cons, List.foldl_nil, List.length_set]
    exact ih

theorem shift_getElem? (buf : List DataPoint) (n : Nat) (h : n + 1 ≤ buf.length) (k : Nat) :
    ((List.range n).foldl (fun buf (i : Nat) => buf.set i (buf.getD (i + 1) ⟨0, []⟩))
      buf)[k]? = if k < n then buf[k + 1]? else buf[k]? := by
  induction n generalizing k with
  | zero => simp
  | succ n ih =>
    rw [List.range_succ, List.foldl_append]
    simp only [List.foldl_cons, List.foldl_nil]
    rw [List.getElem?_set, shift_length, List.getD_eq_getElem?_getD, ih (by omega) (n + 1),
      ih (by omega) k]
    have hn : buf[n + 1]? = some buf[n + 1] := List.getElem?_eq_getElem (by omega)
    by_cases hk : n = k
    · subst hk
      rw [if_pos rfl, if_pos (by omega), if_neg (by omega), if_pos (by omega), hn]
      rfl
    · rw [if_neg hk]
      by_cases hlt : k < n
      · rw [if_pos hlt, if_pos (by omega)]
      · rw [if_neg hlt, if_neg (by omega)]

theorem take_shiftLoop (buf : List DataPoint) (n m : Nat) (h : n + 1 ≤ buf.length)
    (hm : m ≤ n) : (shiftLoop buf (Int.ofNat n)).take m = (buf.drop 1).take m := by
  apply List.ext_getElem?
  intro k
  unfold shiftLoop
  have hn : (Int.ofNat n).toNat = n := rfl
  rw [hn, List.getElem?_take, List.getElem?_take, shift_getElem? buf n h k,
    List.getElem?_drop]
  by_cases hk : k < m
  · rw [if_pos hk, if_pos hk, if_pos (by omega), Nat.add_comm]
  · rw [if_neg hk, if_neg hk]

theorem shiftLoop_length (buf : List DataPoint) (n : Int) :
    (shiftLoop buf n).length = buf.length :=
  shift_length buf n.toNat

theorem take_succ_set (buf : List DataPoint) (n : Nat) (p : DataPoint) (h : n < buf.length) :
    (buf.set n p).take (n + 1) = buf.take n ++ [p] := by
  apply List.ext_getElem?
  intro k
  rw [List.getElem?_take, List.getElem?_set]
  by_cases hk : k < n
  · rw [if_pos (by omega), if_neg (by omega),
      List.getElem?_append_left (by rw [List.length_take]; omega), List.getElem?_take,
      if_pos hk]
  · by_cases hkn : n = k
    · subst hkn
      rw [if_pos (by omega), if_pos rfl, if_pos h,
        List.getElem?_append_right (by rw [List.length_take]; omega)]
      simp [List.length_take, Nat.min_eq_left (le_of_lt h)]
    · rw [if_neg (by omega),
        List.getElem?_append_right (by rw [List.length_take]; omega)]
      simp only [List.length_take, Nat.min_eq_left (le_of_lt h)]
      have : k - n ≠ 0 := by omega
      cases hd : k - n with
      | zero => exact absurd hd this
      | succ d => rfl

theorem foldl_main_push_spec (buffer0 : List DataPoint) (ps : List DataPoint)
    (h0 : buffer0.length = MAX_DATA_POINTS) :
    (ps.foldl main_push ⟨buffer0, 0⟩).buffer.length = MAX_DATA_POINTS ∧
    (ps.foldl main_push ⟨buffer0, 0⟩).buffer_size =
      min (ps.length : Int) ((MAX_DATA_POINTS : Int) - 3) ∧
    (ps.foldl main_push ⟨buffer0, 0⟩).buffer.take
        (ps.foldl main_push ⟨buffer0, 0⟩).buffer_size.toNat =
      ps.drop (ps.length - (MAX_DATA_POINTS - 3)) := by
  induction ps using List.reverseRecOn with
  | nil => exact ⟨h0, by simp [MAX_DATA_POINTS], by simp⟩
  | append_singleton ps p ih =>
    obtain ⟨hlen, hsize, htake⟩ := ih
    rw [List.foldl_append, List.foldl_cons, List.foldl_nil]
    generalize ps.foldl main_push ⟨buffer0, 0⟩ = b at hlen hsize htake
    simp only [MAX_DATA_POINTS] at hlen hsize htake ⊢
    simp only [List.length_append, List.length_singleton]
    have hs0 : 0 ≤ b.buffer_size := by omega
    have hs1 : b.buffer_size ≤ 2045 := by omega
    have hlt : b.buffer_size.toNat < b.buffer.length := by omega
    have hset := take_succ_set b.buffer b.buffer_size.toNat p hlt
    by_cases hfull : b.buffer_size + 1 ≥ (2048 : Int) - 2
    · have hsz : b.buffer_size = 2045 := by omega
      have hn : 2045 ≤ ps.length := by omega
      have hmp : main_push b p =
          { buffer := shiftLoop (b.buffer.set b.buffer_size.toNat p) (b.buffer_size + 1),
            buffer_size := b.buffer_size + 1 - 1 } := by
        simp only [main_push, MAX_DATA_POINTS]
        rw [if_pos (by exact_mod_cast hfull)]
      rw [hmp]
      refine ⟨by rw [shiftLoop_length, List.length_set, hlen], by simp only; omega, ?_⟩
      simp only
      have e1 : b.buffer_size + 1 = Int.ofNat 2046 := by rw [hsz]; rfl
      have e2 : (b.buffer_size + 1 - 1).toNat = 2045 := by omega
      have e3 : b.buffer_size.toNat = 2045 := by omega
      rw [e2, e1, take_shiftLoop _ 2046 2045 (by rw [List.length_set, hlen]; omega) (by omega)]
      rw [e3] at hset htake
      have : ((b.buffer.set b.buffer_size.toNat p).drop 1).take 2045 =
          ((b.buffer.set 2045 p).take 2046).drop 1 := by
        rw [e3, List.drop_take]
      rw [this, hset, htake]
      have hd : 1 ≤ (ps.drop (ps.length - (2048 - 3))).length := by
        rw [List.length_drop]
        omega
      rw [List.drop_append_of_le_length hd, List.drop_drop,
        List.drop_append_of_le_length (by omega)]
      have e : ps.length - (2048 - 3) + 1 = ps.length + 1 - (2048 - 3) := by omega
      rw [e]
    · have hsz : b.buffer_size < 2045 := by omega
      have hn : ps.length < 2045 := by omega
      have hmp : main_push b p =
          { buffer := b.buffer.set b.buffer_size.toNat p, buffer_size := b.buffer_size + 1 } := by
        simp only [main_push, MAX_DATA_POINTS]
        rw [if_neg (by exact_mod_cast hfull)]
      rw [hmp]
      refine ⟨by rw [List.length_set, hlen], by simp only; omega, ?_⟩
      simp only
      have e2 : (b.buffer_size + 1).toNat = b.buffer_size.toNat + 1 := by omega
      have d0 : ps.length - (2048 - 3) = 0 := by omega
      have d1 : ps.length + 1 - (2048 - 3) = 0 := by omega
      rw [e2, hset, htake, d0, d1]
      rfl


theorem read_data_point_ret_cases (atol : List Char → Int) (atof : List Char → ℚ)
    (num_fields : Int) (line0 : List Char) (dp : DataPoint) (src : List Read)
    (r : Int × DataPoint × List Read)
    (h : read_data_point atol atof num_fields line0 dp src = some r) : r.1 = 0 ∨ r.1 = 1 := by
  unfold read_data_point at h
  split at h
  · exact absurd h (by simp)
  · simp only [Option.some.injEq] at h
    rw [← h]
    exact SerialPlotterResize.parseBuffer_ret_cases _ _ _ _ _ _

/-- C11 fails on the code: `read_data_point` never returns -1.  When `read`
fails the code prints a message and goes on (the `return -1` is commented
out): a failed read followed by the line `1,2` gives the return value 1, which
`serial_cb` takes as new data, and a source whose reads all fail makes the
call loop without returning.  Whatever the source, a call that returns gives 0
or 1. -/
theorem read_data_point_ignores_read_failure :
    (∀ (atol : List Char → Int) (atof : List Char → ℚ) (num_fields : Int)
        (line0 : List Char) (dp : DataPoint) (src : List Read)
        (r : Int × DataPoint × List Read),
      read_data_point atol atof num_fields line0 dp src = some r → r.1 = 0 ∨ r.1 = 1) ∧
    read_data_point Libc.decimal_atol Libc.decimal_atof 1 (List.replicate 256 'z')
        ⟨7, List.replicate 8 (-1)⟩
        [Read.fail 'z', Read.byte '1', Read.byte ',', Read.byte '2', Read.byte '\n'] =
      some (1, ⟨1, [2, -1, -1, -1, -1, -1, -1, -1]⟩, []) ∧
    serial_cb 1 = Callback.newData ∧
    read_data_point Libc.decimal_atol Libc.decimal_atof 1 (List.replicate 256 'z')
        ⟨7, List.replicate 8 (-1)⟩ (List.replicate 5 (Read.fail 'z')) = none :=
  ⟨read_data_point_ret_cases, by decide!, by decide, by decide!⟩

/-- C17: for every sequence of `n` accepted samples pushed from an empty
buffer, `buffer_size == min(n, MAX_DATA_POINTS - 3)` and `buffer[0 ..
buffer_size)` holds the last `min(n, MAX_DATA_POINTS - 3)` pushed samples in
arrival order: once full, each push evicts exactly the oldest sample. -/
theorem main_push_keeps_last (buffer0 : List DataPoint) (ps : List DataPoint)
    (h0 : buffer0.length = MAX_DATA_POINTS) :
    (ps.foldl main_push ⟨buffer0, 0⟩).buffer_size =
      min (ps.length : Int) ((MAX_DATA_POINTS : Int) - 3) ∧
    (ps.foldl main_push ⟨buffer0, 0⟩).buffer.take
        (ps.foldl main_push ⟨buffer0, 0⟩).buffer_size.toNat =
      ps.drop (ps.length - (MAX_DATA_POINTS - 3)) ∧
    ((ps.foldl main_push ⟨buffer0, 0⟩).buffer.take
        (ps.foldl main_push ⟨buffer0, 0⟩).buffer_size.toNat).length =
      min ps.length (MAX_DATA_POINTS - 3) := by
  obtain ⟨_, hsize, htake⟩ := foldl_main_push_spec buffer0 ps h0
  refine ⟨hsize, htake, ?_⟩
  rw [htake, List.length_drop]
  omega

/-- Instance of `main_push_keeps_last`: 2050 samples, numbered by their
timestamp, pushed into the zero-initialised buffer. -/
theorem main_push_keeps_last_witness :
    (((List.range 2050).map (fun (i : Nat) => (⟨Int.ofNat i, []⟩ : DataPoint))).foldl main_push
        ⟨List.replicate 2048 ⟨0, []⟩, 0⟩).buffer_size =
      min (((List.range 2050).map
        (fun (i : Nat) => (⟨Int.ofNat i, []⟩ : DataPoint))).length : Int)
        ((MAX_DATA_POINTS : Int) - 3) :=
  (main_push_keeps_last (List.replicate 2048 ⟨0, []⟩)
    ((List.range 2050).map (fun (i : Nat) => (⟨Int.ofNat i, []⟩ : DataPoint)))
    (List.length_replicate 2048 _)).1

end SerialPlotterResizeEvent

/-! ## The field-count check at startup -/

/-- C18: in pthread_serial.c, serial_plotter_resize.c and
serial_plotter_resize_event.c the start of `main` goes on to the rest of the
program with the field count `n` only if `1 <= n <= 8`, and does so for every
such `n` when the argument count is right and the devices open; for every
other value of `n`, such as the 0 `atoi` gives for a non-numeric argument, it
ends in `exit(1)`, before any buffer is created or sample read. -/
theorem startup_field_count_check (atoi : List Char → Int) :
    (∀ (argv : List (List Char)) (serial_ok : Bool),
      (¬ (1 ≤ atoi (argv.getD 2 []) ∧ atoi (argv.getD 2 []) ≤ 8) →
        PthreadSerial.main_startup atoi argv serial_ok = PthreadSerial.Startup.exit 1) ∧
      (∀ n size, PthreadSerial.main_startup atoi argv serial_ok =
          PthreadSerial.Startup.run n size →
        n = atoi (argv.getD 2 []) ∧ 1 ≤ n ∧ n ≤ 8) ∧
      (argv.length = 3 → serial_ok = true →
        1 ≤ atoi (argv.getD 2 []) ∧ atoi (argv.getD 2 []) ≤ 8 →
        PthreadSerial.main_startup atoi argv serial_ok =
          PthreadSerial.Startup.run (atoi (argv.getD 2 [])) 100)) ∧
    (∀ (argv : List (List Char)) (display_ok serial_ok : Bool),
      (¬ (1 ≤ atoi (argv.getD 2 []) ∧ atoi (argv.getD 2 []) ≤ 8) →
        SerialPlotterResize.main_startup atoi argv display_ok serial_ok =
          SerialPlotterResize.Startup.exit 1) ∧
      (∀ n, SerialPlotterResize.main_startup atoi argv display_ok serial_ok =
          SerialPlotterResize.Startup.run n →
        n = atoi (argv.getD 2 []) ∧ 1 ≤ n ∧ n ≤ 8) ∧
      (argv.length = 3 → display_ok = true → serial_ok = true →
        1 ≤ atoi (argv.getD 2 []) ∧ atoi (argv.getD 2 []) ≤ 8 →
        SerialPlotterResize.main_startup atoi argv display_ok serial_ok =
          SerialPlotterResize.Startup.run (atoi (argv.getD 2 [])))) ∧
    (∀ (argv : List (List Char)) (display_ok serial_ok : Bool),
      (¬ (1 ≤ atoi (argv.getD 3 []) ∧ atoi (argv.getD 3 []) ≤ 8) →
        SerialPlotterResizeEvent.main_startup atoi argv display_ok serial_ok =
          SerialPlotterResizeEvent.Startup.exit 1) ∧
      (∀ n, SerialPlotterResizeEvent.main_startup atoi argv display_ok serial_ok =
          SerialPlotterResizeEvent.Startup.run n →
        n = atoi (argv.getD 3 []) ∧ 1 ≤ n ∧ n ≤ 8) ∧
      (argv.length = 4 → display_ok = true → serial_ok = true →
        1 ≤ atoi (argv.getD 3 []) ∧ atoi (argv.getD 3 []) ≤ 8 →
        SerialPlotterResizeEvent.main_startup atoi argv display_ok serial_ok =
          SerialPlotterResizeEvent.Startup.run (atoi (argv.getD 3 [])))) := by
  refine ⟨?_, ?_, ?_⟩
  · intro argv serial_ok
    simp only [PthreadSerial.main_startup, PthreadSerial.MAX_DATA]
    refine ⟨?_, ?_, ?_⟩
    · intro h
      split_ifs <;> first | rfl | (exfalso; apply h; constructor <;> omega)
    · intro n size h
      split_ifs at h <;> simp only [PthreadSerial.Startup.run.injEq, reduceCtorEq] at h <;>
        (obtain ⟨rfl, _⟩ := h; refine ⟨rfl, ?_, ?_⟩ <;> omega)
    · intro hlen hok h
      subst hok
      rw [if_neg (by omega), if_neg (by simp), if_neg (by omega), if_neg (by omega)]
  · intro argv display_ok serial_ok
    simp only [SerialPlotterResize.main_startup, SerialPlotterResize.MAX_DATA_FIELDS]
    refine ⟨?_, ?_, ?_⟩
    · intro h
      split_ifs <;> first | rfl | (exfalso; apply h; constructor <;> omega)
    · intro n h
      split_ifs at h
      simp only [SerialPlotterResize.Startup.run.injEq] at h
      subst h
      refine ⟨rfl, ?_, ?_⟩ <;> omega
    · intro hlen hd hok h
      subst hd hok
      rw [if_neg (by omega), if_neg (by omega), if_neg (by simp), if_neg (by simp)]
  · intro argv display_ok serial_ok
    simp only [SerialPlotterResizeEvent.main_startup, SerialPlotterResizeEvent.MAX_DATA_FIELDS]
    refine ⟨?_, ?_, ?_⟩
    · intro h
      split_ifs <;> first | rfl | (exfalso; apply h; constructor <;> omega)
    · intro n h
      split_ifs at h
      simp only [SerialPlotterResizeEvent.Startup.run.injEq] at h
      subst h
      refine ⟨rfl, ?_, ?_⟩ <;> omega
    · intro hlen hd hok h
      subst hd hok
      rw [if_neg (by omega), if_neg (by omega), if_neg (by simp), if_neg (by simp)]

/-- Instance of `startup_field_count_check` for serial_plotter_resize.c: the
non-numeric field count `abc` is converted to 0 and the program exits with
status 1; the field count `3` is accepted. -/
theorem startup_field_count_check_witness :
    SerialPlotterResize.main_startup Libc.decimal_atol
        ["plot".toList, "/dev/ttyUSB0".toList, "abc".toList] true true =
      SerialPlotterResize.Startup.exit 1 ∧
    SerialPlotterResize.main_startup Libc.decimal_atol
        ["plot".toList, "/dev/ttyUSB0".toList, "3".toList] true true =
      SerialPlotterResize.Startup.run (Libc.decimal_atol "3".toList) :=
  ⟨((startup_field_count_check Libc.decimal_atol).2.1
      ["plot".toList, "/dev/ttyUSB0".toList, "abc".toList] true true).1 (by decide),
   ((startup_field_count_check Libc.decimal_atol).2.1
      ["plot".toList, "/dev/ttyUSB0".toList, "3".toList] true true).2.2 rfl rfl rfl
      (by decide)⟩

/-! ## pthread_serial.c: range scan and pixel mapping of draw_graph -/

namespace PthreadSerial

theorem toInt_bounds (q : ℚ) (k : Int) (h0 : 0 ≤ q) (hk : q ≤ (k : ℚ)) :
    0 ≤ toInt q ∧ toInt q ≤ k := by
  unfold toInt
  rw [if_pos h0]
  exact ⟨Int.floor_nonneg.2 h0, Int.floor_le_iff.2 (by linarith)⟩

theorem scaled_bounds (v lo hi : ℚ) (k : Int) (hk : 0 ≤ k) (h : lo < hi) (h1 : lo ≤ v)
    (h2 : v ≤ hi) :
    0 ≤ (v - lo) * ((k : ℚ) / (hi - lo)) ∧ (v - lo) * ((k : ℚ) / (hi - lo)) ≤ (k : ℚ) := by
  have hd : 0 < hi - lo := by linarith
  have hk' : (0 : ℚ) ≤ (k : ℚ) := by exact_mod_cast hk
  constructor
  · exact mul_nonneg (by linarith) (div_nonneg hk' hd.le)
  · rw [mul_div_assoc', div_le_iff₀ hd]
    nlinarith

theorem scan_isMinMax (num_data : Nat) (b : DataBuffer) (h : Inv b) (hc : 1 ≤ b.count)
    (hn : 1 ≤ num_data) :
    IsMinMax ((contents b).map DataPoint.timestamp) (draw_graph_range num_data b).min_x
      (draw_graph_range num_data b).max_x ∧
    IsMinMax ((contents b).flatMap (fun p => (List.range num_data).map (valueAt p)))
      (draw_graph_range num_data b).min_y (draw_graph_range num_data b).max_y := by
  obtain ⟨rest, hrest⟩ := contents_head b h hc
  rw [draw_graph_range_eq, hrest]
  obtain ⟨h1, h2⟩ := foldl_scanPoint num_data (readAt b.data b.start :: rest)
    { min_x := (readAt b.data b.start).timestamp, max_x := (readAt b.data b.start).timestamp,
      min_y := valueAt (readAt b.data b.start) 0, max_y := valueAt (readAt b.data b.start) 0 }
    [(readAt b.data b.start).timestamp] [valueAt (readAt b.data b.start) 0]
    (isMinMax_singleton _) (isMinMax_singleton _)
  constructor
  · refine isMinMax_congr _ _ _ _ ?_ h1
    intro x
    simp
  · refine isMinMax_congr _ _ _ _ ?_ h2
    intro x
    have hmem : valueAt (readAt b.data b.start) 0 ∈
        (List.range num_data).map (valueAt (readAt b.data b.start)) :=
      List.mem_map.2 ⟨0, List.mem_range.2 (by omega), rfl⟩
    simp only [List.flatMap_cons, List.mem_append, List.mem_singleton, List.singleton_append,
      List.mem_cons]
    constructor
    · rintro (rfl | h)
      · exact Or.inl hmem
      · exact h
    · intro h
      exact Or.inr h

theorem draw_graph_mapping (num_data : Nat) (b : DataBuffer) (h : Inv b)
    (hc : 1 ≤ b.count) (hn : 1 ≤ num_data)
    (hx : (draw_graph_range num_data b).min_x < (draw_graph_range num_data b).max_x)
    (hy : (draw_graph_range num_data b).min_y < (draw_graph_range num_data b).max_y) :
    (∀ (p : DataPoint) (j : Nat),
      (MARGIN : ℚ) + xScaled (draw_graph_range num_data b) p =
        (MARGIN : ℚ) + (p.timestamp - (draw_graph_range num_data b).min_x) *
          ((WINDOW_WIDTH : ℚ) - 2 * (MARGIN : ℚ)) /
          ((draw_graph_range num_data b).max_x - (draw_graph_range num_data b).min_x) ∧
      (WINDOW_HEIGHT : ℚ) - (MARGIN : ℚ) - yScaled (draw_graph_range num_data b) p j =
        (WINDOW_HEIGHT : ℚ) - (MARGIN : ℚ) -
          (valueAt p j - (draw_graph_range num_data b).min_y) *
          ((WINDOW_HEIGHT : ℚ) - 2 * (MARGIN : ℚ)) /
          ((draw_graph_range num_data b).max_y - (draw_graph_range num_data b).min_y)) ∧
    (∀ (p : DataPoint) (j : Nat),
      (p.timestamp = (draw_graph_range num_data b).min_x →
        (MARGIN : ℚ) + xScaled (draw_graph_range num_data b) p = (MARGIN : ℚ) ∧
        xPixel (draw_graph_range num_data b) p = MARGIN) ∧
      (p.timestamp = (draw_graph_range num_data b).max_x →
        (MARGIN : ℚ) + xScaled (draw_graph_range num_data b) p =
          (WINDOW_WIDTH : ℚ) - (MARGIN : ℚ) ∧
        xPixel (draw_graph_range num_data b) p = WINDOW_WIDTH - MARGIN) ∧
      (valueAt p j = (draw_graph_range num_data b).min_y →
        (WINDOW_HEIGHT : ℚ) - (MARGIN : ℚ) - yScaled (draw_graph_range num_data b) p j =
          (WINDOW_HEIGHT : ℚ) - (MARGIN : ℚ) ∧
        yPixel (draw_graph_range num_data b) p j = WINDOW_HEIGHT - MARGIN) ∧
      (valueAt p j = (draw_graph_range num_data b).max_y →
        (WINDOW_HEIGHT : ℚ) - (MARGIN : ℚ) - yScaled (draw_graph_range num_data b) p j =
          (MARGIN : ℚ) ∧
        yPixel (draw_graph_range num_data b) p j = MARGIN)) ∧
    (∀ p ∈ contents b, ∀ j, j < num_data →
      (MARGIN : ℚ) ≤ (MARGIN : ℚ) + xScaled (draw_graph_range num_data b) p ∧
      (MARGIN : ℚ) + xScaled (draw_graph_range num_data b) p ≤
        (WINDOW_WIDTH : ℚ) - (MARGIN : ℚ) ∧
      (MARGIN : ℚ) ≤
        (WINDOW_HEIGHT : ℚ) - (MARGIN : ℚ) - yScaled (draw_graph_range num_data b) p j ∧
      (WINDOW_HEIGHT : ℚ) - (MARGIN : ℚ) - yScaled (draw_graph_range num_data b) p j ≤
        (WINDOW_HEIGHT : ℚ) - (MARGIN : ℚ) ∧
      MARGIN ≤ xPixel (draw_graph_range num_data b) p ∧
      xPixel (draw_graph_range num_data b) p ≤ WINDOW_WIDTH - MARGIN ∧
      MARGIN ≤ yPixel (draw_graph_range num_data b) p j ∧
      yPixel (draw_graph_range num_data b) p j ≤ WINDOW_HEIGHT - MARGIN) := by
  obtain ⟨hmx, hmy⟩ := scan_isMinMax num_data b h hc hn
  generalize draw_graph_range num_data b = r at hx hy hmx hmy
  have hdx : r.max_x - r.min_x ≠ 0 := by linarith
  have hdy : r.max_y - r.min_y ≠ 0 := by linarith
  have hW : ((WINDOW_WIDTH - 2 * MARGIN : Int) : ℚ) = 700 := by
    simp only [WINDOW_WIDTH, MARGIN]; norm_num
  have hH : ((WINDOW_HEIGHT - 2 * MARGIN : Int) : ℚ) = 500 := by
    simp only [WINDOW_HEIGHT, MARGIN]; norm_num
  have cW : (WINDOW_WIDTH : ℚ) = 800 := by simp only [WINDOW_WIDTH]; norm_num
  have cH : (WINDOW_HEIGHT : ℚ) = 600 := by simp only [WINDOW_HEIGHT]; norm_num
  have cM : (MARGIN : ℚ) = 50 := by simp only [MARGIN]; norm_num
  have ex : ∀ p : DataPoint,
      xScaled r p = (p.timestamp - r.min_x) * 700 / (r.max_x - r.min_x) := by
    intro p
    unfold xScaled scale_x
    rw [hW, mul_div_assoc]
  have ey : ∀ (p : DataPoint) (j : Nat),
      yScaled r p j = (valueAt p j - r.min_y) * 500 / (r.max_y - r.min_y) := by
    intro p j
    unfold yScaled scale_y
    rw [hH, mul_div_assoc]
  have bx : ∀ p : DataPoint, r.min_x ≤ p.timestamp → p.timestamp ≤ r.max_x →
      0 ≤ xScaled r p ∧ xScaled r p ≤ 700 := by
    intro p h1 h2
    have := scaled_bounds p.timestamp r.min_x r.max_x 700 (by norm_num) hx h1 h2
    rw [ex, mul_div_assoc]
    exact_mod_cast this
  have by_ : ∀ (p : DataPoint) (j : Nat), r.min_y ≤ valueAt p j → valueAt p j ≤ r.max_y →
      0 ≤ yScaled r p j ∧ yScaled r p j ≤ 500 := by
    intro p j h1 h2
    have := scaled_bounds (valueAt p j) r.min_y r.max_y 500 (by norm_num) hy h1 h2
    rw [ey, mul_div_assoc]
    exact_mod_cast this
  have t0 : toInt 0 = 0 := by simp [toInt]
  have t700 : toInt 700 = 700 := by
    have : toInt ((700 : Int) : ℚ) = 700 := by
      unfold toInt
      rw [if_pos (by norm_num), Int.floor_intCast]
    exact_mod_cast this
  have t500 : toInt 500 = 500 := by
    have : toInt ((500 : Int) : ℚ) = 500 := by
      unfold toInt
      rw [if_pos (by norm_num), Int.floor_intCast]
    exact_mod_cast this
  refine ⟨?_, ?_, ?_⟩
  · intro p j
    rw [ex, ey, cW, cH, cM]
    constructor <;> norm_num
  · intro p j
    refine ⟨?_, ?_, ?_, ?_⟩
    · intro e
      have : xScaled r p = 0 := by rw [ex, e, sub_self, zero_mul, zero_div]
      rw [xPixel, this, t0]
      simp
    · intro e
      have : xScaled r p = 700 := by
        rw [ex, e, mul_comm, mul_div_assoc, div_self hdx, mul_one]
      rw [xPixel, this, t700, cW, cM]
      constructor
      · norm_num
      · simp only [WINDOW_WIDTH, MARGIN]; norm_num
    · intro e
      have : yScaled r p j = 0 := by rw [ey, e, sub_self, zero_mul, zero_div]
      rw [yPixel, this, t0]
      simp
    · intro e
      have : yScaled r p j = 500 := by
        rw [ey, e, mul_comm, mul_div_assoc, div_self hdy, mul_one]
      rw [yPixel, this, t500, cH, cM]
      constructor
      · norm_num
      · simp only [WINDOW_HEIGHT, MARGIN]; norm_num
  · intro p hp j hj
    have hxp := hmx.2.2 p.timestamp (List.mem_map.2 ⟨p, hp, rfl⟩)
    have hyp := hmy.2.2 (valueAt p j)
      (List.mem_flatMap.2 ⟨p, hp, List.mem_map.2 ⟨j, List.mem_range.2 hj, rfl⟩⟩)
    obtain ⟨x0, x1⟩ := bx p hxp.1 hxp.2
    obtain ⟨y0, y1⟩ := by_ p j hyp.1 hyp.2
    obtain ⟨tx0, tx1⟩ := toInt_bounds (xScaled r p) 700 x0 (by exact_mod_cast x1)
    obtain ⟨ty0, ty1⟩ := toInt_bounds (yScaled r p j) 500 y0 (by exact_mod_cast y1)
    rw [cW, cH, cM]
    simp only [xPixel, yPixel, WINDOW_WIDTH, WINDOW_HEIGHT, MARGIN]
    refine ⟨by linarith, by linarith, by linarith, by linarith, by omega, by omega, by omega,
      by omega⟩

theorem mem_contents (b : DataBuffer) (k : Nat) (hk : k < b.count.toNat) :
    readAt b.data (Int.tmod (b.start + Int.ofNat k) b.size) ∈ contents b :=
  List.mem_map.2 ⟨k, List.mem_range.2 hk, rfl⟩

theorem draw_graph_lines_in_plot (num_data : Nat) (b : DataBuffer) (hc : 1 ≤ b.count)
    (hin : ∀ p ∈ contents b, ∀ j, j < num_data →
      MARGIN ≤ xPixel (draw_graph_range num_data b) p ∧
      xPixel (draw_graph_range num_data b) p ≤ WINDOW_WIDTH - MARGIN ∧
      MARGIN ≤ yPixel (draw_graph_range num_data b) p j ∧
      yPixel (draw_graph_range num_data b) p j ≤ WINDOW_HEIGHT - MARGIN) :
    ∀ d ∈ draw_graph num_data b, ∀ x1 y1 x2 y2, d = Draw.line x1 y1 x2 y2 →
      (MARGIN ≤ x1 ∧ x1 ≤ WINDOW_WIDTH - MARGIN ∧ MARGIN ≤ y1 ∧ y1 ≤ WINDOW_HEIGHT - MARGIN) ∧
      (MARGIN ≤ x2 ∧ x2 ≤ WINDOW_WIDTH - MARGIN ∧ MARGIN ≤ y2 ∧ y2 ≤ WINDOW_HEIGHT - MARGIN) := by
  intro d hd x1 y1 x2 y2 e
  subst e
  unfold draw_graph at hd
  simp only [List.mem_append, List.mem_cons, List.mem_singleton, List.not_mem_nil, or_false,
    List.mem_flatMap, List.mem_map, List.mem_range, Draw.line.injEq, reduceCtorEq,
    false_or] at hd
  rcases hd with (⟨rfl, rfl, rfl, rfl⟩ | ⟨rfl, rfl, rfl, rfl⟩) | ⟨j, hj, i, hi, rfl, rfl, rfl, rfl⟩
  · decide
  · decide
  · have e1 : b.start + Int.ofNat i + 1 = b.start + Int.ofNat (i + 1) := by
      simp only [Int.ofNat_eq_coe]
      omega
    rw [e1]
    have m1 := mem_contents b i (by omega)
    have m2 := mem_contents b (i + 1) (by omega)
    exact ⟨hin _ m1 j hj, hin _ m2 j hj⟩

/-- C21: for every non-empty buffer with `max_x > min_x` and `max_y > min_y`,
`draw_graph` maps a sample, before the conversion to `int`, to `x = MARGIN +
(timestamp - min_x) * (WINDOW_WIDTH - 2 * MARGIN) / (max_x - min_x)` and `y =
WINDOW_HEIGHT - MARGIN - (value - min_y) * (WINDOW_HEIGHT - 2 * MARGIN) /
(max_y - min_y)`.  So the timestamp `min_x` maps to `MARGIN`, `max_x` to
`WINDOW_WIDTH - MARGIN`, the value `min_y` to `WINDOW_HEIGHT - MARGIN`, `max_y`
to `MARGIN`, and every buffered sample lies inside the plot rectangle, before
and after the conversion; so do both ends of every line `draw_graph` draws. -/
theorem draw_graph_maps_into_plot (num_data : Nat) (b : DataBuffer) (h : Inv b)
    (hc : 1 ≤ b.count) (hn : 1 ≤ num_data)
    (hx : (draw_graph_range num_data b).min_x < (draw_graph_range num_data b).max_x)
    (hy : (draw_graph_range num_data b).min_y < (draw_graph_range num_data b).max_y) :
    (∀ (p : DataPoint) (j : Nat),
      (MARGIN : ℚ) + xScaled (draw_graph_range num_data b) p =
        (MARGIN : ℚ) + (p.timestamp - (draw_graph_range num_data b).min_x) *
          ((WINDOW_WIDTH : ℚ) - 2 * (MARGIN : ℚ)) /
          ((draw_graph_range num_data b).max_x - (draw_graph_range num_data b).min_x) ∧
      (WINDOW_HEIGHT : ℚ) - (MARGIN : ℚ) - yScaled (draw_graph_range num_data b) p j =
        (WINDOW_HEIGHT : ℚ) - (MARGIN : ℚ) -
          (valueAt p j - (draw_graph_range num_data b).min_y) *
          ((WINDOW_HEIGHT : ℚ) - 2 * (MARGIN : ℚ)) /
          ((draw_graph_range num_data b).max_y - (draw_graph_range num_data b).min_y)) ∧
    (∀ (p : DataPoint) (j : Nat),
      (p.timestamp = (draw_graph_range num_data b).min_x →
        (MARGIN : ℚ) + xScaled (draw_graph_range num_data b) p = (MARGIN : ℚ) ∧
        xPixel (draw_graph_range num_data b) p = MARGIN) ∧
      (p.timestamp = (draw_graph_range num_data b).max_x →
        (MARGIN : ℚ) + xScaled (draw_graph_range num_data b) p =
          (WINDOW_WIDTH : ℚ) - (MARGIN : ℚ) ∧
        xPixel (draw_graph_range num_data b) p = WINDOW_WIDTH - MARGIN) ∧
      (valueAt p j = (draw_graph_range num_data b).min_y →
        (WINDOW_HEIGHT : ℚ) - (MARGIN : ℚ) - yScaled (draw_graph_range num_data b) p j =
          (WINDOW_HEIGHT : ℚ) - (MARGIN : ℚ) ∧
        yPixel (draw_graph_range num_data b) p j = WINDOW_HEIGHT - MARGIN) ∧
      (valueAt p j = (draw_graph_range num_data b).max_y →
        (WINDOW_HEIGHT : ℚ) - (MARGIN : ℚ) - yScaled (draw_graph_range num_data b) p j =
          (MARGIN : ℚ) ∧
        yPixel (draw_graph_range num_data b) p j = MARGIN)) ∧
    (∀ p ∈ contents b, ∀ j, j < num_data →
      (MARGIN : ℚ) ≤ (MARGIN : ℚ) + xScaled (draw_graph_range num_data b) p ∧
      (MARGIN : ℚ) + xScaled (draw_graph_range num_data b) p ≤
        (WINDOW_WIDTH : ℚ) - (MARGIN : ℚ) ∧
      (MARGIN : ℚ) ≤
        (WINDOW_HEIGHT : ℚ) - (MARGIN : ℚ) - yScaled (draw_graph_range num_data b) p j ∧
      (WINDOW_HEIGHT : ℚ) - (MARGIN : ℚ) - yScaled (draw_graph_range num_data b) p j ≤
        (WINDOW_HEIGHT : ℚ) - (MARGIN : ℚ) ∧
      MARGIN ≤ xPixel (draw_graph_range num_data b) p ∧
      xPixel (draw_graph_range num_data b) p ≤ WINDOW_WIDTH - MARGIN ∧
      MARGIN ≤ yPixel (draw_graph_range num_data b) p j ∧
      yPixel (draw_graph_range num_data b) p j ≤ WINDOW_HEIGHT - MARGIN) ∧
    (∀ d ∈ draw_graph num_data b, ∀ x1 y1 x2 y2, d = Draw.line x1 y1 x2 y2 →
      (MARGIN ≤ x1 ∧ x1 ≤ WINDOW_WIDTH - MARGIN ∧ MARGIN ≤ y1 ∧ y1 ≤ WINDOW_HEIGHT - MARGIN) ∧
      (MARGIN ≤ x2 ∧ x2 ≤ WINDOW_WIDTH - MARGIN ∧ MARGIN ≤ y2 ∧ y2 ≤ WINDOW_HEIGHT - MARGIN)) := by
  obtain ⟨h1, h2, h3⟩ := draw_graph_mapping num_data b h hc hn hx hy
  refine ⟨h1, h2, h3, ?_⟩
  exact draw_graph_lines_in_plot num_data b hc
    (fun p hp j hj => (h3 p hp j hj).2.2.2.2)

/-- Instance of `draw_graph_maps_into_plot`: a wrapped ring of size 3 holding
the samples (1, 10), (2, 30), (3, 20) from index 2 on, `num_data = 1`; the
sample (2, 30) is drawn inside the plot rectangle. -/
theorem draw_graph_maps_into_plot_witness :
    MARGIN ≤ xPixel (draw_graph_range 1 ⟨[⟨2, [30]⟩, ⟨3, [20]⟩, ⟨1, [10]⟩], 3, 2, 1, 3⟩)
      ⟨2, [30]⟩ ∧
    xPixel (draw_graph_range 1 ⟨[⟨2, [30]⟩, ⟨3, [20]⟩, ⟨1, [10]⟩], 3, 2, 1, 3⟩) ⟨2, [30]⟩ ≤
      WINDOW_WIDTH - MARGIN ∧
    MARGIN ≤ yPixel (draw_graph_range 1 ⟨[⟨2, [30]⟩, ⟨3, [20]⟩, ⟨1, [10]⟩], 3, 2, 1, 3⟩)
      ⟨2, [30]⟩ 0 ∧
    yPixel (draw_graph_range 1 ⟨[⟨2, [30]⟩, ⟨3, [20]⟩, ⟨1, [10]⟩], 3, 2, 1, 3⟩) ⟨2, [30]⟩ 0 ≤
      WINDOW_HEIGHT - MARGIN :=
  ((draw_graph_maps_into_plot 1 ⟨[⟨2, [30]⟩, ⟨3, [20]⟩, ⟨1, [10]⟩], 3, 2, 1, 3⟩
    ⟨by decide, by decide, by decide, by decide, by decide, by decide, by decide, by decide,
      by decide⟩
    (by decide) (by decide) (by decide!) (by decide!)).2.2.1 ⟨2, [30]⟩ (by decide!) 0
    (by decide)).2.2.2.2

theorem take_set_self (l : List Char) (n : Nat) (a : Char) :
    (l.set n a).take n = l.take n := by
  apply List.ext_getElem?
  intro i
  rw [List.getElem?_take, List.getElem?_take]
  split
  · rw [List.getElem?_set_ne (by omega)]
  · rfl

/-- C28 fails on the code: `read(serial_fd, buf, MAX_BUF)` may fill the whole
array and return `MAX_BUF`; the write `buf[n] = 0` is then at index 1024, one
past the end of `char buf[MAX_BUF]`.  For `1 <= n < MAX_BUF` the write is
inside the array. -/
theorem read_serial_terminator_past_end :
    (∀ (buf input : List Char), (buf.length : Int) = MAX_BUF →
      (input.length : Int) = MAX_BUF → read_serial_store buf MAX_BUF input = none) ∧
    read_serial_store (List.replicate 1024 'x') 1024 (List.replicate 1024 'a') = none ∧
    (∀ (buf input : List Char) (n : Int), (buf.length : Int) = MAX_BUF →
      (input.length : Int) = n → 1 ≤ n → n < MAX_BUF →
      ∃ buf', read_serial_store buf n input = some buf' ∧ (buf'.length : Int) = MAX_BUF ∧
        buf'.getD n.toNat 'x' = '\x00' ∧ buf'.take n.toNat = input) := by
  have key : ∀ (buf input : List Char) (n : Int), (buf.length : Int) = MAX_BUF →
      (input.length : Int) = n → 1 ≤ n → n ≤ MAX_BUF →
      input.take n.toNat = input ∧
      ((input.take n.toNat ++ buf.drop (input.take n.toNat).length).length : Int) = MAX_BUF := by
    intro buf input n hb hi h1 h2
    have e : input.take n.toNat = input := List.take_of_length_le (by omega)
    refine ⟨e, ?_⟩
    rw [e, List.length_append, List.length_drop]
    simp only [MAX_BUF] at *
    omega
  refine ⟨?_, ?_, ?_⟩
  · intro buf input hb hi
    obtain ⟨e, hl⟩ := key buf input MAX_BUF hb hi (by decide) (le_refl _)
    unfold read_serial_store
    simp only [hl]
    simp [MAX_BUF]
  · unfold read_serial_store
    decide!
  · intro buf input n hb hi h1 h2
    obtain ⟨e, hl⟩ := key buf input n hb hi h1 (le_of_lt h2)
    unfold read_serial_store
    simp only [hl]
    rw [if_pos (by omega), if_pos h2]
    refine ⟨_, rfl, ?_, ?_, ?_⟩
    · rw [List.length_set]; exact hl
    · rw [List.getD_eq_getElem?_getD, List.getElem?_set_self (by omega)]
      rfl
    · rw [take_set_self, e, List.take_left' (by omega)]

/-! ## pthread_serial.c: the two threads -/

theorem writeAt_members (data : List DataPoint) (e : Int) (p : DataPoint) :
    writeAt (writeAt data e { readAt data e with timestamp := p.timestamp }) e
      { readAt (writeAt data e { readAt data e with timestamp := p.timestamp }) e with
        values := p.values } = writeAt data e p := by
  unfold writeAt readAt
  rw [List.set_set]
  by_cases h : e.toNat < data.length
  · congr 1
    rw [List.getD_eq_getElem?_getD, List.getElem?_set_self h]
    rfl
  · rw [List.set_eq_of_length_le (by omega), List.set_eq_of_length_le (by omega)]

theorem run_serial_eq_enqueue (b : DataBuffer) (arg point : DataPoint) :
    run (List.replicate 9 Thread.serial) (Threads.start b arg point) =
      { Threads.start b arg point with buffer := enqueue b arg, epc := 9 } := by
  have hm := writeAt_members
  by_cases hf : is_full b = true
  · simp [run, List.replicate, step, enqueue_step, Threads.start, hf, enqueue, hm]
  · simp [run, List.replicate, step, enqueue_step, Threads.start, hf, enqueue, hm]

/-- C22 fails on the code: `enqueue` and `dequeue` take the semaphore, the scan
of `draw_graph` does not, so it is never held up and runs inside an `enqueue`
in progress.  With the ring of size 2 holding (1, 10) and (2, 20) and a call
`enqueue` of (3, 30): a scan that has copied the timestamp of `data[0]` before
the call and copies the values after the slot was overwritten sees the sample
(1, 30), which was never enqueued; a scan that tests `i < buffer.count`
between `buffer.count--` and `buffer.count++` sees one sample of a ring that
holds two before and after the call.  Both times the serial thread holds the
semaphore (`mutex` is 0) while the scan reads. -/
theorem draw_graph_scan_not_exclusive :
    (∀ s : Threads, s.spc < 3 →
      ∃ s', step Thread.display s = some s' ∧ s'.mutex = s.mutex ∧ s'.buffer = s.buffer) ∧
    (∀ (b : DataBuffer) (arg point : DataPoint),
      run (List.replicate 9 Thread.serial) (Threads.start b arg point) =
        { Threads.start b arg point with buffer := enqueue b arg, epc := 9 }) ∧
    ((run ([Thread.display, Thread.display] ++ List.replicate 7 Thread.serial)
        (Threads.start ⟨[⟨1, [10]⟩, ⟨2, [20]⟩], 2, 0, 1, 2⟩ ⟨3, [30]⟩ ⟨0, []⟩)).mutex = 0 ∧
      (run ([Thread.display, Thread.display] ++ List.replicate 7 Thread.serial)
        (Threads.start ⟨[⟨1, [10]⟩, ⟨2, [20]⟩], 2, 0, 1, 2⟩ ⟨3, [30]⟩ ⟨0, []⟩)).spc = 2 ∧
      (run ([Thread.display, Thread.display] ++ List.replicate 7 Thread.serial ++
          [Thread.display])
        (Threads.start ⟨[⟨1, [10]⟩, ⟨2, [20]⟩], 2, 0, 1, 2⟩ ⟨3, [30]⟩ ⟨0, []⟩)).seen =
        [⟨1, [30]⟩]) ∧
    ((run (List.replicate 4 Thread.serial)
        (Threads.start ⟨[⟨1, [10]⟩, ⟨2, [20]⟩], 2, 0, 1, 2⟩ ⟨3, [30]⟩ ⟨0, []⟩)).mutex = 0 ∧
      (run (List.replicate 4 Thread.serial ++ List.replicate 4 Thread.display)
        (Threads.start ⟨[⟨1, [10]⟩, ⟨2, [20]⟩], 2, 0, 1, 2⟩ ⟨3, [30]⟩ ⟨0, []⟩)).seen =
        [⟨2, [20]⟩] ∧
      (run (List.replicate 4 Thread.serial ++ List.replicate 4 Thread.display)
        (Threads.start ⟨[⟨1, [10]⟩, ⟨2, [20]⟩], 2, 0, 1, 2⟩ ⟨3, [30]⟩ ⟨0, []⟩)).spc = 3 ∧
      (run (List.replicate 4 Thread.serial ++ List.replicate 4 Thread.display ++
          List.replicate 5 Thread.serial)
        (Threads.start ⟨[⟨1, [10]⟩, ⟨2, [20]⟩], 2, 0, 1, 2⟩ ⟨3, [30]⟩ ⟨0, []⟩)).buffer.count =
        2) := by
  refine ⟨?_, run_serial_eq_enqueue, by decide!, by decide!⟩
  intro s hs
  have h3 : s.spc = 0 ∨ s.spc = 1 ∨ s.spc = 2 := by omega
  rcases h3 with h | h | h <;> simp [step, scan_step, h]

end PthreadSerial

/-! ## wayland_plotter2.c: the vertical mapping of draw_graph -/

namespace WaylandPlotter2

end WaylandPlotter2

/-! ## serial_plotter_resize.c: acceptance of a line, line buffer, pixel columns -/

namespace SerialPlotterResize

/-- C27, as stated, fails: the line `1,2`, 252 zeros, `,3` has three non-empty
tokens, yet with `num_fields = 1` the call that reads it returns 1: only its
first 255 bytes are parsed. -/
theorem read_data_point_cut_line_accepted :
    (Libc.strtokAll ','
      ("1,2".toList ++ List.replicate 252 '0' ++ ",3".toList)).length = 3 ∧
    (read_data_point Libc.decimal_atol Libc.decimal_atof 1 (List.replicate 256 'z')
        ⟨-7, List.replicate 8 (-1)⟩
        (bytes ("1,2".toList ++ List.replicate 252 '0' ++ ",3\n".toList))).1 = 1 := by
  decide!

/-- C27 amended: for every `num_fields` in 1..8 and every line of at most 255
bytes, `read_data_point` returns 1 if and only if the line, after removal of
one trailing carriage return and read as a C string, has exactly `num_fields +
1` tokens in the sense of `strtok`; in every other case it returns 0.  When
the line holds no NUL the tokens are the non-empty fields between commas. -/
theorem read_data_point_accepts_iff (atol : List Char → Int) (atof : List Char → ℚ)
    (num_fields : Nat) (line0 : List Char) (dp : DataPoint) (L : List Char)
    (rest : List Read) (hline0 : line0.length = 256)
    (hn8 : num_fields ≤ MAX_DATA_FIELDS) (hnl : ∀ c ∈ L, c ≠ '\n') (hlen : L.length ≤ 255) :
    ((read_data_point atol atof num_fields line0 dp (bytes (L ++ ['\n']) ++ rest)).1 = 1 ↔
      (Libc.strtokAll ',' (Libc.cstr (stripCR L))).length = num_fields + 1) ∧
    ((Libc.strtokAll ',' (Libc.cstr (stripCR L))).length ≠ num_fields + 1 →
      (read_data_point atol atof num_fields line0 dp (bytes (L ++ ['\n']) ++ rest)).1 = 0) ∧
    ((∀ c ∈ L, c ≠ '\x00') →
      Libc.strtokAll ',' (Libc.cstr (stripCR L)) =
        ((stripCR L).splitOn ',').filter (fun t => t ≠ [])) := by
  rw [read_data_point_line atol atof num_fields line0 dp L rest hline0 hnl hlen]
  simp only
  rw [parseTokens_ret atol atof num_fields dp _ hn8]
  refine ⟨?_, ?_, ?_⟩
  · constructor
    · intro h
      by_contra hc
      rw [if_neg hc] at h
      exact absurd h (by decide)
    · intro h
      rw [if_pos h]
  · intro h
    rw [if_neg h]
  · intro h0
    rw [Libc.cstr_eq_self _ (fun c hc => h0 c (stripCR_subset L c hc))]
    rfl

/-- Instance of `read_data_point_accepts_iff`: the line `10,,1.5`, carriage
return, with `num_fields = 1`. -/
theorem read_data_point_accepts_iff_witness :
    (read_data_point Libc.decimal_atol Libc.decimal_atof 1 (List.replicate 256 'z')
        ⟨-7, List.replicate 8 (-1)⟩ (bytes ("10,,1.5\r".toList ++ ['\n']) ++ [])).1 = 1 ↔
      (Libc.strtokAll ',' (Libc.cstr (stripCR "10,,1.5\r".toList))).length = 1 + 1 :=
  (read_data_point_accepts_iff Libc.decimal_atol Libc.decimal_atof 1 (List.replicate 256 'z')
    ⟨-7, List.replicate 8 (-1)⟩ "10,,1.5\r".toList [] (List.length_replicate 256 'z')
    (by decide) (by decide) (by decide)).1

theorem readLoopAccesses_bounds (src : List Read) (k : Nat) (hk : k ≤ 255) :
    ∀ a ∈ readLoopAccesses src k, (k : Int) ≤ a.index ∧ a.index < 255 := by
  induction src generalizing k with
  | nil => intro a ha; simp [readLoopAccesses] at ha
  | cons r rest ih =>
    intro a ha
    cases r with
    | zero => simp [readLoopAccesses] at ha
    | fail => simp [readLoopAccesses] at ha
    | byte c =>
      simp only [readLoopAccesses] at ha
      split_ifs at ha with hc
      · simp at ha
      · have hk2 : k ≠ 255 := fun e => hc (Or.inr e)
        rcases List.mem_cons.1 ha with rfl | h
        · simp only [LineAccess.index, Int.ofNat_eq_coe]
          omega
        · have := ih (k + 1) (by omega) a h
          omega

theorem readLoop_index_bounds (src : List Read) (line0 line : List Char) (k index : Nat)
    (rest : List Read) (hk : k ≤ 255) (h : readLoop src line0 k = LoopExit.brk line index rest) :
    k ≤ index ∧ index ≤ 255 := by
  induction src generalizing k line0 with
  | nil => simp [readLoop] at h
  | cons r tail ih =>
    cases r with
    | zero => simp [readLoop] at h
    | fail => simp [readLoop] at h
    | byte c =>
      rw [readLoop_byte] at h
      split_ifs at h with hc
      · simp only [LoopExit.brk.injEq] at h
        omega
      · have hk2 : k ≠ 255 := fun e => hc (Or.inr e)
        have := ih (line0.set k c) (k + 1) (by omega) h
        omega

/-- C30: for every input byte stream, every write of `read_data_point` into
the 256-byte array `line`, the appends `line[index++] = c` as well as the
terminator `line[index] = 0`, uses an index in 0..255, and the read
`line[index - 1]` is made with `index >= 1`, at an index in 0..254. -/
theorem read_data_point_line_in_bounds (line0 : List Char) (src : List Read) :
    ∀ a ∈ lineAccesses line0 src, 0 ≤ a.index ∧ a.index ≤ 255 ∧
      ∀ i, a = LineAccess.read i → 0 ≤ i ∧ i ≤ 254 := by
  intro a ha
  unfold lineAccesses at ha
  rcases List.mem_append.1 ha with h | h
  · have hb := readLoopAccesses_bounds src 0 (by omega) a h
    refine ⟨by omega, by omega, ?_⟩
    intro i hi
    subst hi
    simp only [LineAccess.index] at hb
    omega
  · split at h
    · simp at h
    · next line index rest heq =>
      have hb := readLoop_index_bounds src line0 line 0 index rest (by omega) heq
      split_ifs at h with h0 hcr
      · simp at h
      · simp only [List.mem_cons, List.mem_singleton, List.not_mem_nil, or_false] at h
        rcases h with rfl | rfl
        · simp only [LineAccess.index, Int.ofNat_eq_coe, LineAccess.read.injEq]
          refine ⟨by omega, by omega, ?_⟩
          intro i hi
          omega
        · simp only [LineAccess.index, Int.ofNat_eq_coe, reduceCtorEq, false_implies,
            implies_true, and_true]
          omega
      · simp only [List.mem_cons, List.mem_singleton, List.not_mem_nil, or_false] at h
        rcases h with rfl | rfl
        · simp only [LineAccess.index, Int.ofNat_eq_coe, LineAccess.read.injEq]
          refine ⟨by omega, by omega, ?_⟩
          intro i hi
          omega
        · simp only [LineAccess.index, Int.ofNat_eq_coe, reduceCtorEq, false_implies,
            implies_true, and_true]
          omega

/-- Instance of `read_data_point_line_in_bounds`: 300 bytes without a
newline; the last access is the write of the terminator at index 255. -/
theorem read_data_point_line_in_bounds_witness :
    LineAccess.write 255 ∈
        lineAccesses (List.replicate 256 'z') (bytes (List.replicate 300 '7')) ∧
      0 ≤ (LineAccess.write 255).index ∧ (LineAccess.write 255).index ≤ 255 :=
  have hm : LineAccess.write 255 ∈
      lineAccesses (List.replicate 256 'z') (bytes (List.replicate 300 '7')) := by decide!
  ⟨hm, (read_data_point_line_in_bounds (List.replicate 256 'z')
      (bytes (List.replicate 300 '7')) _ hm).1,
    (read_data_point_line_in_bounds (List.replicate 256 'z')
      (bytes (List.replicate 300 '7')) _ hm).2.1⟩


theorem bufferedTimestamps_between (s : State) (hsize : 0 < s.buffer_size)
    (hlen : s.buffer_size.toNat ≤ s.buffer.length)
    (hsorted : (bufferedTimestamps s).Pairwise (fun a b => a ≤ b)) :
    ∀ t ∈ bufferedTimestamps s,
      (bufferAt s.buffer 0).timestamp ≤ t ∧
        t ≤ (bufferAt s.buffer (s.buffer_size - 1)).timestamp := by
  have hl := bufferedTimestamps_length s hlen
  have h0 : 0 < (bufferedTimestamps s).length := by omega
  have hN : s.buffer_size.toNat - 1 < (bufferedTimestamps s).length := by omega
  have e0 : (bufferedTimestamps s)[0] = (bufferAt s.buffer 0).timestamp :=
    bufferedTimestamps_getElem s 0 h0 (by omega)
  have eN : (bufferedTimestamps s)[s.buffer_size.toNat - 1] =
      (bufferAt s.buffer (s.buffer_size - 1)).timestamp := by
    rw [bufferedTimestamps_getElem s _ hN (by omega)]
    congr 2
    simp only [Int.ofNat_eq_coe]
    omega
  intro t ht
  obtain ⟨k, hk, rfl⟩ := List.getElem_of_mem ht
  rw [← e0, ← eN]
  rw [List.pairwise_iff_getElem] at hsorted
  constructor
  · rcases Nat.eq_zero_or_pos k with rfl | hpos
    · exact le_refl _
    · exact hsorted 0 k h0 hk hpos
  · rcases Nat.lt_or_ge k (s.buffer_size.toNat - 1) with hlt | hge
    · exact hsorted k _ hk hN hlt
    · have : k = s.buffer_size.toNat - 1 := by omega
      subst this
      exact le_refl _

theorem tdiv_scaled_bounds (t lo hi k : Int) (hk : 0 ≤ k) (h : lo < hi) (h1 : lo ≤ t)
    (h2 : t ≤ hi) :
    0 ≤ Int.tdiv ((t - lo) * k) (hi - lo) ∧ Int.tdiv ((t - lo) * k) (hi - lo) ≤ k := by
  have hn : 0 ≤ (t - lo) * k := mul_nonneg (by omega) hk
  have hd : 0 < hi - lo := by omega
  rw [Int.tdiv_eq_ediv hn hd.le]
  refine ⟨Int.ediv_nonneg hn hd.le, Int.ediv_le_of_le_mul hd ?_⟩
  rw [mul_comm k]
  exact mul_le_mul_of_nonneg_right (by omega) hk

end SerialPlotterResize

/-! ## serial_plotter.c: running extremes and the data fields -/

namespace SerialPlotter

theorem step_isMinMax (l : List Int) (lo hi v : Int) (h : Running l lo hi)
    (hl : ∀ x ∈ l, x ≠ -1) : IsMinMax (l ++ [v]) (stepMin lo v) (stepMax hi v) := by
  rcases h with ⟨rfl, rfl, rfl⟩ | ⟨h1, h2, h3⟩
  · simp [stepMin, stepMax, IsMinMax]
  · have hlo : lo ≠ -1 := hl lo h1
    have hhi : hi ≠ -1 := hl hi h2
    have hlh := h3 lo h1
    unfold stepMin stepMax IsMinMax
    simp only [hlo, hhi, false_or, List.mem_append, List.mem_singleton]
    refine ⟨?_, ?_, ?_⟩
    · split_ifs
      · exact Or.inr rfl
      · exact Or.inl h1
    · split_ifs
      · exact Or.inr rfl
      · exact Or.inl h2
    · intro x hx
      rcases hx with hx | rfl
      · have := h3 x hx
        split_ifs <;> omega
      · split_ifs <;> omega

theorem foldl_update_field_running (timestamp : Int) (values : List Int) (is : List Nat)
    (s : State) (xs ys : List Int)
    (hx : Running xs s.min_timestamp s.max_timestamp)
    (hy : Running ys s.min_value s.max_value)
    (hxs : ∀ x ∈ xs, x ≠ -1) (hys : ∀ y ∈ ys, y ≠ -1) (ht : timestamp ≠ -1)
    (hv : ∀ i ∈ is, values.getD (i + 1) 0 ≠ -1) :
    Running (xs ++ is.map (fun _ => timestamp))
      (is.foldl (update_field timestamp values) s).min_timestamp
      (is.foldl (update_field timestamp values) s).max_timestamp ∧
    Running (ys ++ is.map (fun i => values.getD (i + 1) 0))
      (is.foldl (update_field timestamp values) s).min_value
      (is.foldl (update_field timestamp values) s).max_value := by
  induction is generalizing s xs ys with
  | nil => simpa using ⟨hx, hy⟩
  | cons i is ih =>
    rw [List.foldl_cons]
    have h1 := step_isMinMax xs _ _ timestamp hx hxs
    have h2 := step_isMinMax ys _ _ (values.getD (i + 1) 0) hy hys
    obtain ⟨e1, e2⟩ := ih (update_field timestamp values s i) (xs ++ [timestamp])
      (ys ++ [values.getD (i + 1) 0]) (Or.inr h1) (Or.inr h2)
      (by
        intro x hx'
        rcases List.mem_append.1 hx' with h | h
        · exact hxs x h
        · rw [List.mem_singleton.1 h]; exact ht)
      (by
        intro y hy'
        rcases List.mem_append.1 hy' with h | h
        · exact hys y h
        · rw [List.mem_singleton.1 h]; exact hv i (List.mem_cons_self _ _))
      (fun j hj => hv j (List.mem_cons_of_mem _ hj))
    constructor
    · simpa using e1
    · simpa using e2

theorem foldl_update_running (calls : List Call) (s : State) (xs ys : List Int)
    (hx : Running xs s.min_timestamp s.max_timestamp)
    (hy : Running ys s.min_value s.max_value)
    (hxs : ∀ x ∈ xs, x ≠ -1) (hys : ∀ y ∈ ys, y ≠ -1)
    (hp : ∀ p ∈ appendedPoints calls, p.x ≠ -1 ∧ p.y ≠ -1) :
    Running (xs ++ (appendedPoints calls).map Point.x)
      (calls.foldl (fun s c => update_data_fields c.values c.parsed c.values1 s) s).min_timestamp
      (calls.foldl (fun s c => update_data_fields c.values c.parsed c.values1 s) s).max_timestamp ∧
    Running (ys ++ (appendedPoints calls).map Point.y)
      (calls.foldl (fun s c => update_data_fields c.values c.parsed c.values1 s) s).min_value
      (calls.foldl (fun s c => update_data_fields c.values c.parsed c.values1 s) s).max_value := by
  induction calls generalizing s xs ys with
  | nil => simpa [appendedPoints] using ⟨hx, hy⟩
  | cons c calls ih =>
    rw [List.foldl_cons]
    have hsplit : appendedPoints (c :: calls) =
        (List.range c.parsed.toNat).map c.point ++ appendedPoints calls := by
      simp [appendedPoints]
    rw [hsplit] at hp ⊢
    by_cases hn : List.range c.parsed.toNat = []
    · have e : update_data_fields c.values c.parsed c.values1 s =
          { s with num_data_fields := c.parsed } := by
        unfold update_data_fields
        rw [hn]
        rfl
      rw [e, hn]
      simpa using ih { s with num_data_fields := c.parsed } xs ys hx hy hxs hys
        (fun p hp' => hp p (List.mem_append_right _ hp'))
    · obtain ⟨i0, hi0⟩ := List.exists_mem_of_ne_nil _ hn
      have hts : c.values.getD 0 0 ≠ -1 :=
        (hp (c.point i0) (List.mem_append_left _ (List.mem_map.2 ⟨i0, hi0, rfl⟩))).1
      obtain ⟨e1, e2⟩ := foldl_update_field_running (c.values.getD 0 0) c.values1
        (List.range c.parsed.toNat) { s with num_data_fields := c.parsed } xs ys hx hy hxs hys
        hts (fun i hi =>
          (hp (c.point i) (List.mem_append_left _ (List.mem_map.2 ⟨i, hi, rfl⟩))).2)
      have hmem1 : ∀ x ∈ xs ++ (List.range c.parsed.toNat).map (fun _ => c.values.getD 0 0),
          x ≠ -1 := by
        intro x hx'
        rcases List.mem_append.1 hx' with h | h
        · exact hxs x h
        · obtain ⟨_, _, rfl⟩ := List.mem_map.1 h
          exact hts
      have hmem2 : ∀ y ∈ ys ++ (List.range c.parsed.toNat).map
          (fun i => c.values1.getD (i + 1) 0), y ≠ -1 := by
        intro y hy'
        rcases List.mem_append.1 hy' with h | h
        · exact hys y h
        · obtain ⟨i, hi, rfl⟩ := List.mem_map.1 h
          exact (hp (c.point i) (List.mem_append_left _ (List.mem_map.2 ⟨i, hi, rfl⟩))).2
      obtain ⟨r1, r2⟩ := ih (update_data_fields c.values c.parsed c.values1 s) _ _ e1 e2
        hmem1 hmem2 (fun p hp' => hp p (List.mem_append_right _ hp'))
      constructor
      · simpa [Call.point, Function.comp_def, List.append_assoc] using r1
      · simpa [Call.point, Function.comp_def, List.append_assoc] using r2

theorem runCalls_running (calls : List Call)
    (hp : ∀ p ∈ appendedPoints calls, p.x ≠ -1 ∧ p.y ≠ -1) (hne : appendedPoints calls ≠ []) :
    IsMinMax ((appendedPoints calls).map Point.x) (runCalls calls).min_timestamp
      (runCalls calls).max_timestamp ∧
    IsMinMax ((appendedPoints calls).map Point.y) (runCalls calls).min_value
      (runCalls calls).max_value := by
  obtain ⟨h1, h2⟩ := foldl_update_running calls init_data_fields [] []
    (Or.inl ⟨rfl, rfl, rfl⟩) (Or.inl ⟨rfl, rfl, rfl⟩) (by simp) (by simp) hp
  simp only [List.nil_append] at h1 h2
  constructor
  · rcases h1 with ⟨h, -, -⟩ | h
    · exact absurd (List.map_eq_nil_iff.1 h) hne
    · exact h
  · rcases h2 with ⟨h, -, -⟩ | h
    · exact absurd (List.map_eq_nil_iff.1 h) hne
    · exact h


theorem take_set_append (l : List Point) (n : Nat) (p : Point) (h : n < l.length) :
    (l.set n p).take (n + 1) = l.take n ++ [p] := by
  apply List.ext_getElem?
  intro i
  rw [List.getElem?_take]
  split
  · next hi =>
    by_cases hin : i = n
    · subst hin
      rw [List.getElem?_set_self h, List.getElem?_append_right (by simp)]
      simp [List.length_take, Nat.min_eq_left (le_of_lt h)]
    · rw [List.getElem?_set_ne (fun e => hin e.symm),
        List.getElem?_append_left (by simp; omega), List.getElem?_take_of_lt (by omega)]
  · next hi =>
    rw [List.getElem?_eq_none]
    simp only [List.length_append, List.length_take, List.length_singleton]
    omega

theorem holds_push (f : DataField) (l : List Point) (p : Point) (h : Holds f l) :
    Holds (appendPoint (rollField f) p) (l ++ [p]) := by
  obtain ⟨hlen, hcount, htake⟩ := h
  simp only [MAX_POINTS, Int.ofNat_eq_coe] at hlen hcount htake
  by_cases hfull : f.count = (MAX_POINTS : Int)
  · simp only [MAX_POINTS] at hfull
    have hl : 1000 ≤ l.length := by
      rw [hfull] at hcount
      omega
    have hroll : rollField f =
        { f with points := (f.points.drop 1).take 999 ++ f.points.drop 999, count := 999 } := by
      unfold rollField
      rw [if_pos (by simp only [MAX_POINTS]; exact hfull)]
      simp only [MAX_POINTS, hfull]
      rfl
    have hall : f.points = l.drop (l.length - 1000) := by
      rw [← htake, hfull]
      exact (List.take_of_length_le (by simp; omega)).symm
    have hd1 : ((f.points.drop 1).take 999).length = 999 := by
      rw [List.length_take, List.length_drop]
      omega
    have hpts : ((f.points.drop 1).take 999 ++ f.points.drop 999).set 999 p =
        f.points.drop 1 ++ [p] := by
      have e1 : (f.points.drop 1).take 999 = f.points.drop 1 :=
        List.take_of_length_le (by rw [List.length_drop]; omega)
      obtain ⟨q, hq⟩ : ∃ q, f.points.drop 999 = [q] := by
        have : (f.points.drop 999).length = 1 := by rw [List.length_drop]; omega
        exact List.length_eq_one.1 this
      rw [e1, hq]
      have e2 : (f.points.drop 1).length = 999 := by rw [List.length_drop]; omega
      rw [List.set_append_right _ _ (by omega), e2]
      rfl
    refine ⟨?_, ?_, ?_⟩
    · rw [hroll]
      simp only [appendPoint, MAX_POINTS, List.length_set, List.length_append, hd1,
        List.length_drop]
      omega
    · rw [hroll]
      simp only [appendPoint, MAX_POINTS, List.length_append, List.length_singleton,
        Int.ofNat_eq_coe]
      omega
    · rw [hroll]
      simp only [appendPoint, MAX_POINTS, List.length_append, List.length_singleton]
      have e3 : ((999 : Int) + 1).toNat = 1000 := rfl
      have e4 : (999 : Int).toNat = 999 := rfl
      rw [e3, e4, hpts, hall, List.drop_drop]
      have e6 : l.length - 1000 + 1 = l.length + 1 - 1000 := by omega
      rw [e6]
      have e5 : (List.drop (l.length + 1 - 1000) l ++ [p]).length = 1000 := by
        rw [List.length_append, List.length_drop, List.length_singleton]
        omega
      rw [List.take_of_length_le (le_of_eq e5), List.drop_append_of_le_length (by omega)]
  · have hroll : rollField f = f := by
      unfold rollField
      rw [if_neg hfull]
    simp only [MAX_POINTS] at hfull
    have hl : l.length < 1000 := by
      omega
    have hc : f.count.toNat = l.length := by
      omega
    have hd : l.length - 1000 = 0 := by omega
    rw [hc, hd, List.drop_zero] at htake
    refine ⟨?_, ?_, ?_⟩
    · rw [hroll]
      simp only [appendPoint, MAX_POINTS, List.length_set]
      exact hlen
    · rw [hroll]
      simp only [appendPoint, MAX_POINTS, List.length_append, List.length_singleton,
        Int.ofNat_eq_coe]
      omega
    · rw [hroll]
      simp only [appendPoint, MAX_POINTS, List.length_append, List.length_singleton]
      have e1 : (f.count + 1).toNat = l.length + 1 := by omega
      have e2 : l.length + 1 - 1000 = 0 := by omega
      rw [e1, e2, List.drop_zero, hc, take_set_append _ _ _ (by omega), htake]


theorem fieldAt_set (s : State) (i j : Nat) (f : DataField) (hi : i < s.data_fields.length) :
    fieldAt { s with data_fields := s.data_fields.set i f } j =
      if j = i then f else fieldAt s j := by
  unfold fieldAt
  simp only [List.getD_eq_getElem?_getD]
  by_cases h : j = i
  · subst h
    rw [if_pos rfl, List.getElem?_set_self hi]
    rfl
  · rw [if_neg h, List.getElem?_set_ne (fun e => h e.symm)]

theorem foldl_update_field_fields (timestamp : Int) (values : List Int) (n : Nat) (s : State)
    (hn : n ≤ s.data_fields.length) :
    ((List.range n).foldl (update_field timestamp values) s).data_fields.length =
      s.data_fields.length ∧
    ∀ j, fieldAt ((List.range n).foldl (update_field timestamp values) s) j =
      if j < n then appendPoint (rollField (fieldAt s j)) ⟨timestamp, values.getD (j + 1) 0⟩
      else fieldAt s j := by
  induction n with
  | zero => simp
  | succ n ih =>
    obtain ⟨hl, hf⟩ := ih (by omega)
    rw [List.range_succ, List.foldl_append, List.foldl_cons, List.foldl_nil]
    generalize (List.range n).foldl (update_field timestamp values) s = t at hl hf
    have hnt : n < t.data_fields.length := by omega
    constructor
    · simp only [update_field, List.length_set]
      exact hl
    · intro j
      have e : fieldAt (update_field timestamp values t n) j =
          if j = n then
            appendPoint (rollField (fieldAt t n)) ⟨timestamp, values.getD (n + 1) 0⟩
          else fieldAt t j := by
        unfold update_field
        exact fieldAt_set _ n j _ hnt
      rw [e]
      by_cases hj : j = n
      · subst hj
        rw [if_pos rfl, if_pos (by omega), hf, if_neg (by omega)]
      · rw [if_neg hj, hf]
        by_cases hlt : j < n
        · rw [if_pos hlt, if_pos (by omega)]
        · rw [if_neg hlt, if_neg (by omega)]

theorem update_data_fields_fields (c : Call) (s : State)
    (hn : c.parsed.toNat ≤ s.data_fields.length) :
    (update_data_fields c.values c.parsed c.values1 s).data_fields.length =
      s.data_fields.length ∧
    ∀ j, fieldAt (update_data_fields c.values c.parsed c.values1 s) j =
      if j < c.parsed.toNat then appendPoint (rollField (fieldAt s j)) (c.point j)
      else fieldAt s j := by
  unfold update_data_fields
  exact foldl_update_field_fields (c.values.getD 0 0) c.values1 c.parsed.toNat
    { s with num_data_fields := c.parsed } hn

theorem runCalls_snoc (calls : List Call) (c : Call) :
    runCalls (calls ++ [c]) = update_data_fields c.values c.parsed c.values1 (runCalls calls) := by
  simp [runCalls, List.foldl_append]

theorem fieldPoints_snoc (calls : List Call) (c : Call) (i : Nat) :
    fieldPoints (calls ++ [c]) i =
      fieldPoints calls i ++ (if i < c.parsed.toNat then [c.point i] else []) := by
  simp [fieldPoints]

theorem runCalls_holds (calls : List Call)
    (hparsed : ∀ c ∈ calls, c.parsed ≤ (MAX_DATA_FIELDS : Int)) :
    (runCalls calls).data_fields.length = MAX_DATA_FIELDS ∧
    ∀ i, i < MAX_DATA_FIELDS → Holds (fieldAt (runCalls calls) i) (fieldPoints calls i) := by
  induction calls using List.reverseRecOn with
  | nil =>
    refine ⟨rfl, ?_⟩
    intro i hi
    simp only [MAX_DATA_FIELDS] at hi
    have : fieldPoints [] i = [] := rfl
    rw [this]
    interval_cases i <;> exact ⟨List.length_replicate _ _, rfl, rfl⟩
  | append_singleton calls c ih =>
    obtain ⟨hl, hf⟩ := ih (fun d hd => hparsed d (List.mem_append_left _ hd))
    have hc : c.parsed ≤ (MAX_DATA_FIELDS : Int) := hparsed c (by simp)
    have hn : c.parsed.toNat ≤ (runCalls calls).data_fields.length := by
      rw [hl]
      simp only [MAX_DATA_FIELDS] at hc ⊢
      omega
    obtain ⟨hl', hf'⟩ := update_data_fields_fields c (runCalls calls) hn
    rw [runCalls_snoc]
    refine ⟨by rw [hl', hl], ?_⟩
    intro i hi
    rw [hf', fieldPoints_snoc]
    by_cases hlt : i < c.parsed.toNat
    · rw [if_pos hlt, if_pos hlt]
      exact holds_push _ _ _ (hf i hi)
    · rw [if_neg hlt, if_neg hlt, List.append_nil]
      exact hf i hi

theorem mem_storedPoints (s : State) (p : Point) :
    p ∈ storedPoints s ↔
      ∃ i, i < s.data_fields.length ∧
        p ∈ (fieldAt s i).points.take (fieldAt s i).count.toNat := by
  unfold storedPoints
  rw [List.mem_flatMap]
  constructor
  · rintro ⟨f, hf, hp⟩
    obtain ⟨i, hi, rfl⟩ := List.getElem_of_mem hf
    refine ⟨i, hi, ?_⟩
    have : fieldAt s i = s.data_fields[i] := by
      simp [fieldAt, List.getD_eq_getElem?_getD, List.getElem?_eq_getElem hi]
    rw [this]
    exact hp
  · rintro ⟨i, hi, hp⟩
    have : fieldAt s i = s.data_fields[i] := by
      simp [fieldAt, List.getD_eq_getElem?_getD, List.getElem?_eq_getElem hi]
    rw [this] at hp
    exact ⟨_, List.getElem_mem _, hp⟩

theorem mem_appendedPoints (calls : List Call) (p : Point)
    (hparsed : ∀ c ∈ calls, c.parsed ≤ (MAX_DATA_FIELDS : Int)) :
    p ∈ appendedPoints calls ↔ ∃ i, i < MAX_DATA_FIELDS ∧ p ∈ fieldPoints calls i := by
  unfold appendedPoints fieldPoints
  simp only [List.mem_flatMap, List.mem_map, List.mem_range]
  constructor
  · rintro ⟨c, hc, i, hi, rfl⟩
    have := hparsed c hc
    refine ⟨i, ?_, c, hc, ?_⟩
    · simp only [MAX_DATA_FIELDS] at this ⊢
      omega
    · rw [if_pos hi]
      exact List.mem_singleton_self _
  · rintro ⟨i, -, c, hc, hp⟩
    split_ifs at hp with hi
    · exact ⟨c, hc, i, hi, (List.mem_singleton.1 hp).symm⟩
    · simp at hp


theorem isMinMax_of_mem_iff (l l' : List Int) (lo hi : Int) (hm : ∀ x, x ∈ l ↔ x ∈ l')
    (h : IsMinMax l lo hi) : IsMinMax l' lo hi :=
  ⟨(hm lo).1 h.1, (hm hi).1 h.2.1, fun x hx => h.2.2 x ((hm x).2 hx)⟩

theorem mem_storedPoints_runCalls (calls : List Call) (p : Point)
    (hparsed : ∀ c ∈ calls, c.parsed ≤ (MAX_DATA_FIELDS : Int)) :
    p ∈ storedPoints (runCalls calls) ↔
      ∃ i, i < MAX_DATA_FIELDS ∧
        p ∈ (fieldPoints calls i).drop ((fieldPoints calls i).length - MAX_POINTS) := by
  obtain ⟨hl, hf⟩ := runCalls_holds calls hparsed
  rw [mem_storedPoints, hl]
  constructor
  · rintro ⟨i, hi, hp⟩
    rw [(hf i hi).2.2] at hp
    exact ⟨i, hi, hp⟩
  · rintro ⟨i, hi, hp⟩
    rw [← (hf i hi).2.2] at hp
    exact ⟨i, hi, hp⟩

/-- C23 fails on the code: `update_data_fields` keeps the extremes as they
come and `draw_data_fields` divides by their differences with no check.  After
the sample (5, 7) has arrived twice the field holds two points, both
differences are 0 and `draw_data_fields` divides by zero; so it does after (1,
7), (2, 7), where only the values are equal, and after (5, 7), (5, 9), where
only the timestamps are.  After (5, 7), (6, 8) it draws. -/
theorem draw_data_fields_divides_by_zero :
    ((fieldAt (runCalls [⟨[5, 7], 1, [5, 7]⟩, ⟨[5, 7], 1, [5, 7]⟩]) 0).count = 2 ∧
      (runCalls [⟨[5, 7], 1, [5, 7]⟩, ⟨[5, 7], 1, [5, 7]⟩]).max_timestamp -
        (runCalls [⟨[5, 7], 1, [5, 7]⟩, ⟨[5, 7], 1, [5, 7]⟩]).min_timestamp = 0 ∧
      (runCalls [⟨[5, 7], 1, [5, 7]⟩, ⟨[5, 7], 1, [5, 7]⟩]).max_value -
        (runCalls [⟨[5, 7], 1, [5, 7]⟩, ⟨[5, 7], 1, [5, 7]⟩]).min_value = 0 ∧
      draw_data_fields (runCalls [⟨[5, 7], 1, [5, 7]⟩, ⟨[5, 7], 1, [5, 7]⟩]) = none) ∧
    ((runCalls [⟨[1, 7], 1, [1, 7]⟩, ⟨[2, 7], 1, [2, 7]⟩]).max_value -
        (runCalls [⟨[1, 7], 1, [1, 7]⟩, ⟨[2, 7], 1, [2, 7]⟩]).min_value = 0 ∧
      draw_data_fields (runCalls [⟨[1, 7], 1, [1, 7]⟩, ⟨[2, 7], 1, [2, 7]⟩]) = none) ∧
    ((runCalls [⟨[5, 7], 1, [5, 7]⟩, ⟨[5, 9], 1, [5, 9]⟩]).max_timestamp -
        (runCalls [⟨[5, 7], 1, [5, 7]⟩, ⟨[5, 9], 1, [5, 9]⟩]).min_timestamp = 0 ∧
      draw_data_fields (runCalls [⟨[5, 7], 1, [5, 7]⟩, ⟨[5, 9], 1, [5, 9]⟩]) = none) ∧
    draw_data_fields (runCalls [⟨[5, 7], 1, [5, 7]⟩, ⟨[6, 8], 1, [6, 8]⟩]) =
      some [Draw.string 670 60, Draw.line 50 550 750 50] := by
  decide!

/-- C24, as stated, fails: after the sample (1, 100) and 1000 samples (2, 5)
the first point has been evicted and every stored point is (2, 5), yet
`min_timestamp` is still 1 and `max_value` is still 100: the extremes are not
recomputed when a point leaves a field. -/
theorem update_data_fields_extremes_outlive_points :
    (runCalls (⟨[1, 100], 1, [1, 100]⟩ :: List.replicate 1000 ⟨[2, 5], 1, [2, 5]⟩)).min_timestamp
      = 1 ∧
    (runCalls (⟨[1, 100], 1, [1, 100]⟩ :: List.replicate 1000 ⟨[2, 5], 1, [2, 5]⟩)).max_value
      = 100 ∧
    (⟨2, 5⟩ : Point) ∈
      storedPoints (runCalls (⟨[1, 100], 1, [1, 100]⟩ :: List.replicate 1000 ⟨[2, 5], 1, [2, 5]⟩)) ∧
    (∀ p ∈ storedPoints
        (runCalls (⟨[1, 100], 1, [1, 100]⟩ :: List.replicate 1000 ⟨[2, 5], 1, [2, 5]⟩)),
      p = ⟨2, 5⟩) := by
  have hparsed : ∀ c ∈ (⟨[1, 100], 1, [1, 100]⟩ :: List.replicate 1000 ⟨[2, 5], 1, [2, 5]⟩ :
      List Call), c.parsed ≤ (MAX_DATA_FIELDS : Int) := by
    intro c hc
    rcases List.mem_cons.1 hc with rfl | h
    · decide
    · rw [List.eq_of_mem_replicate h]
      decide
  have happ : appendedPoints (⟨[1, 100], 1, [1, 100]⟩ ::
      List.replicate 1000 ⟨[2, 5], 1, [2, 5]⟩) = ⟨1, 100⟩ :: List.replicate 1000 ⟨2, 5⟩ := by
    decide!
  have hf0 : fieldPoints (⟨[1, 100], 1, [1, 100]⟩ ::
      List.replicate 1000 ⟨[2, 5], 1, [2, 5]⟩) 0 = ⟨1, 100⟩ :: List.replicate 1000 ⟨2, 5⟩ := by
    decide!
  have hfi : ∀ i, 1 ≤ i → fieldPoints (⟨[1, 100], 1, [1, 100]⟩ ::
      List.replicate 1000 ⟨[2, 5], 1, [2, 5]⟩) i = [] := by
    intro i hi
    unfold fieldPoints
    rw [List.flatMap_eq_nil_iff]
    intro c hc
    have hc1 : c.parsed.toNat = 1 := by
      rcases List.mem_cons.1 hc with rfl | h
      · rfl
      · rw [List.eq_of_mem_replicate h]
        rfl
    rw [if_neg (by omega)]
  have hp : ∀ p ∈ appendedPoints (⟨[1, 100], 1, [1, 100]⟩ ::
      List.replicate 1000 ⟨[2, 5], 1, [2, 5]⟩), p.x ≠ -1 ∧ p.y ≠ -1 := by
    rw [happ]
    intro p hp
    rcases List.mem_cons.1 hp with rfl | h
    · decide
    · rw [List.eq_of_mem_replicate h]
      decide
  obtain ⟨⟨hx1, -, hx3⟩, ⟨-, hy2, hy3⟩⟩ :=
    runCalls_running _ hp (by rw [happ]; exact List.cons_ne_nil _ _)
  rw [happ] at hx1 hx3 hy2 hy3
  have hdrop : ((⟨1, 100⟩ : Point) :: List.replicate 1000 ⟨2, 5⟩).drop
      (((⟨1, 100⟩ : Point) :: List.replicate 1000 ⟨2, 5⟩).length - MAX_POINTS) =
      List.replicate 1000 ⟨2, 5⟩ := by
    decide!
  have hmem : ∀ p : Point, p ∈ storedPoints (runCalls (⟨[1, 100], 1, [1, 100]⟩ ::
      List.replicate 1000 ⟨[2, 5], 1, [2, 5]⟩)) ↔ p ∈ List.replicate 1000 (⟨2, 5⟩ : Point) := by
    intro p
    rw [mem_storedPoints_runCalls _ p hparsed]
    constructor
    · rintro ⟨i, -, hi⟩
      rcases Nat.eq_zero_or_pos i with rfl | hpos
      · rw [hf0, hdrop] at hi
        exact hi
      · rw [hfi i hpos, List.drop_nil] at hi
        exact absurd hi (List.not_mem_nil _)
    · intro h
      refine ⟨0, by decide, ?_⟩
      rw [hf0, hdrop]
      exact h
  have hcase : ∀ q : Point, q ∈ (⟨1, 100⟩ : Point) :: List.replicate 1000 ⟨2, 5⟩ →
      q = ⟨1, 100⟩ ∨ q = ⟨2, 5⟩ := by
    intro q hq
    rcases List.mem_cons.1 hq with h | h
    · exact Or.inl h
    · exact Or.inr (List.eq_of_mem_replicate h)
  refine ⟨?_, ?_, ?_, ?_⟩
  · have h1 := (hx3 1 (List.mem_map.2 ⟨⟨1, 100⟩, List.mem_cons_self _ _, rfl⟩)).1
    obtain ⟨q, hq, e⟩ := List.mem_map.1 hx1
    rcases hcase q hq with rfl | rfl
    · exact e.symm
    · simp only at e
      omega
  · have h1 := (hy3 100 (List.mem_map.2 ⟨⟨1, 100⟩, List.mem_cons_self _ _, rfl⟩)).2
    obtain ⟨q, hq, e⟩ := List.mem_map.1 hy2
    rcases hcase q hq with rfl | rfl
    · exact e.symm
    · simp only at e
      omega
  · rw [hmem]
    exact List.mem_replicate.2 ⟨by decide, rfl⟩
  · intro p hp
    rw [hmem] at hp
    exact List.eq_of_mem_replicate hp

theorem fieldPoints_length_le (calls : List Call) (i : Nat) :
    (fieldPoints calls i).length ≤ calls.length := by
  induction calls with
  | nil => simp [fieldPoints]
  | cons c calls ih =>
    have e : fieldPoints (c :: calls) i =
        (if i < c.parsed.toNat then [c.point i] else []) ++ fieldPoints calls i := by
      simp [fieldPoints]
    rw [e, List.length_append, List.length_cons]
    split_ifs <;> simp <;> omega

/-- C24 amended: after every sequence of `update_data_fields` calls that
follows `init_data_fields` and appends at least one point, with no timestamp
and no value equal to -1 (negative ones included otherwise), `min_timestamp`,
`max_timestamp`, `min_value` and `max_value` are the minimum and the maximum
of the timestamps and of the values of all points appended since
`init_data_fields`, evicted ones included.  Every field holds the last
`MAX_POINTS` points appended to it, in order; so the extremes are those of
the points currently stored as long as no more than `MAX_POINTS` calls have
been made. -/
theorem update_data_fields_running_extremes (calls : List Call)
    (hparsed : ∀ c ∈ calls, c.parsed ≤ (MAX_DATA_FIELDS : Int))
    (hp : ∀ p ∈ appendedPoints calls, p.x ≠ -1 ∧ p.y ≠ -1)
    (hne : appendedPoints calls ≠ []) :
    IsMinMax ((appendedPoints calls).map Point.x) (runCalls calls).min_timestamp
      (runCalls calls).max_timestamp ∧
    IsMinMax ((appendedPoints calls).map Point.y) (runCalls calls).min_value
      (runCalls calls).max_value ∧
    (∀ i, i < MAX_DATA_FIELDS →
      (fieldAt (runCalls calls) i).count =
        Int.ofNat (min (fieldPoints calls i).length MAX_POINTS) ∧
      (fieldAt (runCalls calls) i).points.take (fieldAt (runCalls calls) i).count.toNat =
        (fieldPoints calls i).drop ((fieldPoints calls i).length - MAX_POINTS)) ∧
    (calls.length ≤ MAX_POINTS →
      IsMinMax ((storedPoints (runCalls calls)).map Point.x) (runCalls calls).min_timestamp
        (runCalls calls).max_timestamp ∧
      IsMinMax ((storedPoints (runCalls calls)).map Point.y) (runCalls calls).min_value
        (runCalls calls).max_value) := by
  obtain ⟨hx, hy⟩ := runCalls_running calls hp hne
  obtain ⟨-, hf⟩ := runCalls_holds calls hparsed
  refine ⟨hx, hy, fun i hi => ⟨(hf i hi).2.1, (hf i hi).2.2⟩, ?_⟩
  intro hlen
  have hmem : ∀ p : Point, p ∈ appendedPoints calls ↔ p ∈ storedPoints (runCalls calls) := by
    intro p
    rw [mem_storedPoints_runCalls calls p hparsed, mem_appendedPoints calls p hparsed]
    have hd : ∀ i, (fieldPoints calls i).length - MAX_POINTS = 0 := by
      intro i
      have := fieldPoints_length_le calls i
      omega
    simp only [hd, List.drop_zero]
  constructor
  · refine isMinMax_of_mem_iff _ _ _ _ ?_ hx
    intro x
    simp only [List.mem_map, hmem]
  · refine isMinMax_of_mem_iff _ _ _ _ ?_ hy
    intro y
    simp only [List.mem_map, hmem]

/-- Instance of `update_data_fields_running_extremes`: the samples (5, -7, 3)
and (6, 2): the timestamps range over 5 .. 6 and the values over -7 .. 3. -/
theorem update_data_fields_running_extremes_witness :
    IsMinMax [5, 5, 6] (runCalls [⟨[5, -7, 3], 2, [5, -7, 3]⟩, ⟨[6, 2], 1, [6, 2]⟩]).min_timestamp
      (runCalls [⟨[5, -7, 3], 2, [5, -7, 3]⟩, ⟨[6, 2], 1, [6, 2]⟩]).max_timestamp ∧
    IsMinMax [-7, 3, 2] (runCalls [⟨[5, -7, 3], 2, [5, -7, 3]⟩, ⟨[6, 2], 1, [6, 2]⟩]).min_value
      (runCalls [⟨[5, -7, 3], 2, [5, -7, 3]⟩, ⟨[6, 2], 1, [6, 2]⟩]).max_value :=
  have h := update_data_fields_running_extremes
    [⟨[5, -7, 3], 2, [5, -7, 3]⟩, ⟨[6, 2], 1, [6, 2]⟩] (by decide) (by decide) (by decide)
  ⟨h.1, h.2.1⟩

end SerialPlotter

/-! ## C floating types: order on the values that are no NaN -/

namespace Ieee

theorem fp_le_refl (a : Fp) (h : a ≠ Fp.nan) : a.le a = true := by
  cases a <;> simp_all [Fp.le, Fp.lt, Fp.eq]

theorem fp_le_of_not_lt (a b : Fp) (ha : a ≠ Fp.nan) (hb : b ≠ Fp.nan)
    (h : b.lt a = false) : a.le b = true := by
  cases a <;> cases b <;> simp_all [Fp.le, Fp.lt, Fp.eq]
  exact le_iff_lt_or_eq.1 h

theorem fp_le_of_lt (a b : Fp) (h : a.lt b = true) : a.le b = true := by
  simp [Fp.le, h]

theorem fp_le_trans (a b c : Fp) (h1 : a.le b = true) (h2 : b.le c = true) :
    a.le c = true := by
  cases a <;> cases b <;> cases c <;> simp_all [Fp.le, Fp.lt, Fp.eq]
  exact le_iff_lt_or_eq.1 (le_trans (le_iff_lt_or_eq.2 h1) (le_iff_lt_or_eq.2 h2))

theorem fp_isMinMax_singleton (x : Fp) (h : x ≠ Fp.nan) : IsMinMaxFp [x] x x := by
  simp [IsMinMaxFp, fp_le_refl x h]

/-- One step of a running minimum and maximum, as the scans take it. -/
theorem fp_isMinMax_snoc (l : List Fp) (lo hi v : Fp) (h : IsMinMaxFp l lo hi)
    (hl : ∀ x ∈ l, x ≠ Fp.nan) (hv : v ≠ Fp.nan) :
    IsMinMaxFp (l ++ [v]) (if v.lt lo = true then v else lo)
      (if hi.lt v = true then v else hi) := by
  obtain ⟨h1, h2, h3⟩ := h
  have hlo : lo ≠ Fp.nan := hl lo h1
  have hhi : hi ≠ Fp.nan := hl hi h2
  refine ⟨?_, ?_, ?_⟩
  · split_ifs
    · simp
    · simp [h1]
  · split_ifs
    · simp
    · simp [h2]
  · intro x hx
    rcases List.mem_append.1 hx with hx | hx
    · obtain ⟨a, b⟩ := h3 x hx
      constructor
      · split_ifs with hc
        · exact fp_le_trans _ _ _ (fp_le_of_lt _ _ hc) a
        · exact a
      · split_ifs with hc
        · exact fp_le_trans _ _ _ b (fp_le_of_lt _ _ hc)
        · exact b
    · rw [List.mem_singleton.1 hx]
      constructor
      · split_ifs with hc
        · exact fp_le_refl v hv
        · exact fp_le_of_not_lt lo v hlo hv (by simpa using hc)
      · split_ifs with hc
        · exact fp_le_refl v hv
        · exact fp_le_of_not_lt v hi hv hhi (by simpa using hc)

theorem fp_isMinMax_congr (l l' : List Fp) (lo hi : Fp) (hm : ∀ x, x ∈ l ↔ x ∈ l')
    (h : IsMinMaxFp l lo hi) : IsMinMaxFp l' lo hi :=
  ⟨(hm lo).1 h.1, (hm hi).1 h.2.1, fun x hx => h.2.2 x ((hm x).2 hx)⟩

end Ieee

/-! ## pthread_serial.c: the range scan on doubles -/

namespace PthreadSerial.Floats

open Ieee

theorem foldl_scanValue_fp (point : DataPoint) (js : List Nat) (r : Range) (ys : List Fp)
    (h : IsMinMaxFp ys r.min_y r.max_y) (hys : ∀ y ∈ ys, y ≠ Fp.nan)
    (hjs : ∀ j ∈ js, valueAt point j ≠ Fp.nan) :
    (js.foldl (scanValue point) r).min_x = r.min_x ∧
    (js.foldl (scanValue point) r).max_x = r.max_x ∧
    IsMinMaxFp (ys ++ js.map (valueAt point)) (js.foldl (scanValue point) r).min_y
      (js.foldl (scanValue point) r).max_y := by
  induction js generalizing r ys with
  | nil => simpa using h
  | cons j js ih =>
    rw [List.foldl_cons]
    have hv := hjs j (List.mem_cons_self _ _)
    have h' := fp_isMinMax_snoc ys r.min_y r.max_y (valueAt point j) h hys hv
    have e : scanValue point r j =
        { min_x := r.min_x, max_x := r.max_x,
          min_y := if (valueAt point j).lt r.min_y = true then valueAt point j else r.min_y,
          max_y := if r.max_y.lt (valueAt point j) = true then valueAt point j else r.max_y } := by
      unfold scanValue
      by_cases c1 : (valueAt point j).lt r.min_y = true <;>
        by_cases c2 : r.max_y.lt (valueAt point j) = true <;> simp [c1, c2]
    obtain ⟨e1, e2, e3⟩ := ih (scanValue point r j) (ys ++ [valueAt point j])
      (by rw [e]; exact h')
      (by
        intro y hy
        rcases List.mem_append.1 hy with hy | hy
        · exact hys y hy
        · rw [List.mem_singleton.1 hy]; exact hv)
      (fun k hk => hjs k (List.mem_cons_of_mem _ hk))
    refine ⟨by rw [e1, e], by rw [e2, e], ?_⟩
    simpa using e3

theorem scanPoint_fp (num_data : Nat) (r : Range) (point : DataPoint) (xs ys : List Fp)
    (hx : IsMinMaxFp xs r.min_x r.max_x) (hy : IsMinMaxFp ys r.min_y r.max_y)
    (hxs : ∀ x ∈ xs, x ≠ Fp.nan) (hys : ∀ y ∈ ys, y ≠ Fp.nan)
    (ht : point.timestamp ≠ Fp.nan) (hv : ∀ j, j < num_data → valueAt point j ≠ Fp.nan) :
    IsMinMaxFp (xs ++ [point.timestamp]) (scanPoint num_data r point).min_x
      (scanPoint num_data r point).max_x ∧
    IsMinMaxFp (ys ++ (List.range num_data).map (valueAt point))
      (scanPoint num_data r point).min_y (scanPoint num_data r point).max_y := by
  have hx' := fp_isMinMax_snoc xs r.min_x r.max_x point.timestamp hx hxs ht
  have e : scanPoint num_data r point =
      (List.range num_data).foldl (scanValue point)
        { min_x := if point.timestamp.lt r.min_x = true then point.timestamp else r.min_x,
          max_x := if r.max_x.lt point.timestamp = true then point.timestamp else r.max_x,
          min_y := r.min_y, max_y := r.max_y } := by
    unfold scanPoint
    by_cases c1 : point.timestamp.lt r.min_x = true <;>
      by_cases c2 : r.max_x.lt point.timestamp = true <;> simp [c1, c2]
  rw [e]
  obtain ⟨e1, e2, e3⟩ := foldl_scanValue_fp point (List.range num_data)
    { min_x := if point.timestamp.lt r.min_x = true then point.timestamp else r.min_x,
      max_x := if r.max_x.lt point.timestamp = true then point.timestamp else r.max_x,
      min_y := r.min_y, max_y := r.max_y } ys hy hys
    (fun j hj => hv j (List.mem_range.1 hj))
  exact ⟨by rw [e1, e2]; exact hx', e3⟩

theorem foldl_scanPoint_fp (num_data : Nat) (ps : List DataPoint) (r : Range)
    (xs ys : List Fp)
    (hx : IsMinMaxFp xs r.min_x r.max_x) (hy : IsMinMaxFp ys r.min_y r.max_y)
    (hxs : ∀ x ∈ xs, x ≠ Fp.nan) (hys : ∀ y ∈ ys, y ≠ Fp.nan)
    (hps : ∀ p ∈ ps, p.timestamp ≠ Fp.nan ∧ ∀ j, j < num_data → valueAt p j ≠ Fp.nan) :
    IsMinMaxFp (xs ++ ps.map DataPoint.timestamp) (ps.foldl (scanPoint num_data) r).min_x
      (ps.foldl (scanPoint num_data) r).max_x ∧
    IsMinMaxFp (ys ++ ps.flatMap (fun p => (List.range num_data).map (valueAt p)))
      (ps.foldl (scanPoint num_data) r).min_y (ps.foldl (scanPoint num_data) r).max_y := by
  induction ps generalizing r xs ys with
  | nil => simpa using ⟨hx, hy⟩
  | cons p ps ih =>
    rw [List.foldl_cons]
    obtain ⟨hpt, hpv⟩ := hps p (List.mem_cons_self _ _)
    obtain ⟨h1, h2⟩ := scanPoint_fp num_data r p xs ys hx hy hxs hys hpt hpv
    obtain ⟨e1, e2⟩ := ih (scanPoint num_data r p) _ _ h1 h2
      (by
        intro x hx'
        rcases List.mem_append.1 hx' with h | h
        · exact hxs x h
        · rw [List.mem_singleton.1 h]; exact hpt)
      (by
        intro y hy'
        rcases List.mem_append.1 hy' with h | h
        · exact hys y h
        · obtain ⟨j, hj, rfl⟩ := List.mem_map.1 h
          exact hpv j (List.mem_range.1 hj))
      (fun q hq => hps q (List.mem_cons_of_mem _ hq))
    constructor
    · simpa using e1
    · simpa using e2

theorem contents_head_fp (b : DataBuffer) (h0 : 0 ≤ b.start) (h1 : b.start < b.size)
    (hc : 1 ≤ b.count) : ∃ rest, contents b = readAt b.data b.start :: rest := by
  obtain ⟨k, hk⟩ : ∃ k, b.count.toNat = k + 1 := ⟨b.count.toNat - 1, by omega⟩
  have hs : Int.tmod (b.start + Int.ofNat 0) b.size = b.start := by
    have e : b.start + Int.ofNat 0 = b.start := by simp
    rw [e, PthreadSerial.tmod_small b.start b.size h0 (by omega) (by omega), if_pos h1]
  refine ⟨(List.range k).map
    (fun (i : Nat) => readAt b.data (Int.tmod (b.start + Int.ofNat (i + 1)) b.size)), ?_⟩
  unfold contents
  rw [hk, List.range_succ_eq_map, List.map_cons, hs, List.map_map]
  rfl

theorem scan_isMinMax_fp (num_data : Nat) (b : DataBuffer) (h0 : 0 ≤ b.start)
    (h1 : b.start < b.size) (hc : 1 ≤ b.count) (hn : 1 ≤ num_data)
    (hnan : ∀ p ∈ contents b,
      p.timestamp ≠ Fp.nan ∧ ∀ j, j < num_data → valueAt p j ≠ Fp.nan) :
    IsMinMaxFp ((contents b).map DataPoint.timestamp) (draw_graph_range num_data b).min_x
      (draw_graph_range num_data b).max_x ∧
    IsMinMaxFp ((contents b).flatMap (fun p => (List.range num_data).map (valueAt p)))
      (draw_graph_range num_data b).min_y (draw_graph_range num_data b).max_y := by
  obtain ⟨rest, hrest⟩ := contents_head_fp b h0 h1 hc
  have heq : draw_graph_range num_data b =
      (contents b).foldl (scanPoint num_data)
        { min_x := (readAt b.data b.start).timestamp,
          max_x := (readAt b.data b.start).timestamp,
          min_y := valueAt (readAt b.data b.start) 0,
          max_y := valueAt (readAt b.data b.start) 0 } := by
    unfold draw_graph_range contents
    rw [List.foldl_map]
  rw [heq]
  rw [hrest] at hnan ⊢
  obtain ⟨hft, hfv⟩ := hnan _ (List.mem_cons_self _ _)
  obtain ⟨r1, r2⟩ := foldl_scanPoint_fp num_data (readAt b.data b.start :: rest)
    { min_x := (readAt b.data b.start).timestamp, max_x := (readAt b.data b.start).timestamp,
      min_y := valueAt (readAt b.data b.start) 0, max_y := valueAt (readAt b.data b.start) 0 }
    [(readAt b.data b.start).timestamp] [valueAt (readAt b.data b.start) 0]
    (fp_isMinMax_singleton _ hft) (fp_isMinMax_singleton _ (hfv 0 (by omega)))
    (by intro x hx; rw [List.mem_singleton.1 hx]; exact hft)
    (by intro y hy; rw [List.mem_singleton.1 hy]; exact hfv 0 (by omega))
    hnan
  constructor
  · refine fp_isMinMax_congr _ _ _ _ ?_ r1
    intro x
    simp
  · refine fp_isMinMax_congr _ _ _ _ ?_ r2
    intro x
    have hmem : valueAt (readAt b.data b.start) 0 ∈
        (List.range num_data).map (valueAt (readAt b.data b.start)) :=
      List.mem_map.2 ⟨0, List.mem_range.2 (by omega), rfl⟩
    simp only [List.flatMap_cons, List.mem_append, List.mem_singleton, List.singleton_append,
      List.mem_cons]
    constructor
    · rintro (rfl | h)
      · exact Or.inl hmem
      · exact h
    · intro h
      exact Or.inr h

/-- C26, as stated, fails: a ring whose first logical sample holds a NaN (what
`atof` gives for the token `nan`).  Every comparison with a NaN is false, so
with the values NaN, 5, 7 the scan leaves `min_y` and `max_y` at NaN, and with
the timestamps NaN, 2, 3 it leaves `min_x` and `max_x` at NaN: the other
samples are ignored. -/
theorem draw_graph_range_nan_first :
    (contents ⟨[⟨Fp.fin 2, [Fp.fin 5]⟩, ⟨Fp.fin 3, [Fp.fin 7]⟩, ⟨Fp.fin 1, [Fp.nan]⟩],
        3, 2, 1, 3⟩).flatMap (fun p => (List.range 1).map (valueAt p)) =
      [Fp.nan, Fp.fin 5, Fp.fin 7] ∧
    (draw_graph_range 1
      ⟨[⟨Fp.fin 2, [Fp.fin 5]⟩, ⟨Fp.fin 3, [Fp.fin 7]⟩, ⟨Fp.fin 1, [Fp.nan]⟩],
        3, 2, 1, 3⟩).min_y = Fp.nan ∧
    (draw_graph_range 1
      ⟨[⟨Fp.fin 2, [Fp.fin 5]⟩, ⟨Fp.fin 3, [Fp.fin 7]⟩, ⟨Fp.fin 1, [Fp.nan]⟩],
        3, 2, 1, 3⟩).max_y = Fp.nan ∧
    (draw_graph_range 1
      ⟨[⟨Fp.fin 2, [Fp.fin 5]⟩, ⟨Fp.fin 3, [Fp.fin 7]⟩, ⟨Fp.fin 1, [Fp.nan]⟩],
        3, 2, 1, 3⟩).min_y.le (Fp.fin 5) = false ∧
    (contents ⟨[⟨Fp.nan, [Fp.fin 5]⟩, ⟨Fp.fin 2, [Fp.fin 5]⟩, ⟨Fp.fin 3, [Fp.fin 7]⟩],
        3, 0, 2, 3⟩).map DataPoint.timestamp = [Fp.nan, Fp.fin 2, Fp.fin 3] ∧
    (draw_graph_range 1
      ⟨[⟨Fp.nan, [Fp.fin 5]⟩, ⟨Fp.fin 2, [Fp.fin 5]⟩, ⟨Fp.fin 3, [Fp.fin 7]⟩],
        3, 0, 2, 3⟩).min_x = Fp.nan ∧
    (draw_graph_range 1
      ⟨[⟨Fp.nan, [Fp.fin 5]⟩, ⟨Fp.fin 2, [Fp.fin 5]⟩, ⟨Fp.fin 3, [Fp.fin 7]⟩],
        3, 0, 2, 3⟩).max_x = Fp.nan := by
  decide!

/-- C26 amended: for every ring state with `count >= 1`, any start index, and
`num_data >= 1`, in which no timestamp and none of the values `values[j]`, `j <
num_data`, of the `count` logical samples `data[(start + i) % size]` is a NaN
(infinite values included), the scan of `draw_graph` yields `min_x` and
`max_x` equal to the smallest and the largest timestamp of those samples, and
`min_y` and `max_y` equal to the smallest and the largest of their values
`values[j]`, `j < num_data`. -/
theorem draw_graph_range_min_max_no_nan (num_data : Nat) (b : DataBuffer)
    (h0 : 0 ≤ b.start) (h1 : b.start < b.size) (hc : 1 ≤ b.count) (hn : 1 ≤ num_data)
    (hnan : ∀ p ∈ contents b,
      p.timestamp ≠ Fp.nan ∧ ∀ j, j < num_data → valueAt p j ≠ Fp.nan) :
    IsMinMaxFp ((contents b).map DataPoint.timestamp) (draw_graph_range num_data b).min_x
      (draw_graph_range num_data b).max_x ∧
    IsMinMaxFp ((contents b).flatMap (fun p => (List.range num_data).map (valueAt p)))
      (draw_graph_range num_data b).min_y (draw_graph_range num_data b).max_y ∧
    (contents b).length = b.count.toNat ∧
    ∀ (i : Nat) (hi : i < (contents b).length),
      (contents b).get ⟨i, hi⟩ = readAt b.data (Int.tmod (b.start + Int.ofNat i) b.size) := by
  obtain ⟨r1, r2⟩ := scan_isMinMax_fp num_data b h0 h1 hc hn hnan
  refine ⟨r1, r2, by simp [contents], ?_⟩
  intro i hi
  simp [contents]

/-- Instance of `draw_graph_range_min_max_no_nan`: a wrapped ring of size 3
holding the samples (1, 10), (2, inf), (3, 20) from index 2 on, `num_data =
1`. -/
theorem draw_graph_range_min_max_no_nan_witness :
    IsMinMaxFp
      ((contents ⟨[⟨Fp.fin 2, [Fp.pinf]⟩, ⟨Fp.fin 3, [Fp.fin 20]⟩, ⟨Fp.fin 1, [Fp.fin 10]⟩],
        3, 2, 1, 3⟩).flatMap (fun p => (List.range 1).map (valueAt p)))
      (draw_graph_range 1
        ⟨[⟨Fp.fin 2, [Fp.pinf]⟩, ⟨Fp.fin 3, [Fp.fin 20]⟩, ⟨Fp.fin 1, [Fp.fin 10]⟩],
          3, 2, 1, 3⟩).min_y
      (draw_graph_range 1
        ⟨[⟨Fp.fin 2, [Fp.pinf]⟩, ⟨Fp.fin 3, [Fp.fin 20]⟩, ⟨Fp.fin 1, [Fp.fin 10]⟩],
          3, 2, 1, 3⟩).max_y :=
  (draw_graph_range_min_max_no_nan 1
    ⟨[⟨Fp.fin 2, [Fp.pinf]⟩, ⟨Fp.fin 3, [Fp.fin 20]⟩, ⟨Fp.fin 1, [Fp.fin 10]⟩], 3, 2, 1, 3⟩
    (by decide) (by decide) (by decide) (by decide) (by decide!)).2.1

end PthreadSerial.Floats

/-! ## serial_plotter_resize.c: update_graph on floats -/

namespace SerialPlotterResize.Floats

open Ieee

end SerialPlotterResize.Floats

/-! ## serial_plotter_resize.c: pixel columns of draw_graph in 64-bit arithmetic -/

namespace SerialPlotterResize

theorem wrapLong_id (x : Int) (h1 : -(2 ^ 63) ≤ x) (h2 : x < 2 ^ 63) : wrapLong x = x := by
  unfold wrapLong
  rw [Int.emod_eq_of_lt (by omega) (by omega)]
  omega

theorem wrapInt_id (x : Int) (h1 : -(2 ^ 31) ≤ x) (h2 : x < 2 ^ 31) : wrapInt x = x := by
  unfold wrapInt
  rw [Int.emod_eq_of_lt (by omega) (by omega)]
  omega

theorem xCoord_no_overflow (g : Graph) (p : DataPoint) (h1 : g.min_timestamp ≤ p.timestamp)
    (h2 : p.timestamp ≤ g.max_timestamp) (hlt : g.min_timestamp < g.max_timestamp)
    (hw : 2 * MARGIN ≤ g.width) (hw2 : g.width < 2 ^ 31)
    (hspan : g.max_timestamp - g.min_timestamp < 2 ^ 63)
    (hprod : (g.max_timestamp - g.min_timestamp) * (g.width - 2 * MARGIN) < 2 ^ 63) :
    xCoord g p =
      MARGIN + Int.tdiv ((p.timestamp - g.min_timestamp) * (g.width - 2 * MARGIN))
        (g.max_timestamp - g.min_timestamp) ∧
    MARGIN ≤ xCoord g p ∧ xCoord g p ≤ g.width - MARGIN := by
  have hM : MARGIN = 50 := rfl
  have b := tdiv_scaled_bounds p.timestamp g.min_timestamp g.max_timestamp
    (g.width - 2 * MARGIN) (by omega) hlt h1 h2
  have hk : 0 ≤ g.width - 2 * MARGIN := by omega
  have hp0 : 0 ≤ (p.timestamp - g.min_timestamp) * (g.width - 2 * MARGIN) :=
    mul_nonneg (by omega) hk
  have hp1 : (p.timestamp - g.min_timestamp) * (g.width - 2 * MARGIN) ≤
      (g.max_timestamp - g.min_timestamp) * (g.width - 2 * MARGIN) :=
    mul_le_mul_of_nonneg_right (by omega) hk
  have e1 : wrapLong (p.timestamp - g.min_timestamp) = p.timestamp - g.min_timestamp :=
    wrapLong_id _ (by omega) (by omega)
  have e2 : wrapInt (g.width - 2 * MARGIN) = g.width - 2 * MARGIN :=
    wrapInt_id _ (by omega) (by omega)
  have e3 : wrapLong ((p.timestamp - g.min_timestamp) * (g.width - 2 * MARGIN)) =
      (p.timestamp - g.min_timestamp) * (g.width - 2 * MARGIN) :=
    wrapLong_id _ (by omega) (by omega)
  have e4 : wrapLong (g.max_timestamp - g.min_timestamp) =
      g.max_timestamp - g.min_timestamp := wrapLong_id _ (by omega) (by omega)
  have e : xCoord g p =
      MARGIN + Int.tdiv ((p.timestamp - g.min_timestamp) * (g.width - 2 * MARGIN))
        (g.max_timestamp - g.min_timestamp) := by
    unfold xCoord
    rw [e1, e2, e3, e4, wrapLong_id _ (by omega) (by omega), wrapInt_id _ (by omega) (by omega)]
  rw [e]
  refine ⟨rfl, by omega, by omega⟩

/-- C29, as stated, fails.  For a buffer holding the single sample with
timestamp 5000 the degenerate substitution sets the timestamp range to 0 ..
1000, and with the width 800 the sample gets the x coordinate 50 + 5000 * 700
/ 1000 = 3550, right of the plot area, which ends at 750.  For the timestamps
0 and 2^61 the product 2^61 * 700 does not fit a `long`: reduced to 64 bits it
is -2^63, and the second sample gets the x coordinate 50 - 4 = 46, left of
the plot area. -/
theorem draw_graph_x_out_of_plot :
    (bufferedTimestamps
      ⟨[⟨5000, [1, 0, 0, 0, 0, 0, 0, 0]⟩], 1, ⟨800, 600, 1, 0, 1000, 0, 1, defaultColors⟩,
        false⟩ = [5000] ∧
      (update_graph
        ⟨[⟨5000, [1, 0, 0, 0, 0, 0, 0, 0]⟩], 1, ⟨800, 600, 1, 0, 1000, 0, 1, defaultColors⟩,
          false⟩).graph.width = 800 ∧
      xCoord
        (update_graph
          ⟨[⟨5000, [1, 0, 0, 0, 0, 0, 0, 0]⟩], 1, ⟨800, 600, 1, 0, 1000, 0, 1, defaultColors⟩,
            false⟩).graph
        ⟨5000, [1, 0, 0, 0, 0, 0, 0, 0]⟩ = 3550 ∧
      ¬ xCoord
          (update_graph
            ⟨[⟨5000, [1, 0, 0, 0, 0, 0, 0, 0]⟩], 1,
              ⟨800, 600, 1, 0, 1000, 0, 1, defaultColors⟩, false⟩).graph
          ⟨5000, [1, 0, 0, 0, 0, 0, 0, 0]⟩ ≤
        (update_graph
          ⟨[⟨5000, [1, 0, 0, 0, 0, 0, 0, 0]⟩], 1, ⟨800, 600, 1, 0, 1000, 0, 1, defaultColors⟩,
            false⟩).graph.width - MARGIN) ∧
    (bufferedTimestamps
      ⟨[⟨0, [1, 0, 0, 0, 0, 0, 0, 0]⟩, ⟨2 ^ 61, [2, 0, 0, 0, 0, 0, 0, 0]⟩], 2,
        ⟨800, 600, 1, 0, 1000, 0, 1, defaultColors⟩, false⟩ = [0, 2 ^ 61] ∧
      xCoord
        (update_graph
          ⟨[⟨0, [1, 0, 0, 0, 0, 0, 0, 0]⟩, ⟨2 ^ 61, [2, 0, 0, 0, 0, 0, 0, 0]⟩], 2,
            ⟨800, 600, 1, 0, 1000, 0, 1, defaultColors⟩, false⟩).graph
        ⟨2 ^ 61, [2, 0, 0, 0, 0, 0, 0, 0]⟩ = 46 ∧
      ¬ MARGIN ≤ xCoord
        (update_graph
          ⟨[⟨0, [1, 0, 0, 0, 0, 0, 0, 0]⟩, ⟨2 ^ 61, [2, 0, 0, 0, 0, 0, 0, 0]⟩], 2,
            ⟨800, 600, 1, 0, 1000, 0, 1, defaultColors⟩, false⟩).graph
        ⟨2 ^ 61, [2, 0, 0, 0, 0, 0, 0, 0]⟩) := by
  decide!

/-- C29 amended: for every non-empty buffer with non-decreasing timestamps
whose first and last timestamps differ, and every `graph.width` with `2 *
MARGIN <= width < 2^31`, such that the span `last - first` and the product
`(last - first) * (width - 2 * MARGIN)` are below `2^63`, after `update_graph`
the x coordinate `draw_graph` computes for every buffered sample is `MARGIN +
(timestamp - min_timestamp) * (width - 2 * MARGIN) / (max_timestamp -
min_timestamp)`, with no overflow, and lies within the plot area: `MARGIN <= x
<= width - MARGIN`. -/
theorem draw_graph_x_in_plot (s : State) (w : Int) (hsize : 0 < s.buffer_size)
    (hlen : s.buffer_size.toNat ≤ s.buffer.length)
    (hsorted : (bufferedTimestamps s).Pairwise (fun a b => a ≤ b))
    (hnd : (bufferAt s.buffer 0).timestamp ≠ (bufferAt s.buffer (s.buffer_size - 1)).timestamp)
    (hw : 2 * MARGIN ≤ w) (hw2 : w < 2 ^ 31)
    (hspan : (bufferAt s.buffer (s.buffer_size - 1)).timestamp -
      (bufferAt s.buffer 0).timestamp < 2 ^ 63)
    (hprod : ((bufferAt s.buffer (s.buffer_size - 1)).timestamp -
      (bufferAt s.buffer 0).timestamp) * (w - 2 * MARGIN) < 2 ^ 63) :
    ∀ p ∈ (update_graph s).buffer.take (update_graph s).buffer_size.toNat,
      xCoord { (update_graph s).graph with width := w } p =
        MARGIN + Int.tdiv
          ((p.timestamp - (update_graph s).graph.min_timestamp) * (w - 2 * MARGIN))
          ((update_graph s).graph.max_timestamp - (update_graph s).graph.min_timestamp) ∧
      MARGIN ≤ xCoord { (update_graph s).graph with width := w } p ∧
      xCoord { (update_graph s).graph with width := w } p ≤ w - MARGIN := by
  obtain ⟨lo, hi, -, hu⟩ := update_graph_nonempty s hsize
  have hbt := bufferedTimestamps_between s hsize hlen hsorted
  have hl := bufferedTimestamps_length s hlen
  have h0 : 0 < (bufferedTimestamps s).length := by omega
  have e0 : (bufferedTimestamps s)[0] = (bufferAt s.buffer 0).timestamp :=
    bufferedTimestamps_getElem s 0 h0 (by omega)
  have hfirst := hbt (bufferAt s.buffer 0).timestamp (by
    rw [← e0]
    exact List.getElem_mem _)
  have hlt : (bufferAt s.buffer 0).timestamp < (bufferAt s.buffer (s.buffer_size - 1)).timestamp :=
    lt_of_le_of_ne hfirst.2 hnd
  intro p hp
  rw [hu] at hp ⊢
  simp only at hp
  have hpt := hbt p.timestamp (List.mem_map.2 ⟨p, hp, rfl⟩)
  simp only [if_neg hnd]
  exact xCoord_no_overflow _ p hpt.1 hpt.2 hlt hw hw2 hspan hprod

/-- Instance of `draw_graph_x_in_plot`: buffered timestamps 1, 2, 3 and the
width 1024. -/
theorem draw_graph_x_in_plot_witness :
    MARGIN ≤ xCoord
      { (update_graph
          ⟨[⟨1, [1, 0, 0, 0, 0, 0, 0, 0]⟩, ⟨2, [2, 0, 0, 0, 0, 0, 0, 0]⟩,
            ⟨3, [3, 0, 0, 0, 0, 0, 0, 0]⟩], 3,
            ⟨800, 600, 1, 0, 1000, 0, 1, defaultColors⟩, false⟩).graph with width := 1024 }
      ⟨2, [2, 0, 0, 0, 0, 0, 0, 0]⟩ ∧
    xCoord
      { (update_graph
          ⟨[⟨1, [1, 0, 0, 0, 0, 0, 0, 0]⟩, ⟨2, [2, 0, 0, 0, 0, 0, 0, 0]⟩,
            ⟨3, [3, 0, 0, 0, 0, 0, 0, 0]⟩], 3,
            ⟨800, 600, 1, 0, 1000, 0, 1, defaultColors⟩, false⟩).graph with width := 1024 }
      ⟨2, [2, 0, 0, 0, 0, 0, 0, 0]⟩ ≤ 1024 - MARGIN :=
  (draw_graph_x_in_plot
    ⟨[⟨1, [1, 0, 0, 0, 0, 0, 0, 0]⟩, ⟨2, [2, 0, 0, 0, 0, 0, 0, 0]⟩,
      ⟨3, [3, 0, 0, 0, 0, 0, 0, 0]⟩], 3,
      ⟨800, 600, 1, 0, 1000, 0, 1, defaultColors⟩, false⟩ 1024
    (by decide) (by decide) (by decide) (by decide) (by decide) (by decide) (by decide)
    (by decide) ⟨2, [2, 0, 0, 0, 0, 0, 0, 0]⟩ (by decide!)).2

end SerialPlotterResize

/-! ## wayland_plotter2.c: range scan and pixel rows of draw_graph -/

namespace WaylandPlotter2

end WaylandPlotter2
